import Mathlib

/-!
# SAFS and flash-graph: file mappers, page cells, the associative cache,
vertex splitting and edge counting

A shallow embedding of parts of libsafs: the three `file_mapper` subclasses
`RAID0_mapper`, `RAID5_mapper` and `hash_mapper` (file_mapper.h), `page_cell`,
the eviction policies and the cell lookup of `associative_cache`
(associative_cache.h), `io_interface::set_callback` (io_interface.h) and
`simple_msg_sender` (messaging.h); and of parts of flash-graph:
`split_vertices` (worker_thread.cpp) and the three counting methods of
`neighbor_list` (libgraph-algs/scan_graph.cpp).

## File mappers (libsafs/file_mapper.h)

The C++ code computes on the signed types `off_t` (64 bits) and `int`
(32 bits).  They are embedded as `Int`, the C++ operators `/` and `%` (which
truncate towards zero) as `Int.tdiv` and `Int.tmod`, and every sum, product
and narrowing conversion as the two's complement value that the compiled code
produces: `to_off_t` where the source adds or multiplies in `off_t`, `to_int`
where it does so in `int` or converts a value to `int`.  The operands of a
mixed operation are converted to `off_t` first, as in C++.

The static member `rand_start` and the two fields `get_num_files()` and
`STRIPE_BLOCK_SIZE` of a mapper are explicit parameters of every function;
they and the offset are taken to be values of their types.
-/

namespace safs

/-- The value of an integer converted to the 32-bit type `int`. -/
def to_int (x : Int) : Int :=
  (x + 2 ^ 31) % 2 ^ 32 - 2 ^ 31

/-- The value of an integer converted to the 64-bit type `off_t`. -/
def to_off_t (x : Int) : Int :=
  (x + 2 ^ 63) % 2 ^ 64 - 2 ^ 63

/-- The constant `FILE_CONST_A` of file_mapper.h. -/
def FILE_CONST_A : Int := 31

/-- The constant `FILE_CONST_P` of file_mapper.h. -/
def FILE_CONST_P : Int := 191

/-- The struct `block_identifier`: `idx` identifies the file where the block
is, `off` is the location in the file. -/
structure block_identifier where
  idx : Int
  off : Int
deriving DecidableEq

namespace RAID0_mapper

/-- The method `RAID0_mapper::map`; the result is the value written to `bid`.
The sum `block_idx + rand_start` and the product and sum of `bid.off` are
computed in `off_t`. -/
def map (num_files STRIPE_BLOCK_SIZE rand_start : Int) (off : Int) : block_identifier :=
  let idx_in_block := to_int (off.tmod STRIPE_BLOCK_SIZE)
  let block_idx := off.tdiv STRIPE_BLOCK_SIZE
  { idx := to_int ((to_off_t (block_idx + rand_start)).tmod num_files)
    off := to_off_t (to_off_t ((block_idx.tdiv num_files) * STRIPE_BLOCK_SIZE) + idx_in_block) }

/-- The method `RAID0_mapper::map2file`. -/
def map2file (num_files STRIPE_BLOCK_SIZE rand_start : Int) (off : Int) : Int :=
  to_int ((to_off_t ((off.tdiv STRIPE_BLOCK_SIZE) + rand_start)).tmod num_files)

end RAID0_mapper

namespace RAID5_mapper

/-- The method `RAID5_mapper::map`; `bid.idx` is assigned twice in the source,
`idx0` is its first value.  The sum `bid.idx + shift + rand_start` has three
operands of type `int` and is computed in `int`. -/
def map (num_files STRIPE_BLOCK_SIZE rand_start : Int) (off : Int) : block_identifier :=
  let idx_in_block := to_int (off.tmod STRIPE_BLOCK_SIZE)
  let block_idx := off.tdiv STRIPE_BLOCK_SIZE
  let idx0 := to_int (block_idx.tmod num_files)
  let off1 := to_off_t (to_off_t ((block_idx.tdiv num_files) * STRIPE_BLOCK_SIZE) + idx_in_block)
  let shift := to_int ((block_idx.tdiv num_files).tmod num_files)
  { idx := (to_int (to_int (idx0 + shift) + rand_start)).tmod num_files
    off := off1 }

/-- The method `RAID5_mapper::map2file`.  Here the first operand of the sum,
`block_idx % get_num_files()`, is an `off_t`, so the sum is computed in
`off_t`. -/
def map2file (num_files STRIPE_BLOCK_SIZE rand_start : Int) (off : Int) : Int :=
  let block_idx := off.tdiv STRIPE_BLOCK_SIZE
  let shift := to_int ((block_idx.tdiv num_files).tmod num_files)
  to_int ((to_off_t (to_off_t (block_idx.tmod num_files + shift) + rand_start)).tmod num_files)

end RAID5_mapper

namespace hash_mapper

/-- The member `CONST_A` of `hash_mapper`. -/
def CONST_A : Int := FILE_CONST_A

/-- The member `CONST_P` of `hash_mapper`. -/
def CONST_P : Int := FILE_CONST_P

/-- The member `P_MOD_N`, set by the constructor to `CONST_P % files.size()`
(an unsigned remainder, and `files.size()` is `get_num_files()`). -/
def P_MOD_N (num_files : Int) : Int :=
  CONST_P.tmod num_files

/-- The method `hash_mapper::cycle_size_in_bucket`. -/
def cycle_size_in_bucket (num_files : Int) (idx : Int) : Int :=
  if idx < P_MOD_N num_files then CONST_P.tdiv num_files + 1
  else CONST_P.tdiv num_files

/-- The method `hash_mapper::map`; the result is the value written to `bid`.
The product `CONST_A * block_idx` and the sums and products of `bid.off` are
computed in `off_t`. -/
def map (num_files STRIPE_BLOCK_SIZE : Int) (off : Int) : block_identifier :=
  let idx_in_block := to_int (off.tmod STRIPE_BLOCK_SIZE)
  let block_idx := off.tdiv STRIPE_BLOCK_SIZE
  let p_idx := (to_off_t (CONST_A * block_idx)).tmod CONST_P
  let idx := to_int (p_idx.tmod num_files)
  let cycle_idx := block_idx.tdiv CONST_P
  let cycle_len_in_bucket := cycle_size_in_bucket num_files idx
  { idx := idx
    off := to_off_t (to_off_t (to_off_t (to_off_t (cycle_idx * cycle_len_in_bucket)
      + p_idx.tdiv num_files) * STRIPE_BLOCK_SIZE) + idx_in_block) }

/-- The method `hash_mapper::map2file`. -/
def map2file (num_files STRIPE_BLOCK_SIZE : Int) (off : Int) : Int :=
  let block_idx := off.tdiv STRIPE_BLOCK_SIZE
  let p_idx := (to_off_t (CONST_A * block_idx)).tmod CONST_P
  to_int (p_idx.tmod num_files)

end hash_mapper

/-- The number of logical block indices `b` in `[s, s + len)` that the given
`map2file` sends to file `i`; block `b` is addressed by its first offset
`b * STRIPE_BLOCK_SIZE`. -/
def blocks_on_file (map2file : Int → Int) (STRIPE_BLOCK_SIZE : Int) (s : Int) (len : Nat)
    (i : Int) : Nat :=
  ((List.range len).filter
    (fun (d : Nat) => map2file ((s + (d : Int)) * STRIPE_BLOCK_SIZE) = i)).length

/-- Modelled from the spec: the class `thread_safe_page` is declared in
cache.h, which is missing.  The spec gives a page a "reference count", a
"dirty flag" and a "hit counter"; `data` tells whether `get_data()`, the data
buffer that `page_cell::get_page` asserts, is non-null. -/
structure thread_safe_page where
  data : Bool
  ref : Nat
  dirty : Bool
  hits : Nat
deriving DecidableEq

/-- The members of the class template `page_cell<T>`, for `T = thread_safe_page`;
`maps` and `buf` have `CELL_SIZE` entries. -/
structure page_cell where
  idx : Nat
  num_pages : Nat
  maps : List Nat
  buf : List thread_safe_page
deriving DecidableEq

namespace page_cell

set_option linter.dupNamespace false in
/-- The constructor `page_cell::page_cell()`.  The constant `CELL_SIZE`
(parameters.h) and the default-constructed page that fills `buf` (cache.h) are
missing from the sources and are parameters. -/
def page_cell (CELL_SIZE : Nat) (default_page : thread_safe_page) : safs.page_cell :=
  { idx := 0
    num_pages := 0
    maps := List.replicate CELL_SIZE 0
    buf := List.replicate CELL_SIZE default_page }

/-- The method `page_cell::get_num_pages`. -/
def get_num_pages (c : safs.page_cell) : Nat :=
  c.num_pages

/-- The method `page_cell::get_page`: the slot `maps[i]` of `buf`, provided the
page there passes `assert(ret->get_data())`. -/
def get_page (c : safs.page_cell) (i : Nat) : Option Nat :=
  match c.maps[i]? with
  | none => none
  | some real_idx =>
    match c.buf[real_idx]? with
    | none => none
    | some ret => if ret.data then some real_idx else none

/-- The method `page_cell::steal_page`.  The body of `rebuild_map` is missing
from the sources, so it is a parameter; `num_pages--` is a decrement of an
`unsigned char`. -/
def steal_page (rebuild_map : safs.page_cell → safs.page_cell) (c : safs.page_cell)
    (pg : thread_safe_page) (rebuild : Bool) : Option safs.page_cell :=
  if pg.ref = 0 then
    let c1 := { c with num_pages := (c.num_pages + 255) % 256 }
    if rebuild then some (rebuild_map c1) else some c1
  else none

/-- The loop `while (idx >= num_pages) idx -= num_pages;` of
`page_cell::get_empty_page`, run for at most `fuel` tests of its condition. -/
def wrap_idx : Nat → Nat → Nat → Option Nat
  | 0, _, _ => none
  | fuel + 1, idx, num_pages =>
    if idx ≥ num_pages then wrap_idx fuel (idx - num_pages) num_pages else some idx

/-- The method `page_cell::get_empty_page`: the returned slot and the cell
after the call.  The loop tests its condition at most `idx + 1` times when it
ends at all, so that is the fuel. -/
def get_empty_page (c : safs.page_cell) : Option (Nat × safs.page_cell) :=
  match wrap_idx (c.idx + 1) c.idx c.num_pages with
  | none => none
  | some i =>
    match get_page c i with
    | none => none
    | some ret => some (ret, { c with idx := (i + 1) % 256 })

/-- The body of the loop of `page_cell::scale_down_hits` for one `i`:
`pg->set_hits(pg->get_hits() / 2)` on `pg = get_page(i)`. -/
def scale_down_hit (c : safs.page_cell) (i : Nat) : Option safs.page_cell :=
  match get_page c i with
  | none => none
  | some slot =>
    match c.buf[slot]? with
    | none => none
    | some pg => some { c with buf := c.buf.set slot { pg with hits := pg.hits / 2 } }

/-- The method `page_cell::scale_down_hits`: the loop over `i < num_pages`. -/
def scale_down_hits (c : safs.page_cell) : Option safs.page_cell :=
  (List.range c.num_pages).foldlM scale_down_hit c

/-- The state of `scale_down_hits` after its loop has handled the indices
below `k`, as a relation between the cell `c` at the call and the cell `ck`
reached: only the hit counters of the slots `maps[0..k)` have changed, and
they are halved. -/
def halved_upto (c ck : safs.page_cell) (k : Nat) : Prop :=
  ck.idx = c.idx ∧ ck.num_pages = c.num_pages ∧ ck.maps = c.maps ∧
    ∀ s : Nat, ck.buf[s]? = (c.buf[s]?).map
      (fun pg => if s ∈ c.maps.take k then { pg with hits := pg.hits / 2 } else pg)

end page_cell

/-- Modelled from the spec: the pages a policy may choose, "currently
unreferenced (ref==0), non-dirty pages". -/
def evictable (pg : thread_safe_page) : Bool :=
  pg.ref == 0 && !pg.dirty

/-- The page that the cell exposes at position `i < num_pages`, with its slot. -/
def exposed_page (buf : page_cell) (i : Nat) : Option (Nat × thread_safe_page) :=
  if i < buf.num_pages then
    match page_cell.get_page buf i with
    | none => none
    | some slot => (buf.buf[slot]?).map (fun pg => (slot, pg))
  else none

/-- The slot of the first page, in the order in which the positions `order`
are inspected, that satisfies `p`. -/
def first_page (buf : page_cell) (p : thread_safe_page → Bool) (order : List Nat) :
    Option Nat :=
  order.findSome? (fun i =>
    match exposed_page buf i with
    | none => none
    | some (slot, pg) => if p pg then some slot else none)

/-- The positions of the cell in slot order, starting from position
`start mod num_pages` and wrapping around. -/
def circular_order (buf : page_cell) (start : Nat) : List Nat :=
  (List.range buf.num_pages).map (fun (j : Nat) => (start + j) % buf.num_pages)

namespace LRU_eviction_policy

/-- Modelled from the spec: `LRU_eviction_policy::evict_page`, which
"maintains a position vector updated on every access" and "evicts the
least-recently-touched unreferenced page"; `pos_vec` lists the positions from
the least to the most recently touched one. -/
def evict_page (pos_vec : List Nat) (buf : page_cell) : Option Nat :=
  first_page buf evictable pos_vec

end LRU_eviction_policy

namespace clock_eviction_policy

/-- Modelled from the spec: `clock_eviction_policy::evict_page`, "a single
rotating hand (clock_head) that inspects pages in slot order, clearing/checking
a recently used condition (approximated via hit count comparisons) until it
finds a victim".  The first sweep stops at an unreferenced, non-dirty page
whose hit counter is 0 and clears the counters it passes, so a second sweep
stops at the first unreferenced, non-dirty page. -/
def evict_page (clock_head : Nat) (buf : page_cell) : Option Nat :=
  match first_page buf (fun pg => evictable pg && pg.hits == 0)
      (circular_order buf clock_head) with
  | some victim => some victim
  | none => first_page buf evictable (circular_order buf clock_head)

end clock_eviction_policy

namespace gclock_eviction_policy

/-- Modelled from the spec: `gclock_eviction_policy::evict_page`; the spec says
that Generalized Clock "extends Clock" with `predict_evicted_pages` and
`assign_flush_scores`, so the victim is chosen as by Clock. -/
def evict_page (clock_head : Nat) (buf : page_cell) : Option Nat :=
  clock_eviction_policy.evict_page clock_head buf

end gclock_eviction_policy

namespace LFU_eviction_policy

/-- The hit counters of the unreferenced, non-dirty pages of the cell. -/
def candidate_hits (buf : page_cell) : List Nat :=
  (List.range buf.num_pages).filterMap (fun (i : Nat) =>
    match exposed_page buf i with
    | none => none
    | some (_, pg) => if evictable pg then some pg.hits else none)

/-- Modelled from the spec: `LFU_eviction_policy::evict_page`, "trivial
frequency-count ... victim selection": the first unreferenced, non-dirty page
with the smallest hit counter. -/
def evict_page (buf : page_cell) : Option Nat :=
  match (candidate_hits buf).min? with
  | none => none
  | some least =>
    first_page buf (fun pg => evictable pg && pg.hits == least) (List.range buf.num_pages)

end LFU_eviction_policy

namespace FIFO_eviction_policy

/-- Modelled from the spec: `FIFO_eviction_policy::evict_page`, "trivial ...
insertion-order victim selection": pages are inserted at the circular cursor
`idx` of the cell, so the first unreferenced, non-dirty page from the cursor
on is the victim. -/
def evict_page (buf : page_cell) : Option Nat :=
  first_page buf evictable (circular_order buf buf.idx)

end FIFO_eviction_policy

/-- The five eviction policies with their state: the position vector of LRU
and the hand of Clock and Generalized Clock. -/
inductive eviction_policy where
  | LRU (pos_vec : List Nat)
  | Clock (clock_head : Nat)
  | GClock (clock_head : Nat)
  | LFU
  | FIFO

/-- The method `evict_page` of the given policy. -/
def eviction_policy.evict_page : eviction_policy → page_cell → Option Nat
  | eviction_policy.LRU pos_vec, buf => LRU_eviction_policy.evict_page pos_vec buf
  | eviction_policy.Clock clock_head, buf => clock_eviction_policy.evict_page clock_head buf
  | eviction_policy.GClock clock_head, buf => gclock_eviction_policy.evict_page clock_head buf
  | eviction_policy.LFU, buf => LFU_eviction_policy.evict_page buf
  | eviction_policy.FIFO, buf => FIFO_eviction_policy.evict_page buf

/-! ## associative_cache (libsafs/associative_cache.h)

The fields of type `int` are embedded as `Int`; a conversion between `int`,
`unsigned int` and `long` is written out where the source has one. -/

/-- The value of an integer converted to the 32-bit type `unsigned int`. -/
def to_unsigned (x : Int) : Int :=
  x % 2 ^ 32

/-- Modelled from the spec: the type `page_id_t` is declared in cache.h, which
is missing; the spec gives the page key as "(file_id: integer, offset: integer
multiple of page size)". -/
structure page_id_t where
  file_id : Int
  offset : Int
deriving DecidableEq

/-- A pointer `hash_cell *` into the table: entry `idx` of the cell array
`cells_table[cells_idx]`. -/
structure cell_ptr where
  cells_idx : Nat
  idx : Int
deriving DecidableEq

/-- The members of `associative_cache` that the lookup of a cell reads.
`cells_table` tells of every entry of the vector whether its array pointer is
non-null. -/
structure associative_cache where
  cells_table : List Bool
  offset_factor : Int
  init_ncells : Int
  level : Int
  split : Int

namespace associative_cache

/-- The method `associative_cache::hash`.  The constant `PAGE_SIZE` and the
function `universal_hash` are missing from the sources and are parameters;
`1 << level` is embedded as `2 ^ level`.  The result is `none` when the
division by `PAGE_SIZE` or by `offset_factor` is a division by zero, which
stops the program. -/
def hash (PAGE_SIZE : Int) (universal_hash : Int → Int → Int) (cache : associative_cache)
    (pg_id : page_id_t) : Option Int :=
  if PAGE_SIZE = 0 ∨ cache.offset_factor = 0 then none
  else
    let num_cells := to_int (cache.init_ncells * 2 ^ cache.level.toNat)
    some (universal_hash
      ((pg_id.offset.tdiv PAGE_SIZE).tdiv cache.offset_factor + pg_id.file_id) num_cells)

/-- The method `associative_cache::hash1`, the hash function of the next
level; `none` for a division by zero, as in `hash`. -/
def hash1 (PAGE_SIZE : Int) (universal_hash : Int → Int → Int) (cache : associative_cache)
    (pg_id : page_id_t) : Option Int :=
  if PAGE_SIZE = 0 ∨ cache.offset_factor = 0 then none
  else
    let num_cells := to_int (cache.init_ncells * 2 ^ (cache.level + 1).toNat)
    some (universal_hash
      ((pg_id.offset.tdiv PAGE_SIZE).tdiv cache.offset_factor + pg_id.file_id) num_cells)

/-- The method `associative_cache::get_cell` on its `unsigned int` argument:
`none` when the division by `init_ncells` is a division by zero or
`assert(cells_idx < cells_table.size())` fails, `some none` for the null
pointer. -/
def get_cell (cache : associative_cache) (global_idx : Int) : Option (Option cell_ptr) :=
  if to_unsigned cache.init_ncells = 0 then none
  else
    let cells_idx := global_idx / to_unsigned cache.init_ncells
    let idx := to_int (global_idx % to_unsigned cache.init_ncells)
    match cache.cells_table[cells_idx.toNat]? with
    | none => none
    | some cells => if cells then some (some { cells_idx := cells_idx.toNat, idx := idx })
      else some none

/-- The value of the local variable `global_idx` of
`associative_cache::get_cell_offset` when it is passed to `get_cell`: `hash1`
is called when `hash` has returned an index below `split`. -/
def selected_idx (PAGE_SIZE : Int) (universal_hash : Int → Int → Int)
    (cache : associative_cache) (pg_id : page_id_t) : Option Int :=
  match hash PAGE_SIZE universal_hash cache pg_id with
  | none => none
  | some global_idx =>
    if global_idx < cache.split then hash1 PAGE_SIZE universal_hash cache pg_id
    else some global_idx

/-- The method `associative_cache::get_cell_offset` in a run with no concurrent
writer: `table_lock.read_unlock(count)` then succeeds after the first pass
through the loop body.  `none` when a division by zero or a failed assertion
stops the program. -/
def get_cell_offset (PAGE_SIZE : Int) (universal_hash : Int → Int → Int)
    (cache : associative_cache) (pg_id : page_id_t) : Option cell_ptr :=
  match selected_idx PAGE_SIZE universal_hash cache pg_id with
  | none => none
  | some global_idx =>
    match get_cell cache (to_unsigned global_idx) with
    | some (some cell) => some cell
    | _ => none

end associative_cache

/-! ## Construction of the file mappers (libsafs/file_mapper.h) -/

/-- Modelled from the spec: the class `part_file_info` is declared in
safs_file.h, which is missing; the spec describes it as "physical file name +
NUMA node + disk id". -/
structure part_file_info where
  file_name : String
  node_id : Int
  disk_id : Int
deriving DecidableEq

/-- How a constructor call ends when it produces no object. -/
inductive construction_failure where
  | assertion_failed
  | division_by_zero
deriving DecidableEq

/-- The members of the class `file_mapper`. -/
structure file_mapper where
  file_id : Int
  files : List part_file_info
  file_name : String
  STRIPE_BLOCK_SIZE : Int
deriving DecidableEq

namespace file_mapper

/-- Modelled from the spec: the macro `ASSERT_TRUE` is missing from the sources;
by the spec a failed check makes the construction "fail fast ... (assertion /
thrown error)". -/
def ASSERT_TRUE (cond : Bool) : Except construction_failure Unit :=
  if cond then Except.ok () else Except.error construction_failure.assertion_failed

set_option linter.dupNamespace false in
/-- The constructor `file_mapper::file_mapper`; `new_file_id` is the value that
`file_id_gen.inc(1)` returns. -/
def file_mapper (new_file_id : Int) (name : String) (files : List part_file_info)
    (block_size : Int) : Except construction_failure safs.file_mapper :=
  match ASSERT_TRUE (decide (block_size > 0)) with
  | Except.error e => Except.error e
  | Except.ok _ =>
    Except.ok { file_id := new_file_id, files := files, file_name := name,
                STRIPE_BLOCK_SIZE := block_size }

/-- The method `file_mapper::get_num_files`. -/
def get_num_files (m : safs.file_mapper) : Int :=
  (m.files.length : Int)

end file_mapper

namespace RAID0_mapper

set_option linter.dupNamespace false in
/-- The constructor `RAID0_mapper::RAID0_mapper`, which only calls the
constructor of `file_mapper`. -/
def RAID0_mapper (new_file_id : Int) (name : String) (files : List part_file_info)
    (block_size : Int) : Except construction_failure file_mapper :=
  file_mapper.file_mapper new_file_id name files block_size

end RAID0_mapper

namespace RAID5_mapper

set_option linter.dupNamespace false in
/-- The constructor `RAID5_mapper::RAID5_mapper`, which only calls the
constructor of `file_mapper`. -/
def RAID5_mapper (new_file_id : Int) (name : String) (files : List part_file_info)
    (block_size : Int) : Except construction_failure file_mapper :=
  file_mapper.file_mapper new_file_id name files block_size

end RAID5_mapper

namespace hash_mapper

/-- The members of a `hash_mapper` object: those of `file_mapper` and the
value of `P_MOD_N`. -/
structure members where
  base : file_mapper
  p_mod_n : Int
deriving DecidableEq

set_option linter.dupNamespace false in
/-- The constructor `hash_mapper::hash_mapper`: the constructor of
`file_mapper`, then `P_MOD_N(CONST_P % files.size())`, a remainder by zero
when the list is empty. -/
def hash_mapper (new_file_id : Int) (name : String) (files : List part_file_info)
    (block_size : Int) : Except construction_failure members :=
  match file_mapper.file_mapper new_file_id name files block_size with
  | Except.error e => Except.error e
  | Except.ok base =>
    if files.length = 0 then Except.error construction_failure.division_by_zero
    else Except.ok { base := base, p_mod_n := P_MOD_N (files.length : Int) }

end hash_mapper

/-! ## io_interface (libsafs/io_interface.h) -/

/-- The exceptions that the methods of `io_interface` throw. -/
inductive safs_exception where
  | unsupported_exception
deriving DecidableEq

namespace io_interface

/-- The method `io_interface::support_aio` of the base class. -/
def support_aio : Bool :=
  false

/-- The method `io_interface::set_callback` of the base class; the callback
pointer is embedded as a number. -/
def set_callback (_cb : Nat) : Except safs_exception Bool :=
  Except.error safs_exception.unsupported_exception

end io_interface

/-! ## Message senders (libsafs/messaging.h)

An object of type `T` is embedded as its serialized size, a `message<T>` as
the members that `add` uses, and the `fifo_queue` of messages under
`msg_buffer<T>` as the list of its messages, the front first. -/

/-- The value of an integer converted to the 16-bit type `short`. -/
def to_short (x : Int) : Int :=
  (x + 2 ^ 15) % 2 ^ 16 - 2 ^ 15

/-- The class template `message<T>`: `size` is the value of `size()`, whose
body is missing, and `objs` lists the objects serialized into the buffer.  The
members `curr_add_off` and `num_objs` are of type `short`. -/
structure message where
  size : Int
  curr_add_off : Int
  num_objs : Int
  objs : List Int
deriving DecidableEq

namespace message

/-- The method `message::add`: the message after the call and `num_added`.
The difference `size() - curr_add_off` is computed in `int`; the sum
`curr_add_off + serialize(...)` and the increment of `num_objs` are stored in
a `short`. -/
def add (m : message) : List Int → message × Nat
  | [] => (m, 0)
  | obj :: rest =>
    let remaining := to_int (m.size - m.curr_add_off)
    if remaining < obj then (m, 0)
    else
      let r := add { m with curr_add_off := to_short (m.curr_add_off + obj)
                            num_objs := to_short (m.num_objs + 1)
                            objs := m.objs ++ [obj] } rest
      (r.1, r.2 + 1)

end message

namespace msg_buffer

/-- The loop of `msg_buffer::add_objs`, run for at most `fuel` passes; a new
message has the size `msg_size` that the allocator gives it.  The result is
the queue of messages and `num_added`. -/
def add_objs_loop (msg_size : Int) : Nat → List message → List Int → Nat →
    Option (List message × Nat)
  | 0, _, _, _ => none
  | fuel + 1, msgs, objs, num_added =>
    if objs.length > 0 then
      match msgs.getLast? with
      | none => none
      | some back =>
        let r := message.add back objs
        if r.2 = 0 then
          add_objs_loop msg_size fuel
            (msgs ++ [{ size := msg_size, curr_add_off := 0, num_objs := 0, objs := [] }])
            objs num_added
        else
          add_objs_loop msg_size fuel (msgs.dropLast ++ [r.1]) (objs.drop r.2)
            (num_added + r.2)
    else some (msgs, num_added)

/-- The method `msg_buffer::add_objs`.  Every pass of its loop adds an object
or a new message, and an object that fits into an empty message is added in
the pass after a new message, so `2 * num + 1` passes are enough unless the
loop never ends. -/
def add_objs (msg_size : Int) (msgs : List message) (objs : List Int) :
    Option (List message × Nat) :=
  let msgs1 := if msgs.isEmpty then
      [{ size := msg_size, curr_add_off := 0, num_objs := 0, objs := [] }]
    else msgs
  add_objs_loop msg_size (2 * objs.length + 1) msgs1 objs 0

end msg_buffer

/-- The members of `simple_msg_sender<T>`: the messages of `buf` and
`num_objs`; `msg_size` is the size of the messages that `buf` creates. -/
structure simple_msg_sender where
  msg_size : Int
  buf : List message
  num_objs : Int
deriving DecidableEq

namespace simple_msg_sender

/-- The constructor `simple_msg_sender::simple_msg_sender`. -/
def create (msg_size : Int) : simple_msg_sender :=
  { msg_size := msg_size, buf := [], num_objs := 0 }

/-- The method `simple_msg_sender::send_cached`: the sender after the call and
the returned number of added objects; `num_objs += num` is computed in `int`. -/
def send_cached (s : simple_msg_sender) (msgs : List Int) : Option (simple_msg_sender × Nat) :=
  match msg_buffer.add_objs s.msg_size s.buf msgs with
  | none => none
  | some (buf1, num_added) =>
    some ({ s with num_objs := to_int (s.num_objs + (msgs.length : Int)), buf := buf1 },
      num_added)

/-- The method `simple_msg_sender::flush`: the sender after the call and the
returned value.  The body of `queue->add(&buf)` is missing from the sources;
`queue_add` gives the messages that it leaves in `buf`, and the call does not
return when `assert(buf.is_empty())` fails. -/
def flush (queue_add : List message → List message) (s : simple_msg_sender) :
    Option (simple_msg_sender × Int) :=
  let s1 := { s with num_objs := 0 }
  if s1.buf.isEmpty then some (s1, 0)
  else
    let left := queue_add s1.buf
    if left.isEmpty then some ({ s1 with buf := left }, 1) else none

/-- The method `simple_msg_sender::get_num_remaining`. -/
def get_num_remaining (s : simple_msg_sender) : Int :=
  s.num_objs

end simple_msg_sender

/-! ## Further members of associative_cache and page_cell -/

namespace associative_cache

/-- The method `associative_cache::get_num_cells`; `1 << level` is embedded as
`2 ^ level`, and the product and the sum are computed in `int`. -/
def get_num_cells (cache : associative_cache) : Int :=
  to_int (2 ^ cache.level.toNat * cache.init_ncells + cache.split)

end associative_cache

namespace page_cell

/-- The method `page_cell::contain`; the pointer `pg` is embedded as the
distance `pg - buf` in pages, which is `k` for `&buf[k]`. -/
def contain (c : safs.page_cell) (pg : Int) : Bool :=
  decide (pg ≥ 0) && decide (pg < (c.num_pages : Int))

/-- The slots returned by `k` consecutive calls of `get_empty_page` and the
cell after them. -/
def get_empty_pages : Nat → safs.page_cell → Option (List Nat × safs.page_cell)
  | 0, c => some ([], c)
  | k + 1, c =>
    match get_empty_page c with
    | none => none
    | some (slot, c1) =>
      match get_empty_pages k c1 with
      | none => none
      | some (slots, c2) => some (slot :: slots, c2)

end page_cell

end safs

namespace fg

/-! ## flash-graph (flash-graph/worker_thread.cpp, libgraph-algs/scan_graph.cpp)

A vertex id (`vertex_id_t`, an unsigned integer) is embedded as `Nat`, a
`std::vector` as a list, and a pair of iterators as the list of the elements
between them.  A call that does not return is `none`. -/

/-- The class `vpart_vertex_pointer` is declared in a header that is missing
from the sources; the code here only reads `get_vertex_id()`, and `loc` stands
for the rest of the pointer. -/
structure vpart_vertex_pointer where
  vertex_id : Nat
  loc : Nat
deriving DecidableEq

/-- The loop of `delete_val`: `rest` holds `vec[i..]` and `kept` the entries
`vec[0..curr)` written so far. -/
def delete_val_loop (val : Nat) : List Nat → List Nat → List Nat
  | [], kept => kept
  | x :: rest, kept =>
    if x ≠ val then delete_val_loop val rest (kept ++ [x])
    else delete_val_loop val rest kept

/-- The function `delete_val` of worker_thread.cpp: the vector after the call. -/
def delete_val (vec : List Nat) (val : Nat) : List Nat :=
  delete_val_loop val vec []

/-- The library function `std::is_sorted` with the default comparison. -/
def is_sorted : List Nat → Bool
  | [] => true
  | [_] => true
  | x :: y :: rest => decide (x ≤ y) && is_sorted (y :: rest)

/-- The loop of `split_vertices`, run for at most `fuel` tests of its
condition: `ps` holds `vpart_ps_tmp[i..]`, `before` the entries `vertices[0..j)`
as the loop has left them, `vs` the entries `vertices[j..]`.  The result is
`vertices` and `vpart_ps` after the loop. -/
def split_loop (INVALID_VERTEX_ID : Nat) : Nat → List vpart_vertex_pointer → List Nat →
    List Nat → List vpart_vertex_pointer → Option (List Nat × List vpart_vertex_pointer)
  | 0, _, _, _, _ => none
  | fuel + 1, ps, before, vs, vpart_ps =>
    match ps, vs with
    | [], _ => some (before ++ vs, vpart_ps)
    | _ :: _, [] => some (before, vpart_ps)
    | p :: ps1, id :: vs1 =>
      if p.vertex_id = id then
        split_loop INVALID_VERTEX_ID fuel ps1 (before ++ [INVALID_VERTEX_ID]) vs1 (vpart_ps ++ [p])
      else if p.vertex_id > id then
        split_loop INVALID_VERTEX_ID fuel (p :: ps1) (before ++ [id]) vs1 vpart_ps
      else
        split_loop INVALID_VERTEX_ID fuel ps1 before (id :: vs1) vpart_ps

/-- The function `split_vertices` of worker_thread.cpp: `vertices` and
`vpart_ps` after the call.  The constant `INVALID_VERTEX_ID` and the pointers
`vpart_ps_tmp` that `index.get_vpart_vertex_pointers` delivers are missing
from the sources and are parameters.  Every pass of the loop moves `i` or `j`,
so `vpart_ps_tmp.size() + vertices.size() + 1` tests of its condition are
enough. -/
def split_vertices (INVALID_VERTEX_ID : Nat) (vpart_ps_tmp : List vpart_vertex_pointer)
    (vertices : List Nat) (vpart_ps : List vpart_vertex_pointer) :
    Option (List Nat × List vpart_vertex_pointer) :=
  if is_sorted vertices then
    match split_loop INVALID_VERTEX_ID (vpart_ps_tmp.length + vertices.length + 1)
        vpart_ps_tmp [] vertices vpart_ps with
    | none => none
    | some (vertices1, vpart_ps1) => some (delete_val vertices1 INVALID_VERTEX_ID, vpart_ps1)
  else none

/-- The library function `std::lower_bound` on a sorted range: the range from
the first element that is not less than `val` to the end. -/
def lower_bound (range : List Nat) (val : Nat) : List Nat :=
  range.dropWhile (fun x => decide (x < val))

/-- The range from the begin of a sorted range to `std::lower_bound`. -/
def before_lower_bound (range : List Nat) (val : Nat) : List Nat :=
  range.takeWhile (fun x => decide (x < val))

namespace neighbor_list

/-- The loop of `neighbor_list::count_edges_hash` over `[other_it, other_end)`.
`v_id` is `v->get_id()`, `this_id` is `this->get_id()`, and `contains` is the
method `neighbor_list::contains`, whose body is missing from the sources. -/
def count_edges_hash_loop (v_id this_id : Nat) (contains : Nat → Bool) :
    List Nat → Nat → Nat
  | [], num_local_edges => num_local_edges
  | neigh_neighbor :: rest, num_local_edges =>
    if neigh_neighbor ≠ v_id ∧ neigh_neighbor ≠ this_id then
      if contains neigh_neighbor then
        count_edges_hash_loop v_id this_id contains rest (num_local_edges + 1)
      else count_edges_hash_loop v_id this_id contains rest num_local_edges
    else count_edges_hash_loop v_id this_id contains rest num_local_edges

/-- The method `neighbor_list::count_edges_hash`. -/
def count_edges_hash (v_id this_id : Nat) (contains : Nat → Bool) (other : List Nat) : Nat :=
  count_edges_hash_loop v_id this_id contains other 0

/-- The passes after the first one of the loops
`do ... while (first != other_end && this_neighbor == *first)`: the number of
leading elements equal to `this_neighbor`. -/
def count_dups (this_neighbor : Nat) : List Nat → Nat
  | [] => 0
  | x :: rest => if this_neighbor = x then count_dups this_neighbor rest + 1 else 0

/-- The loop of `neighbor_list::count_edges_bin_search_other` over
`[this_it, this_end)`. -/
def count_edges_bin_search_other_loop (v_id this_id : Nat) (other : List Nat) :
    List Nat → Nat → Nat
  | [], num_local_edges => num_local_edges
  | this_neighbor :: rest, num_local_edges =>
    if this_neighbor = v_id ∨ this_neighbor = this_id then
      count_edges_bin_search_other_loop v_id this_id other rest num_local_edges
    else
      match lower_bound other this_neighbor with
      | [] => count_edges_bin_search_other_loop v_id this_id other rest num_local_edges
      | first :: after =>
        if ¬ (this_neighbor < first) then
          count_edges_bin_search_other_loop v_id this_id other rest
            (num_local_edges + 1 + count_dups this_neighbor after)
        else count_edges_bin_search_other_loop v_id this_id other rest num_local_edges

/-- The method `neighbor_list::count_edges_bin_search_other`. -/
def count_edges_bin_search_other (v_id this_id : Nat) (this_range other : List Nat) : Nat :=
  count_edges_bin_search_other_loop v_id this_id other this_range 0

/-- The loop of `neighbor_list::count_edges_scan`, run for at most `fuel`
tests of its condition. -/
def count_edges_scan_loop (v_id this_id : Nat) : Nat → List Nat → List Nat → Nat → Option Nat
  | 0, _, _, _ => none
  | fuel + 1, this_range, other, num_local_edges =>
    match other, this_range with
    | [], _ => some num_local_edges
    | _ :: _, [] => some num_local_edges
    | neigh_neighbor :: other1, this_neighbor :: this1 =>
      if neigh_neighbor = v_id ∨ neigh_neighbor = this_id then
        count_edges_scan_loop v_id this_id fuel (this_neighbor :: this1) other1 num_local_edges
      else if this_neighbor = neigh_neighbor then
        count_edges_scan_loop v_id this_id fuel this1
          (other1.drop (count_dups this_neighbor other1))
          (num_local_edges + 1 + count_dups this_neighbor other1)
      else if this_neighbor < neigh_neighbor then
        count_edges_scan_loop v_id this_id fuel this1 (neigh_neighbor :: other1) num_local_edges
      else
        count_edges_scan_loop v_id this_id fuel (this_neighbor :: this1) other1 num_local_edges

/-- The method `neighbor_list::count_edges_scan`.  Every pass of the loop moves
`this_it` or `other_it`, so `this_range.size() + other.size() + 1` tests of its
condition are enough. -/
def count_edges_scan (v_id this_id : Nat) (this_range other : List Nat) : Option Nat :=
  count_edges_scan_loop v_id this_id (this_range.length + other.length + 1) this_range other 0

end neighbor_list

end fg

/-! ## Theorems -/

namespace safs

/-! ### From `Int` with truncating division to the naturals -/

theorem tdiv_natCast (a b : ℕ) : (a : Int).tdiv (b : Int) = ((a / b : ℕ) : Int) := by
  rw [Int.tdiv_eq_ediv (Int.natCast_nonneg a) (Int.natCast_nonneg b)]; norm_cast

theorem tmod_natCast (a b : ℕ) : (a : Int).tmod (b : Int) = ((a % b : ℕ) : Int) := by
  rw [Int.tmod_eq_emod (Int.natCast_nonneg a) (Int.natCast_nonneg b)]; norm_cast

/-- A value that fits the type `int` is unchanged by the conversion to it. -/
theorem to_int_of_fits (x : Int) (h0 : 0 ≤ x) (h1 : x < 2 ^ 31) : to_int x = x := by
  unfold to_int
  have e31 : (2 : Int) ^ 31 = 2147483648 := by norm_num
  have e32 : (2 : Int) ^ 32 = 4294967296 := by norm_num
  rw [e31, e32]
  rw [e31] at h1
  omega

/-- A value that fits the type `off_t` is unchanged by the conversion to it. -/
theorem to_off_t_of_fits (x : Int) (h0 : 0 ≤ x) (h1 : x < 2 ^ 63) : to_off_t x = x := by
  unfold to_off_t
  have e63 : (2 : Int) ^ 63 = 9223372036854775808 := by norm_num
  have e64 : (2 : Int) ^ 64 = 18446744073709551616 := by norm_num
  rw [e63, e64]
  rw [e63] at h1
  omega

theorem to_int_natCast (n : ℕ) (h : n < 2 ^ 31) : to_int (n : Int) = (n : Int) :=
  to_int_of_fits _ (Int.natCast_nonneg n) (by exact_mod_cast h)

theorem to_off_t_natCast (n : ℕ) (h : n < 2 ^ 63) : to_off_t (n : Int) = (n : Int) :=
  to_off_t_of_fits _ (Int.natCast_nonneg n) (by exact_mod_cast h)

/-- The physical offset of the RAID mappers is at most the logical offset. -/
theorem raid_off_le (N B off : ℕ) : off / B / N * B + off % B ≤ off := by
  have h3 : off / B / N * B ≤ off / B * B := Nat.mul_le_mul_right B (Nat.div_le_self _ _)
  have h4 : off / B * B + off % B = off := Nat.div_add_mod' off B
  omega

/-- The file index of `RAID0_mapper::map2file` over the naturals, when the sum
`block_idx + rand_start` is a value of `off_t`. -/
theorem raid0_map2file_natCast (N B r off : ℕ) (hN : 1 ≤ N) (hN31 : N < 2 ^ 31)
    (hsum : off / B + r < 2 ^ 63) :
    RAID0_mapper.map2file N B r off = (((off / B + r) % N : ℕ) : Int) := by
  have e1 := to_off_t_natCast _ hsum
  have e2 := to_int_natCast _ (lt_trans (Nat.mod_lt (off / B + r) hN) hN31)
  simp only [RAID0_mapper.map2file, tdiv_natCast, ← Nat.cast_add, e1, tmod_natCast, e2]

/-- The result of `RAID0_mapper::map` over the naturals, when the sum
`block_idx + rand_start` is a value of `off_t`. -/
theorem raid0_map_natCast (N B r off : ℕ) (hN : 1 ≤ N) (hN31 : N < 2 ^ 31) (hB : 1 ≤ B)
    (hB31 : B < 2 ^ 31) (hoff : off < 2 ^ 63) (hsum : off / B + r < 2 ^ 63) :
    RAID0_mapper.map N B r off =
      { idx := (((off / B + r) % N : ℕ) : Int)
        off := ((off / B / N * B + off % B : ℕ) : Int) } := by
  have hle := raid_off_le N B off
  have b4 : off / B / N * B < 2 ^ 63 := by omega
  have b5 : off / B / N * B + off % B < 2 ^ 63 := by omega
  have e1 := to_off_t_natCast _ hsum
  have e2 := to_int_natCast _ (lt_trans (Nat.mod_lt (off / B + r) hN) hN31)
  have e3 := to_int_natCast _ (lt_trans (Nat.mod_lt off hB) hB31)
  have e4 := to_off_t_natCast _ b4
  have e5 := to_off_t_natCast _ b5
  simp only [RAID0_mapper.map, tdiv_natCast, tmod_natCast, ← Nat.cast_add, ← Nat.cast_mul,
    e1, e2, e3, e4, e5]

/-- The file index of `RAID5_mapper::map2file` over the naturals. -/
theorem raid5_map2file_natCast (N B r off : ℕ) (hN : 1 ≤ N) (hN31 : N < 2 ^ 31)
    (hr31 : r < 2 ^ 31) :
    RAID5_mapper.map2file N B r off =
      (((off / B % N + off / B / N % N + r) % N : ℕ) : Int) := by
  have h1 := Nat.mod_lt (off / B) hN
  have h2 := Nat.mod_lt (off / B / N) hN
  have b2 : off / B % N + off / B / N % N < 2 ^ 63 := by omega
  have b3 : off / B % N + off / B / N % N + r < 2 ^ 63 := by omega
  have e1 := to_int_natCast _ (lt_trans h2 hN31)
  have e2 := to_off_t_natCast _ b2
  have e3 := to_off_t_natCast _ b3
  have e4 := to_int_natCast _
    (lt_trans (Nat.mod_lt (off / B % N + off / B / N % N + r) hN) hN31)
  simp only [RAID5_mapper.map2file, tdiv_natCast, tmod_natCast, ← Nat.cast_add, e1, e2, e3, e4]

/-- The file index of `RAID5_mapper::map` over the naturals, when the sum
`bid.idx + shift + rand_start` is a value of `int`. -/
theorem raid5_map_idx_natCast (N B r off : ℕ) (hN : 1 ≤ N) (hsum : 2 * (N - 1) + r < 2 ^ 31) :
    (RAID5_mapper.map N B r off).idx =
      (((off / B % N + off / B / N % N + r) % N : ℕ) : Int) := by
  have h1 := Nat.mod_lt (off / B) hN
  have h2 := Nat.mod_lt (off / B / N) hN
  have b1 : off / B % N < 2 ^ 31 := by omega
  have b2 : off / B / N % N < 2 ^ 31 := by omega
  have b3 : off / B % N + off / B / N % N < 2 ^ 31 := by omega
  have b4 : off / B % N + off / B / N % N + r < 2 ^ 31 := by omega
  have e1 := to_int_natCast _ b1
  have e2 := to_int_natCast _ b2
  have e3 := to_int_natCast _ b3
  have e4 := to_int_natCast _ b4
  simp only [RAID5_mapper.map, tdiv_natCast, tmod_natCast, ← Nat.cast_add, e1, e2, e3, e4]

/-- The result of `RAID5_mapper::map` over the naturals, when the sum
`bid.idx + shift + rand_start` is a value of `int`. -/
theorem raid5_map_natCast (N B r off : ℕ) (hN : 1 ≤ N) (hB : 1 ≤ B) (hB31 : B < 2 ^ 31)
    (hoff : off < 2 ^ 63) (hsum : 2 * (N - 1) + r < 2 ^ 31) :
    RAID5_mapper.map N B r off =
      { idx := (((off / B % N + off / B / N % N + r) % N : ℕ) : Int)
        off := ((off / B / N * B + off % B : ℕ) : Int) } := by
  have hle := raid_off_le N B off
  have h1 := Nat.mod_lt (off / B) hN
  have h2 := Nat.mod_lt (off / B / N) hN
  have b1 : off / B % N < 2 ^ 31 := by omega
  have b2 : off / B / N % N < 2 ^ 31 := by omega
  have b3 : off / B % N + off / B / N % N < 2 ^ 31 := by omega
  have b4 : off / B % N + off / B / N % N + r < 2 ^ 31 := by omega
  have b6 : off / B / N * B < 2 ^ 63 := by omega
  have b7 : off / B / N * B + off % B < 2 ^ 63 := by omega
  have e1 := to_int_natCast _ b1
  have e2 := to_int_natCast _ b2
  have e3 := to_int_natCast _ b3
  have e4 := to_int_natCast _ b4
  have e5 := to_int_natCast _ (lt_trans (Nat.mod_lt off hB) hB31)
  have e6 := to_off_t_natCast _ b6
  have e7 := to_off_t_natCast _ b7
  simp only [RAID5_mapper.map, tdiv_natCast, tmod_natCast, ← Nat.cast_add, ← Nat.cast_mul,
    e1, e2, e3, e4, e5, e6, e7]

theorem cycle_size_natCast (N i : ℕ) :
    hash_mapper.cycle_size_in_bucket N i =
      ((if i < 191 % N then 191 / N + 1 else 191 / N : ℕ) : Int) := by
  have h191 : (191 : Int) = ((191 : ℕ) : Int) := rfl
  simp only [hash_mapper.cycle_size_in_bucket, hash_mapper.P_MOD_N, hash_mapper.CONST_P,
    FILE_CONST_P]
  rw [h191]
  simp only [tdiv_natCast, tmod_natCast, Nat.cast_lt]
  split_ifs <;> push_cast <;> rfl

/-- The file index of `hash_mapper::map2file` over the naturals, when the
product `CONST_A * block_idx` is a value of `off_t`. -/
theorem hash_map2file_natCast (N B off : ℕ) (h31 : 31 * (off / B) < 2 ^ 63) :
    hash_mapper.map2file N B off = ((31 * (off / B) % 191 % N : ℕ) : Int) := by
  have c31 : (31 : Int) = ((31 : ℕ) : Int) := rfl
  have c191 : (191 : Int) = ((191 : ℕ) : Int) := rfl
  have hp : 31 * (off / B) % 191 < 191 := Nat.mod_lt _ (by decide)
  have hpn : 31 * (off / B) % 191 % N ≤ 31 * (off / B) % 191 := Nat.mod_le _ _
  have b2 : 31 * (off / B) % 191 % N < 2 ^ 31 := by omega
  have e1 := to_off_t_natCast _ h31
  have e2 := to_int_natCast _ b2
  simp only [hash_mapper.map2file, hash_mapper.CONST_A, hash_mapper.CONST_P, FILE_CONST_A,
    FILE_CONST_P]
  rw [c31, c191]
  simp only [tdiv_natCast, tmod_natCast, ← Nat.cast_mul, e1, e2]

/-- The cycle size of a bucket is at most 191. -/
theorem cycle_size_le (N i : ℕ) (hN : 1 ≤ N) :
    (if i < 191 % N then 191 / N + 1 else 191 / N) ≤ 191 := by
  have e := Nat.div_add_mod 191 N
  have m := Nat.mod_lt 191 hN
  have hd : 191 / N ≤ 191 := Nat.div_le_self _ _
  split_ifs with hc
  · rcases Nat.lt_or_ge N 2 with h | h
    · have : N = 1 := by omega
      subst this
      simp at hc
    · have : 2 * (191 / N) ≤ N * (191 / N) := Nat.mul_le_mul_right _ h
      omega
  · exact hd

/-- The intermediate values and the physical offset of `hash_mapper::map` are
less than the logical offset plus 191 stripe blocks. -/
theorem hash_off_le (N B off L : ℕ) (hB : 1 ≤ B) (hL : L ≤ 191) :
    off / B / 191 * L ≤ off / B ∧
    off / B / 191 * L + 31 * (off / B) % 191 / N < off / B + 191 ∧
    (off / B / 191 * L + 31 * (off / B) % 191 / N) * B + off % B < off + 191 * B := by
  have h1 : off / B / 191 * L ≤ off / B / 191 * 191 := Nat.mul_le_mul_left _ hL
  have h2 : off / B / 191 * 191 ≤ off / B := Nat.div_mul_le_self _ _
  have hp : 31 * (off / B) % 191 < 191 := Nat.mod_lt _ (by decide)
  have hpn : 31 * (off / B) % 191 / N ≤ 31 * (off / B) % 191 := Nat.div_le_self _ _
  have h3 : (off / B / 191 * L + 31 * (off / B) % 191 / N) * B ≤ off / B * B + 190 * B := by
    rw [← Nat.add_mul]
    exact Nat.mul_le_mul_right B (by omega)
  have h4 : off / B * B + off % B = off := Nat.div_add_mod' off B
  have h5 := Nat.mod_lt off hB
  refine ⟨by omega, by omega, by omega⟩

/-- The result of `hash_mapper::map` over the naturals, when `31 * off` is a
value of `off_t`. -/
theorem hash_map_natCast (N B off : ℕ) (hN : 1 ≤ N) (hB : 1 ≤ B) (hB31 : B < 2 ^ 31)
    (h31 : 31 * off < 2 ^ 63) :
    hash_mapper.map N B off =
      { idx := ((31 * (off / B) % 191 % N : ℕ) : Int)
        off := ((((off / B / 191) *
          (if 31 * (off / B) % 191 % N < 191 % N then 191 / N + 1 else 191 / N)
            + 31 * (off / B) % 191 / N) * B + off % B : ℕ) : Int) } := by
  have c31 : (31 : Int) = ((31 : ℕ) : Int) := rfl
  have c191 : (191 : Int) = ((191 : ℕ) : Int) := rfl
  have hp : 31 * (off / B) % 191 < 191 := Nat.mod_lt _ (by decide)
  have hpn : 31 * (off / B) % 191 % N ≤ 31 * (off / B) % 191 := Nat.mod_le _ _
  have hblk : off / B ≤ off := Nat.div_le_self _ _
  have hBle : B * (off / B) ≤ off := Nat.mul_div_le off B
  obtain ⟨b1, b2, b3⟩ := hash_off_le N B off
    (if 31 * (off / B) % 191 % N < 191 % N then 191 / N + 1 else 191 / N) hB
    (cycle_size_le N _ hN)
  have hmul : (off / B / 191 *
      (if 31 * (off / B) % 191 % N < 191 % N then 191 / N + 1 else 191 / N) +
        31 * (off / B) % 191 / N) * B ≤
      (off / B / 191 *
      (if 31 * (off / B) % 191 % N < 191 % N then 191 / N + 1 else 191 / N) +
        31 * (off / B) % 191 / N) * B + off % B := Nat.le_add_right _ _
  have c2 : 31 * (off / B) < 2 ^ 63 := by omega
  have c3 : 31 * (off / B) % 191 % N < 2 ^ 31 := by omega
  have c4 : off / B < 2 ^ 63 := by omega
  have c5 : off / B + 191 < 2 ^ 63 := by omega
  have c7 : off + 191 * B < 2 ^ 63 := by omega
  have e1 := to_int_natCast _ (lt_trans (Nat.mod_lt off hB) hB31)
  have e2 := to_off_t_natCast _ c2
  have e3 := to_int_natCast _ c3
  have e4 := to_off_t_natCast _ (lt_of_le_of_lt b1 c4)
  have e5 := to_off_t_natCast _ (lt_trans b2 c5)
  have e6 := to_off_t_natCast _ (lt_of_le_of_lt hmul (lt_trans b3 c7))
  have e7 := to_off_t_natCast _ (lt_trans b3 c7)
  simp only [hash_mapper.map, hash_mapper.CONST_A, hash_mapper.CONST_P, FILE_CONST_A,
    FILE_CONST_P]
  rw [c31, c191]
  simp only [tdiv_natCast, tmod_natCast, ← Nat.cast_mul, e2, e3, cycle_size_natCast, e4,
    ← Nat.cast_add, e5, e6, e1, e7]

/-- The physical block number that `hash_mapper::map` gives an offset, over
the naturals. -/
theorem hash_map_block_natCast (N B off : ℕ) (hN : 1 ≤ N) (hB : 1 ≤ B) (hB31 : B < 2 ^ 31)
    (h31 : 31 * off < 2 ^ 63) :
    (hash_mapper.map N B off).off.tdiv (B : Int) =
      (((off / B / 191) *
          (if 31 * (off / B) % 191 % N < 191 % N then 191 / N + 1 else 191 / N)
            + 31 * (off / B) % 191 / N : ℕ) : Int) := by
  rw [hash_map_natCast N B off hN hB hB31 h31]
  dsimp only
  rw [tdiv_natCast]
  congr 1
  rw [Nat.add_comm, Nat.add_mul_div_right _ _ (by omega : 0 < B),
    Nat.div_eq_of_lt (Nat.mod_lt _ (by omega)), Nat.zero_add]

/-! ### Agreement of `map` and `map2file` -/

/-- C1, as stated, fails for RAID5_mapper: with N = 4 files, B = 1 and
rand_start = 2147483647 the `int` sum `bid.idx + shift + rand_start` of `map`
wraps at offset 5 and `map` writes `bid.idx = -3`, while `map2file`, which
adds in `off_t`, returns 1. -/
theorem map_idx_eq_map2file_counterexample :
    (RAID5_mapper.map 4 1 2147483647 5).idx = -3 ∧
    RAID5_mapper.map2file 4 1 2147483647 5 = 1 := by
  decide

/-- C1 as amended: for RAID0_mapper and hash_mapper, for every number of files
N >= 1, block size B >= 1, rand_start >= 0 and offset off >= 0, the file index
that `map` writes to `bid.idx` is the value `map2file` returns; for
RAID5_mapper this holds when rand_start + 2 * (N - 1) < 2^31, so that the
`int` sum `bid.idx + shift + rand_start` of `map` cannot overflow. -/
theorem map_idx_eq_map2file (N B rand_start off : Int)
    (hN : 1 ≤ N) (hB : 1 ≤ B) (hr : 0 ≤ rand_start) (hoff : 0 ≤ off) :
    (RAID0_mapper.map N B rand_start off).idx = RAID0_mapper.map2file N B rand_start off ∧
    (hash_mapper.map N B off).idx = hash_mapper.map2file N B off ∧
    (2 * (N - 1) + rand_start < 2 ^ 31 →
      (RAID5_mapper.map N B rand_start off).idx =
        RAID5_mapper.map2file N B rand_start off) := by
  refine ⟨rfl, rfl, ?_⟩
  intro hsum
  lift N to ℕ using (by omega)
  lift B to ℕ using (by omega)
  lift rand_start to ℕ using hr
  lift off to ℕ using hoff
  have hN' : 1 ≤ N := by exact_mod_cast hN
  have hsum' : 2 * (N - 1) + rand_start < 2 ^ 31 := by omega
  rw [raid5_map_idx_natCast N B rand_start off hN' hsum',
    raid5_map2file_natCast N B rand_start off hN' (by omega) (by omega)]

theorem map_idx_eq_map2file_witness :
    (RAID0_mapper.map 4 16 3 1000).idx = RAID0_mapper.map2file 4 16 3 1000 ∧
    (hash_mapper.map 4 16 1000).idx = hash_mapper.map2file 4 16 1000 ∧
    (RAID5_mapper.map 4 16 3 1000).idx = RAID5_mapper.map2file 4 16 3 1000 :=
  ⟨(map_idx_eq_map2file 4 16 3 1000 (by decide) (by decide) (by decide) (by decide)).1,
    (map_idx_eq_map2file 4 16 3 1000 (by decide) (by decide) (by decide) (by decide)).2.1,
    (map_idx_eq_map2file 4 16 3 1000 (by decide) (by decide) (by decide) (by decide)).2.2
      (by decide)⟩

/-! ### Injectivity of the mappers -/

/-- Quotient and remainder of `x * L + y` with `y < L` are unique. -/
theorem mul_add_unique (L x1 y1 x2 y2 : ℕ) (h1 : y1 < L) (h2 : y2 < L)
    (h : x1 * L + y1 = x2 * L + y2) : x1 = x2 ∧ y1 = y2 := by
  have hx : x1 = x2 := by
    rcases Nat.lt_trichotomy x1 x2 with hlt | heq | hgt
    · exfalso
      have : (x1 + 1) * L ≤ x2 * L := Nat.mul_le_mul_right L hlt
      rw [Nat.add_mul] at this
      omega
    · exact heq
    · exfalso
      have : (x2 + 1) * L ≤ x1 * L := Nat.mul_le_mul_right L hgt
      rw [Nat.add_mul] at this
      omega
  subst hx
  exact ⟨rfl, by omega⟩

/-- The position `p / N` of a residue `p < 191` in its bucket `p % N` is below
the cycle size of that bucket. -/
theorem pos_lt_cycle_size (N p : ℕ) (hN : 1 ≤ N) (hp : p < 191) :
    p / N < (if p % N < 191 % N then 191 / N + 1 else 191 / N) := by
  have e1 := Nat.div_add_mod p N
  have e2 := Nat.div_add_mod 191 N
  have m1 := Nat.mod_lt p hN
  have m2 := Nat.mod_lt 191 hN
  split_ifs with hc
  · by_contra hge
    have : N * (191 / N + 1) ≤ N * (p / N) := Nat.mul_le_mul_left N (by omega)
    rw [Nat.mul_add] at this
    omega
  · by_contra hge
    have : N * (191 / N) ≤ N * (p / N) := Nat.mul_le_mul_left N (by omega)
    omega

theorem hash_map_inj_nat (N B o1 o2 : ℕ) (hN : 1 ≤ N) (hB : 1 ≤ B)
    (hidx : 31 * (o1 / B) % 191 % N = 31 * (o2 / B) % 191 % N)
    (hoff : ((o1 / B / 191) *
          (if 31 * (o1 / B) % 191 % N < 191 % N then 191 / N + 1 else 191 / N)
            + 31 * (o1 / B) % 191 / N) * B + o1 % B =
        ((o2 / B / 191) *
          (if 31 * (o2 / B) % 191 % N < 191 % N then 191 / N + 1 else 191 / N)
            + 31 * (o2 / B) % 191 / N) * B + o2 % B) : o1 = o2 := by
  obtain ⟨hq, hr⟩ := mul_add_unique B _ _ _ _ (Nat.mod_lt o1 hB) (Nat.mod_lt o2 hB) hoff
  rw [← hidx] at hq
  have hp1 : 31 * (o1 / B) % 191 < 191 := Nat.mod_lt _ (by decide)
  have hp2 : 31 * (o2 / B) % 191 < 191 := Nat.mod_lt _ (by decide)
  have k1 := pos_lt_cycle_size N _ hN hp1
  have k2 := pos_lt_cycle_size N _ hN hp2
  rw [← hidx] at k2
  obtain ⟨hc, hk⟩ := mul_add_unique _ _ _ _ _ k1 k2 hq
  have d1 := Nat.div_add_mod (31 * (o1 / B) % 191) N
  have d2 := Nat.div_add_mod (31 * (o2 / B) % 191) N
  have hp : 31 * (o1 / B) % 191 = 31 * (o2 / B) % 191 := by
    rw [← d1, ← d2, hk, hidx]
  have hb : o1 / B = o2 / B := by omega
  have f1 := Nat.div_add_mod o1 B
  have f2 := Nat.div_add_mod o2 B
  rw [← f1, ← f2, hb, hr]

/-- Adding the same number to two residues below `N` cannot make them collide modulo `N`. -/
theorem add_mod_cancel_of_lt (N a b c : ℕ) (ha : a < N) (hb : b < N)
    (h : (a + c) % N = (b + c) % N) : a = b := by
  have h1 : a ≡ b [MOD N] := Nat.ModEq.add_right_cancel' c h
  have h2 : a % N = b % N := h1
  rwa [Nat.mod_eq_of_lt ha, Nat.mod_eq_of_lt hb] at h2

theorem raid0_map_inj_nat (N B r o1 o2 : ℕ) (hN : 1 ≤ N) (hB : 1 ≤ B)
    (hidx : (o1 / B + r) % N = (o2 / B + r) % N)
    (hoff : o1 / B / N * B + o1 % B = o2 / B / N * B + o2 % B) : o1 = o2 := by
  obtain ⟨hq, hr⟩ := mul_add_unique B _ _ _ _ (Nat.mod_lt o1 hB) (Nat.mod_lt o2 hB) hoff
  have hm : o1 / B % N = o2 / B % N := by
    apply add_mod_cancel_of_lt N _ _ r (Nat.mod_lt _ hN) (Nat.mod_lt _ hN)
    rw [Nat.mod_add_mod, Nat.mod_add_mod, hidx]
  have hb : o1 / B = o2 / B := by
    rw [← Nat.div_add_mod (o1 / B) N, ← Nat.div_add_mod (o2 / B) N, hq, hm]
  rw [← Nat.div_add_mod o1 B, ← Nat.div_add_mod o2 B, hb, hr]

theorem raid5_map_inj_nat (N B r o1 o2 : ℕ) (hN : 1 ≤ N) (hB : 1 ≤ B)
    (hidx : (o1 / B % N + o1 / B / N % N + r) % N = (o2 / B % N + o2 / B / N % N + r) % N)
    (hoff : o1 / B / N * B + o1 % B = o2 / B / N * B + o2 % B) : o1 = o2 := by
  obtain ⟨hq, hr⟩ := mul_add_unique B _ _ _ _ (Nat.mod_lt o1 hB) (Nat.mod_lt o2 hB) hoff
  have hm : o1 / B % N = o2 / B % N := by
    apply add_mod_cancel_of_lt N _ _ (o1 / B / N % N + r) (Nat.mod_lt _ hN) (Nat.mod_lt _ hN)
    rw [← Nat.add_assoc, hidx, hq, Nat.add_assoc]
  have hb : o1 / B = o2 / B := by
    rw [← Nat.div_add_mod (o1 / B) N, ← Nat.div_add_mod (o2 / B) N, hq, hm]
  rw [← Nat.div_add_mod o1 B, ← Nat.div_add_mod o2 B, hb, hr]

/-- C2, as stated, fails: with N = 1 file and B = 1 the product
`CONST_A * block_idx` wraps in `off_t` at block 297528130221121801, and `map`
sends the offsets 297528130221121603 and 297528130221121801 to the same block
identifier. -/
theorem hash_map_injective_counterexample :
    hash_mapper.map 1 1 297528130221121603 = { idx := 0, off := 297528130221121434 } ∧
    hash_mapper.map 1 1 297528130221121801 = { idx := 0, off := 297528130221121434 } ∧
    (297528130221121603 : Int) ≠ 297528130221121801 ∧
    (297528130221121801 : Int) < 2 ^ 63 := by
  decide

/-- C2 as amended: `hash_mapper::map` is injective on the offsets for which
`CONST_A * off` is a value of `off_t`: for N >= 1 files, block size B >= 1 (an
`int`) and two distinct offsets off1, off2 >= 0 with 31 * off1 < 2^63 and
31 * off2 < 2^63, the block identifiers written by `map(off1)` and
`map(off2)` differ in `idx` or in `off`. -/
theorem hash_map_injective (N B off1 off2 : Int) (hN : 1 ≤ N) (hB : 1 ≤ B)
    (hB31 : B < 2 ^ 31) (h1 : 0 ≤ off1) (h2 : 0 ≤ off2) (hb1 : 31 * off1 < 2 ^ 63)
    (hb2 : 31 * off2 < 2 ^ 63) (hne : off1 ≠ off2) :
    (hash_mapper.map N B off1).idx ≠ (hash_mapper.map N B off2).idx ∨
    (hash_mapper.map N B off1).off ≠ (hash_mapper.map N B off2).off := by
  lift N to ℕ using (by omega)
  lift B to ℕ using (by omega)
  lift off1 to ℕ using h1
  lift off2 to ℕ using h2
  have hN' : 1 ≤ N := by exact_mod_cast hN
  have hB' : 1 ≤ B := by exact_mod_cast hB
  have hB31' : B < 2 ^ 31 := by exact_mod_cast hB31
  by_contra hcon
  push_neg at hcon
  obtain ⟨e1, e2⟩ := hcon
  rw [hash_map_natCast N B off1 hN' hB' hB31' (by exact_mod_cast hb1),
    hash_map_natCast N B off2 hN' hB' hB31' (by exact_mod_cast hb2)] at e1 e2
  dsimp only at e1 e2
  apply hne
  have := hash_map_inj_nat N B off1 off2 hN' hB'
    (by exact_mod_cast e1) (by exact_mod_cast e2)
  rw [this]

theorem hash_map_injective_witness :
    (hash_mapper.map 3 2 5).idx ≠ (hash_mapper.map 3 2 387).idx ∨
    (hash_mapper.map 3 2 5).off ≠ (hash_mapper.map 3 2 387).off :=
  hash_map_injective 3 2 5 387 (by decide) (by decide) (by decide) (by decide) (by decide)
    (by decide) (by decide) (by decide)

/-- C3, as stated, fails: with N = 7 files and B = 1, RAID5_mapper with
rand_start = 2147483646 sends the offsets 0 and 4 to the same block identifier
(the `int` sum wraps at offset 4), and RAID0_mapper with rand_start = 3 sends
the offsets 2^63 - 4 and 2^63 - 2 to the same block identifier (the `off_t`
sum `block_idx + rand_start` wraps). -/
theorem raid_map_injective_counterexample :
    RAID5_mapper.map 7 1 2147483646 0 = { idx := 0, off := 0 } ∧
    RAID5_mapper.map 7 1 2147483646 4 = { idx := 0, off := 0 } ∧
    RAID0_mapper.map 7 1 3 9223372036854775804 = { idx := 0, off := 1317624576693539400 } ∧
    RAID0_mapper.map 7 1 3 9223372036854775806 = { idx := 0, off := 1317624576693539400 } ∧
    (9223372036854775806 : Int) < 2 ^ 63 := by
  decide

/-- C3 as amended: `RAID0_mapper::map` is injective on the offsets for which
`block_idx + rand_start` is a value of `off_t`, and `RAID5_mapper::map` is
injective when rand_start + 2 * (N - 1) < 2^31: for N >= 1 files and block
size B >= 1 (values of `int`), rand_start >= 0 and two distinct offsets
0 <= off1, off2 < 2^63, `map(off1)` and `map(off2)` differ in `idx` or in
`off`. -/
theorem raid_map_injective (N B rand_start off1 off2 : Int) (hN : 1 ≤ N) (hN31 : N < 2 ^ 31)
    (hB : 1 ≤ B) (hB31 : B < 2 ^ 31) (hr : 0 ≤ rand_start) (h1 : 0 ≤ off1) (h2 : 0 ≤ off2)
    (ho1 : off1 < 2 ^ 63) (ho2 : off2 < 2 ^ 63) (hne : off1 ≠ off2) :
    (off1 / B + rand_start < 2 ^ 63 → off2 / B + rand_start < 2 ^ 63 →
      ((RAID0_mapper.map N B rand_start off1).idx ≠ (RAID0_mapper.map N B rand_start off2).idx ∨
       (RAID0_mapper.map N B rand_start off1).off ≠
         (RAID0_mapper.map N B rand_start off2).off)) ∧
    (2 * (N - 1) + rand_start < 2 ^ 31 →
      ((RAID5_mapper.map N B rand_start off1).idx ≠ (RAID5_mapper.map N B rand_start off2).idx ∨
       (RAID5_mapper.map N B rand_start off1).off ≠
         (RAID5_mapper.map N B rand_start off2).off)) := by
  lift N to ℕ using (by omega)
  lift B to ℕ using (by omega)
  lift rand_start to ℕ using hr
  lift off1 to ℕ using h1
  lift off2 to ℕ using h2
  have hN' : 1 ≤ N := by exact_mod_cast hN
  have hN31' : N < 2 ^ 31 := by exact_mod_cast hN31
  have hB' : 1 ≤ B := by exact_mod_cast hB
  have hB31' : B < 2 ^ 31 := by exact_mod_cast hB31
  have ho1' : off1 < 2 ^ 63 := by exact_mod_cast ho1
  have ho2' : off2 < 2 ^ 63 := by exact_mod_cast ho2
  constructor
  · intro hs1 hs2
    by_contra hcon
    push_neg at hcon
    obtain ⟨e1, e2⟩ := hcon
    rw [raid0_map_natCast N B rand_start off1 hN' hN31' hB' hB31' ho1' (by exact_mod_cast hs1),
      raid0_map_natCast N B rand_start off2 hN' hN31' hB' hB31' ho2' (by exact_mod_cast hs2)]
      at e1 e2
    dsimp only at e1 e2
    apply hne
    have := raid0_map_inj_nat N B rand_start off1 off2 hN' hB'
      (by exact_mod_cast e1) (by exact_mod_cast e2)
    rw [this]
  · intro hsum
    have hsum' : 2 * (N - 1) + rand_start < 2 ^ 31 := by omega
    by_contra hcon
    push_neg at hcon
    obtain ⟨e1, e2⟩ := hcon
    rw [raid5_map_natCast N B rand_start off1 hN' hB' hB31' ho1' hsum',
      raid5_map_natCast N B rand_start off2 hN' hB' hB31' ho2' hsum'] at e1 e2
    dsimp only at e1 e2
    apply hne
    have := raid5_map_inj_nat N B rand_start off1 off2 hN' hB'
      (by exact_mod_cast e1) (by exact_mod_cast e2)
    rw [this]

theorem raid_map_injective_witness :
    ((RAID0_mapper.map 4 16 3 5).idx ≠ (RAID0_mapper.map 4 16 3 69).idx ∨
     (RAID0_mapper.map 4 16 3 5).off ≠ (RAID0_mapper.map 4 16 3 69).off) ∧
    ((RAID5_mapper.map 4 16 3 5).idx ≠ (RAID5_mapper.map 4 16 3 69).idx ∨
     (RAID5_mapper.map 4 16 3 5).off ≠ (RAID5_mapper.map 4 16 3 69).off) :=
  ⟨(raid_map_injective 4 16 3 5 69 (by decide) (by decide) (by decide) (by decide) (by decide)
      (by decide) (by decide) (by decide) (by decide) (by decide)).1 (by decide) (by decide),
    (raid_map_injective 4 16 3 5 69 (by decide) (by decide) (by decide) (by decide) (by decide)
      (by decide) (by decide) (by decide) (by decide) (by decide)).2 (by decide)⟩

/-! ### Counting the blocks of a window -/

/-- The length of a filtered `List.range` is the cardinality of the filtered
`Finset.range`. -/
theorem length_filter_range (p : ℕ → Prop) [DecidablePred p] (n : ℕ) :
    ((List.range n).filter (fun d => decide (p d))).length =
      ((Finset.range n).filter p).card := by
  rw [← List.countP_eq_length_filter]
  induction n with
  | zero => simp
  | succ n ih =>
    rw [List.range_succ, List.countP_append, ih, Finset.range_succ, Finset.filter_insert]
    by_cases hp : p n
    · simp [hp]
    · simp [hp]

/-- Multiplication by 31 permutes the residues modulo 191, so a window of 191
consecutive block indices meets every residue once: the blocks of the window
sent to bucket `i` are as many as the residues `p < 191` with `p % N = i`. -/
theorem hash_window_card (N s i : ℕ) :
    ((Finset.range 191).filter (fun d => 31 * (s + d) % 191 % N = i)).card =
      ((Finset.range 191).filter (fun p => p % N = i)).card := by
  apply Finset.card_nbij' (fun d => 31 * (s + d) % 191) (fun p => (37 * p + 190 * s) % 191)
  · intro d hd
    simp only [Finset.mem_filter, Finset.mem_range] at hd ⊢
    exact ⟨Nat.mod_lt _ (by decide), hd.2⟩
  · intro p hp
    simp only [Finset.mem_filter, Finset.mem_range] at hp ⊢
    refine ⟨Nat.mod_lt _ (by decide), ?_⟩
    have : 31 * (s + (37 * p + 190 * s) % 191) % 191 = p := by omega
    rw [this]; exact hp.2
  · intro d hd
    simp only [Finset.mem_filter, Finset.mem_range] at hd
    show (37 * (31 * (s + d) % 191) + 190 * s) % 191 = d
    omega
  · intro p hp
    simp only [Finset.mem_filter, Finset.mem_range] at hp
    show 31 * (s + (37 * p + 190 * s) % 191) % 191 = p
    omega

/-- The residues `p < 191` with `p % N = i` number `191 / N`, plus one when
`i < 191 % N`. -/
theorem residues_in_bucket (N i : ℕ) (hN : 1 ≤ N) (hi : i < N) :
    ((Finset.range 191).filter (fun p => p % N = i)).card =
      if i < 191 % N then 191 / N + 1 else 191 / N := by
  have h := Nat.count_modEq_card (r := N) 191 hN i
  rw [Nat.count_eq_card_filter_range, Nat.mod_eq_of_lt hi] at h
  have hfil : (Finset.range 191).filter (fun p => p % N = i) =
      (Finset.range 191).filter (fun p => p ≡ i [MOD N]) := by
    apply Finset.filter_congr
    intro p _
    simp only [Nat.ModEq, Nat.mod_eq_of_lt hi]
  rw [hfil, h]
  split_ifs <;> rfl

/-- The file of block `s + d` under `hash_mapper::map2file`, over the naturals. -/
theorem hash_map2file_block (N B s d i : ℕ) (hB : 1 ≤ B) (h31 : 31 * (s + d) < 2 ^ 63) :
    hash_mapper.map2file N B (((s : Int) + (d : Int)) * (B : Int)) = (i : Int) ↔
      31 * (s + d) % 191 % N = i := by
  have hdiv : (s + d) * B / B = s + d := Nat.mul_div_cancel _ hB
  rw [← Nat.cast_add, ← Nat.cast_mul,
    hash_map2file_natCast N B ((s + d) * B) (by rw [hdiv]; exact h31), hdiv, Nat.cast_inj]

theorem blocks_on_file_hash (N B s len i : ℕ) (hB : 1 ≤ B)
    (h31 : ∀ d, d < len → 31 * (s + d) < 2 ^ 63) :
    blocks_on_file (hash_mapper.map2file N B) B s len i =
      ((Finset.range len).filter (fun d => 31 * (s + d) % 191 % N = i)).card := by
  rw [← length_filter_range (fun d => 31 * (s + d) % 191 % N = i) len]
  unfold blocks_on_file
  refine congrArg List.length (List.filter_congr ?_)
  intro d hd
  rw [List.mem_range] at hd
  rw [decide_eq_decide]
  exact hash_map2file_block N B s d i hB (h31 d hd)

/-- The blocks of `[s, s + (a + b))` split into those of `[s, s + a)` and those
of `[s + a, s + a + b)`. -/
theorem blocks_on_file_add (f : Int → Int) (B s : Int) (a b : ℕ) (i : Int) :
    blocks_on_file f B s (a + b) i =
      blocks_on_file f B s a i + blocks_on_file f B (s + (a : Int)) b i := by
  simp only [blocks_on_file, List.range_add, List.filter_append, List.length_append,
    List.filter_map, List.length_map]
  congr 3
  funext d
  simp only [Function.comp, Nat.cast_add, add_assoc]

/-- One window of 191 blocks, over the naturals. -/
theorem hash_window_nat (N B s i : ℕ) (hN : 1 ≤ N) (hB : 1 ≤ B) (hi : i < N)
    (h31 : 31 * (s + 190) < 2 ^ 63) :
    blocks_on_file (hash_mapper.map2file N B) B s 191 i =
      if i < 191 % N then 191 / N + 1 else 191 / N := by
  rw [blocks_on_file_hash N B s 191 i hB (fun d hd => by omega), hash_window_card,
    residues_in_bucket N i hN hi]

/-- The first `k` windows of 191 blocks, over the naturals. -/
theorem hash_cycles_nat (N B k i : ℕ) (hN : 1 ≤ N) (hB : 1 ≤ B) (hi : i < N)
    (h31 : 31 * (191 * k) < 2 ^ 63) :
    blocks_on_file (hash_mapper.map2file N B) B 0 (191 * k) i =
      k * (if i < 191 % N then 191 / N + 1 else 191 / N) := by
  induction k with
  | zero => simp [blocks_on_file]
  | succ k ih =>
    have h0 : (0 : Int) + ((191 * k : ℕ) : Int) = ((191 * k : ℕ) : Int) := zero_add _
    rw [Nat.mul_succ, blocks_on_file_add, ih (by omega), h0,
      hash_window_nat N B (191 * k) i hN hB hi (by omega), Nat.succ_mul]

/-- C4, as stated, fails: with N = 4 files and B = 1, in the window of 191
blocks that starts at block 297528130221121700 the product
`CONST_A * block_idx` wraps in `off_t`, and `map2file` sends 26 blocks of the
window to file 1, not `cycle_size_in_bucket(1) = 48`. -/
theorem hash_window_count_counterexample :
    blocks_on_file (hash_mapper.map2file 4 1) 1 297528130221121700 191 1 = 26 ∧
    hash_mapper.cycle_size_in_bucket 4 1 = 48 ∧
    ((297528130221121700 : Int) + 190) * 1 < 2 ^ 63 := by
  set_option maxRecDepth 100000 in decide

/-- C4 as amended: for hash_mapper with N >= 1 files, for every window start
s >= 0 with 31 * (s + 190) < 2^63 (the product `CONST_A * block_idx` is a
value of `off_t` for every block of the window, whose offsets are values of
`off_t`) and every file index i < N, the number of block indices b in
[s, s + 191) that `map2file` sends to file i is `cycle_size_in_bucket(i)`. -/
theorem hash_window_count (N B s i : Int) (hN : 1 ≤ N) (hB : 1 ≤ B) (hs : 0 ≤ s)
    (hi0 : 0 ≤ i) (hi : i < N) (hb : 31 * (s + 190) < 2 ^ 63)
    (_hoff : (s + 190) * B < 2 ^ 63) :
    ((blocks_on_file (hash_mapper.map2file N B) B s 191 i : ℕ) : Int) =
      hash_mapper.cycle_size_in_bucket N i := by
  lift N to ℕ using (by omega)
  lift B to ℕ using (by omega)
  lift s to ℕ using hs
  lift i to ℕ using hi0
  rw [cycle_size_natCast, hash_window_nat N B s i (by exact_mod_cast hN) (by exact_mod_cast hB)
    (by exact_mod_cast hi) (by exact_mod_cast hb)]

theorem hash_window_count_witness :
    ((blocks_on_file (hash_mapper.map2file 4 2) 2 10 191 3 : ℕ) : Int) =
      hash_mapper.cycle_size_in_bucket 4 3 :=
  hash_window_count 4 2 10 3 (by decide) (by decide) (by decide) (by decide) (by decide)
    (by decide) (by decide)

/-! ### Skew and per-disk sizes -/

/-- C5, as stated, fails: with N = 2 files and k = 2 windows, file 0 receives
192 of the blocks [0, 382) and file 1 receives 190. -/
theorem hash_skew_counterexample :
    blocks_on_file (hash_mapper.map2file 2 1) 1 0 (191 * 2) 0 = 192 ∧
    blocks_on_file (hash_mapper.map2file 2 1) 1 0 (191 * 2) 1 = 190 ∧
    ¬ (|((blocks_on_file (hash_mapper.map2file 2 1) 1 0 (191 * 2) 0 : ℕ) : Int) -
        ((blocks_on_file (hash_mapper.map2file 2 1) 1 0 (191 * 2) 1 : ℕ) : Int)| ≤ 1) := by
  set_option maxRecDepth 100000 in decide

/-- C5 as amended: for hash_mapper with N >= 1 files and k >= 1 windows with
31 * 191 * k < 2^63 (the product `CONST_A * block_idx` is a value of `off_t`
for every block below 191 * k, whose offsets are values of `off_t`), the
numbers of blocks among the block indices [0, 191 * k) mapped to two files
i, j < N differ by at most k (one block per window). -/
theorem hash_skew_bound (N B i j : Int) (k : ℕ) (hN : 1 ≤ N) (hB : 1 ≤ B) (_hk : 1 ≤ k)
    (hi0 : 0 ≤ i) (hi : i < N) (hj0 : 0 ≤ j) (hj : j < N)
    (hb : 31 * (191 * (k : Int)) < 2 ^ 63) (_hoff : 191 * (k : Int) * B < 2 ^ 63) :
    |((blocks_on_file (hash_mapper.map2file N B) B 0 (191 * k) i : ℕ) : Int) -
      ((blocks_on_file (hash_mapper.map2file N B) B 0 (191 * k) j : ℕ) : Int)| ≤ (k : Int) := by
  lift N to ℕ using (by omega)
  lift B to ℕ using (by omega)
  lift i to ℕ using hi0
  lift j to ℕ using hj0
  have hb' : 31 * (191 * k) < 2 ^ 63 := by exact_mod_cast hb
  rw [hash_cycles_nat N B k i (by exact_mod_cast hN) (by exact_mod_cast hB)
      (by exact_mod_cast hi) hb',
    hash_cycles_nat N B k j (by exact_mod_cast hN) (by exact_mod_cast hB)
      (by exact_mod_cast hj) hb']
  rw [abs_le]
  split_ifs <;> push_cast <;> constructor <;> nlinarith

theorem hash_skew_bound_witness :
    |((blocks_on_file (hash_mapper.map2file 2 1) 1 0 (191 * 2) 0 : ℕ) : Int) -
      ((blocks_on_file (hash_mapper.map2file 2 1) 1 0 (191 * 2) 1 : ℕ) : Int)| ≤ ((2 : ℕ) : Int) :=
  hash_skew_bound 2 1 0 1 2 (by decide) (by decide) (by decide) (by decide) (by decide)
    (by decide) (by decide) (by decide) (by decide)

/-- C7, as stated, fails: with N = 4 files, B = 1 and rand_start = 3 the sum
`block_idx + rand_start` wraps in `off_t` at offset 2^63 - 1, and `map` writes
`bid.idx = -2`, not `(block_idx + rand_start) mod N = 2`. -/
theorem raid0_map_formula_counterexample :
    (RAID0_mapper.map 4 1 3 9223372036854775807).idx = -2 ∧
    ((9223372036854775807 : Int) / 1 + 3) % 4 = 2 ∧
    (9223372036854775807 : Int) < 2 ^ 63 := by
  decide

/-- C7 as amended: for RAID0_mapper with N >= 1 files and block size B >= 1
(values of `int`), for every offset 0 <= off < 2^63 with block_idx = off / B
and block_idx + rand_start < 2^63 (the sum is a value of `off_t`), `map(off)`
sets `bid.idx = (block_idx + rand_start) mod N` and
`bid.off = (block_idx / N) * B + (off mod B)`; in particular the offsets of
logical block 0 (those below B) land on file `rand_start mod N`. -/
theorem raid0_map_formula (N B rand_start off : Int) (hN : 1 ≤ N) (hN31 : N < 2 ^ 31)
    (hB : 1 ≤ B) (hB31 : B < 2 ^ 31) (hr : 0 ≤ rand_start) (hoff : 0 ≤ off)
    (ho : off < 2 ^ 63) (hsum : off / B + rand_start < 2 ^ 63) :
    (RAID0_mapper.map N B rand_start off).idx = (off / B + rand_start) % N ∧
    (RAID0_mapper.map N B rand_start off).off = (off / B / N) * B + off % B ∧
    (off < B → (RAID0_mapper.map N B rand_start off).idx = rand_start % N) := by
  lift N to ℕ using (by omega)
  lift B to ℕ using (by omega)
  lift rand_start to ℕ using hr
  lift off to ℕ using hoff
  rw [raid0_map_natCast N B rand_start off (by exact_mod_cast hN) (by exact_mod_cast hN31)
    (by exact_mod_cast hB) (by exact_mod_cast hB31) (by exact_mod_cast ho)
    (by exact_mod_cast hsum)]
  refine ⟨by push_cast; rfl, by push_cast; rfl, ?_⟩
  intro hlt
  have hlt' : off < B := by exact_mod_cast hlt
  dsimp only
  rw [Nat.div_eq_of_lt hlt', Nat.zero_add]
  push_cast
  rfl

theorem raid0_map_formula_witness :
    (RAID0_mapper.map 4 16 3 1000).idx = (1000 / 16 + 3) % 4 ∧
    (RAID0_mapper.map 4 16 3 1000).off = (1000 / 16 / 4) * 16 + 1000 % 16 ∧
    ((1000 : Int) < 16 → (RAID0_mapper.map 4 16 3 1000).idx = 3 % 4) :=
  raid0_map_formula 4 16 3 1000 (by decide) (by decide) (by decide) (by decide) (by decide)
    (by decide) (by decide) (by decide)

/-- C8, as stated, fails: with N = 4 files, B = 1 and rand_start = 2147483647
the `int` sum `bid.idx + shift + rand_start` wraps at offset 5, and `map`
writes `bid.idx = -3`, not `(block_idx mod N + shift + rand_start) mod N = 1`. -/
theorem raid5_map_formula_counterexample :
    (RAID5_mapper.map 4 1 2147483647 5).idx = -3 ∧
    ((5 : Int) / 1 % 4 + 5 / 1 / 4 % 4 + 2147483647) % 4 = 1 ∧
    (2147483647 : Int) < 2 ^ 31 := by
  decide

/-- C8 as amended: for RAID5_mapper with N >= 1 files and block size B >= 1
(a value of `int`) and rand_start + 2 * (N - 1) < 2^31 (the `int` sum
`bid.idx + shift + rand_start` cannot overflow), for every offset
0 <= off < 2^63 with block_idx = off / B and shift = (block_idx / N) mod N,
`map(off)` sets `bid.idx = (block_idx mod N + shift + rand_start) mod N` and
`bid.off = (block_idx / N) * B + (off mod B)`. -/
theorem raid5_map_formula (N B rand_start off : Int) (hN : 1 ≤ N) (hB : 1 ≤ B)
    (hB31 : B < 2 ^ 31) (hr : 0 ≤ rand_start) (hoff : 0 ≤ off) (ho : off < 2 ^ 63)
    (hsum : 2 * (N - 1) + rand_start < 2 ^ 31) :
    (RAID5_mapper.map N B rand_start off).idx =
      (off / B % N + off / B / N % N + rand_start) % N ∧
    (RAID5_mapper.map N B rand_start off).off = (off / B / N) * B + off % B := by
  lift N to ℕ using (by omega)
  lift B to ℕ using (by omega)
  lift rand_start to ℕ using hr
  lift off to ℕ using hoff
  have hsum' : 2 * (N - 1) + rand_start < 2 ^ 31 := by omega
  rw [raid5_map_natCast N B rand_start off (by exact_mod_cast hN) (by exact_mod_cast hB)
    (by exact_mod_cast hB31) (by exact_mod_cast ho) hsum']
  exact ⟨by push_cast; rfl, by push_cast; rfl⟩

theorem raid5_map_formula_witness :
    (RAID5_mapper.map 4 16 3 1000).idx = (1000 / 16 % 4 + 1000 / 16 / 4 % 4 + 3) % 4 ∧
    (RAID5_mapper.map 4 16 3 1000).off = (1000 / 16 / 4) * 16 + 1000 % 16 :=
  raid5_map_formula 4 16 3 1000 (by decide) (by decide) (by decide) (by decide) (by decide)
    (by decide) (by decide)

/-- C9, as stated, fails: with rand_start = 1 a RAID0_mapper over 4 files with
a stripe block of 65536 maps offset 0 to file 1, not to file 0. -/
theorem raid0_end_to_end_counterexample :
    RAID0_mapper.map 4 65536 1 0 = { idx := 1, off := 0 } ∧
    ¬ (RAID0_mapper.map 4 65536 1 0 = { idx := 0, off := 0 } ∧
       RAID0_mapper.map 4 65536 1 65536 = { idx := 1, off := 0 } ∧
       RAID0_mapper.map 4 65536 1 (4 * 65536) = { idx := 0, off := 65536 }) := by
  decide

/-- C9 as amended: a RAID0_mapper over 4 files with a stripe block of 64KB
maps offset 0 to file 0 at physical offset 0, offset 64KB to file 1 at
physical offset 0 and offset 4 * 64KB to file 0 at physical offset 64KB
exactly when its rand_start (a non-negative value of `int`) is a multiple
of 4. -/
theorem raid0_end_to_end (rand_start : Int) (hr : 0 ≤ rand_start)
    (hr31 : rand_start < 2 ^ 31) :
    (RAID0_mapper.map 4 65536 rand_start 0 = { idx := 0, off := 0 } ∧
     RAID0_mapper.map 4 65536 rand_start 65536 = { idx := 1, off := 0 } ∧
     RAID0_mapper.map 4 65536 rand_start (4 * 65536) = { idx := 0, off := 65536 }) ↔
    rand_start % 4 = 0 := by
  lift rand_start to ℕ using hr
  have hr31' : rand_start < 2 ^ 31 := by exact_mod_cast hr31
  have h4 : (4 : Int) = ((4 : ℕ) : Int) := rfl
  have hB : (65536 : Int) = ((65536 : ℕ) : Int) := rfl
  have h0 : (0 : Int) = ((0 : ℕ) : Int) := rfl
  have hmul : (4 : Int) * 65536 = ((4 * 65536 : ℕ) : Int) := rfl
  have b0 : 0 / 65536 + rand_start < 2 ^ 63 := by omega
  have b1 : 65536 / 65536 + rand_start < 2 ^ 63 := by omega
  have b2 : 4 * 65536 / 65536 + rand_start < 2 ^ 63 := by omega
  rw [hmul, h4, hB]
  nth_rewrite 1 [h0]
  rw [raid0_map_natCast 4 65536 rand_start 0 (by decide) (by decide) (by decide) (by decide)
      (by decide) b0,
    raid0_map_natCast 4 65536 rand_start 65536 (by decide) (by decide) (by decide)
      (by decide) (by decide) b1,
    raid0_map_natCast 4 65536 rand_start (4 * 65536) (by decide) (by decide) (by decide)
      (by decide) (by decide) b2]
  simp only [block_identifier.mk.injEq]
  norm_num
  omega

theorem raid0_end_to_end_witness :
    (RAID0_mapper.map 4 65536 8 0 = { idx := 0, off := 0 } ∧
     RAID0_mapper.map 4 65536 8 65536 = { idx := 1, off := 0 } ∧
     RAID0_mapper.map 4 65536 8 (4 * 65536) = { idx := 0, off := 65536 }) ↔
    (8 : Int) % 4 = 0 :=
  raid0_end_to_end 8 (by decide) (by decide)

/-! ### Stripe rows -/

/-- Every residue `f < N` is reached as `(j + c) % N` from some `j < N`. -/
theorem exists_row_slot (N c f : ℕ) (hf : f < N) : ∃ j, j < N ∧ (j + c) % N = f := by
  have hN : 0 < N := by omega
  refine ⟨(f + (N - c % N)) % N, Nat.mod_lt _ hN, ?_⟩
  have hc := Nat.mod_lt c hN
  have e := Nat.div_add_mod c N
  have key : f + (N - c % N) + c = f + N * (1 + c / N) := by
    rw [Nat.mul_add, Nat.mul_one]
    omega
  rw [Nat.mod_add_mod, key, Nat.add_mul_mod_self_left, Nat.mod_eq_of_lt hf]

/-- The file of block `q * N + j` of stripe row `q` under
`RAID0_mapper::map2file`, when `block_idx + rand_start` is a value of `off_t`. -/
theorem raid0_row_file (N B r q j : ℕ) (hN : 1 ≤ N) (hN31 : N < 2 ^ 31) (hB : 1 ≤ B)
    (hsum : q * N + j + r < 2 ^ 63) :
    RAID0_mapper.map2file N B r ((((q : Int) * (N : Int) + (j : Int)) * (B : Int))) =
      (((j + (q * N + r)) % N : ℕ) : Int) := by
  have hdiv : (q * N + j) * B / B = q * N + j := Nat.mul_div_cancel _ hB
  rw [← Nat.cast_mul, ← Nat.cast_add, ← Nat.cast_mul,
    raid0_map2file_natCast N B r ((q * N + j) * B) hN hN31 (by rw [hdiv]; exact hsum), hdiv]
  congr 2
  omega

/-- The file of block `q * N + j`, `j < N`, of stripe row `q` under
`RAID5_mapper::map2file`. -/
theorem raid5_row_file (N B r q j : ℕ) (hN : 1 ≤ N) (hN31 : N < 2 ^ 31) (hr31 : r < 2 ^ 31)
    (hB : 1 ≤ B) (hj : j < N) :
    RAID5_mapper.map2file N B r ((((q : Int) * (N : Int) + (j : Int)) * (B : Int))) =
      (((j + (q % N + r)) % N : ℕ) : Int) := by
  rw [← Nat.cast_mul, ← Nat.cast_add, ← Nat.cast_mul,
    raid5_map2file_natCast N B r ((q * N + j) * B) hN hN31 hr31, Nat.mul_div_cancel _ hB]
  have h1 : (q * N + j) % N = j := by
    rw [Nat.mul_comm, Nat.mul_add_mod, Nat.mod_eq_of_lt hj]
  have h2 : (q * N + j) / N = q := by
    rw [Nat.mul_comm, Nat.mul_add_div (by omega), Nat.div_eq_of_lt hj, Nat.add_zero]
  rw [h1, h2, Nat.add_assoc]

/-- C10, as stated, fails for RAID0_mapper: with N = 7 files, B = 1 and
rand_start = 3, in stripe row q = 1317624576693539400 the sum
`block_idx + rand_start` wraps in `off_t`; `map2file` sends the blocks
q*N + 4 and q*N + 6 both to file 0 and the block q*N + 5 to -1, which is no
file. -/
theorem stripe_row_counterexample :
    RAID0_mapper.map2file 7 1 3 ((1317624576693539400 * 7 + 4) * 1) = 0 ∧
    RAID0_mapper.map2file 7 1 3 ((1317624576693539400 * 7 + 6) * 1) = 0 ∧
    RAID0_mapper.map2file 7 1 3 ((1317624576693539400 * 7 + 5) * 1) = -1 ∧
    ((1317624576693539400 : Int) * 7 + 6) * 1 < 2 ^ 63 := by
  decide

/-- C10 as amended: for RAID0_mapper and RAID5_mapper with N >= 1 files and
rand_start >= 0 (values of `int`), for every stripe row q >= 0 whose offsets
are values of `off_t`, the N consecutive logical blocks q*N, ..., q*N+N-1 are
sent by `map2file` to pairwise distinct files, and each file receives exactly
one block of the row: for RAID5_mapper always, for RAID0_mapper when
q*N + N - 1 + rand_start < 2^63 (the sum `block_idx + rand_start` is a value
of `off_t` for every block of the row). -/
theorem stripe_row_bijective (N B rand_start q : Int) (hN : 1 ≤ N) (hN31 : N < 2 ^ 31)
    (hB : 1 ≤ B) (hr : 0 ≤ rand_start) (hr31 : rand_start < 2 ^ 31) (hq : 0 ≤ q)
    (_hoff : (q * N + (N - 1)) * B < 2 ^ 63) :
    (q * N + (N - 1) + rand_start < 2 ^ 63 →
      (∀ j1 j2 : Int, 0 ≤ j1 → j1 < N → 0 ≤ j2 → j2 < N → j1 ≠ j2 →
        RAID0_mapper.map2file N B rand_start ((q * N + j1) * B) ≠
          RAID0_mapper.map2file N B rand_start ((q * N + j2) * B)) ∧
      (∀ f : Int, 0 ≤ f → f < N →
        ∃! j : Int, 0 ≤ j ∧ j < N ∧
          RAID0_mapper.map2file N B rand_start ((q * N + j) * B) = f)) ∧
    ((∀ j1 j2 : Int, 0 ≤ j1 → j1 < N → 0 ≤ j2 → j2 < N → j1 ≠ j2 →
        RAID5_mapper.map2file N B rand_start ((q * N + j1) * B) ≠
          RAID5_mapper.map2file N B rand_start ((q * N + j2) * B)) ∧
      (∀ f : Int, 0 ≤ f → f < N →
        ∃! j : Int, 0 ≤ j ∧ j < N ∧
          RAID5_mapper.map2file N B rand_start ((q * N + j) * B) = f)) := by
  lift N to ℕ using (by omega)
  lift B to ℕ using (by omega)
  lift rand_start to ℕ using hr
  lift q to ℕ using hq
  have hN' : 1 ≤ N := by exact_mod_cast hN
  have hN31' : N < 2 ^ 31 := by exact_mod_cast hN31
  have hr31' : rand_start < 2 ^ 31 := by exact_mod_cast hr31
  have hB' : 1 ≤ B := by exact_mod_cast hB
  refine ⟨fun hsum => ⟨?_, ?_⟩, ⟨?_, ?_⟩⟩
  · intro j1 j2 h10 h1 h20 h2 hne heq
    lift j1 to ℕ using h10
    lift j2 to ℕ using h20
    have h1' : j1 < N := by exact_mod_cast h1
    have h2' : j2 < N := by exact_mod_cast h2
    have hsum' : q * N + (N - 1) + rand_start < 2 ^ 63 := by
      have : ((q * N + (N - 1) + rand_start : ℕ) : Int) =
          (q : Int) * (N : Int) + ((N : Int) - 1) + (rand_start : Int) := by
        push_cast [Nat.cast_sub hN']
        ring
      exact_mod_cast this ▸ hsum
    rw [raid0_row_file N B rand_start q j1 hN' hN31' hB' (by omega),
      raid0_row_file N B rand_start q j2 hN' hN31' hB' (by omega)] at heq
    have := add_mod_cancel_of_lt N j1 j2 (q * N + rand_start) h1' h2' (by exact_mod_cast heq)
    exact hne (by rw [this])
  · intro f hf0 hf
    lift f to ℕ using hf0
    have hf' : f < N := by exact_mod_cast hf
    have hsum' : q * N + (N - 1) + rand_start < 2 ^ 63 := by
      have : ((q * N + (N - 1) + rand_start : ℕ) : Int) =
          (q : Int) * (N : Int) + ((N : Int) - 1) + (rand_start : Int) := by
        push_cast [Nat.cast_sub hN']
        ring
      exact_mod_cast this ▸ hsum
    obtain ⟨j, hj, hjf⟩ := exists_row_slot N (q * N + rand_start) f hf'
    refine ⟨(j : Int), ⟨Int.natCast_nonneg j, by exact_mod_cast hj, ?_⟩, ?_⟩
    · rw [raid0_row_file N B rand_start q j hN' hN31' hB' (by omega), hjf]
    · rintro j2 ⟨hj20, hj2, hj2f⟩
      lift j2 to ℕ using hj20
      have hj2' : j2 < N := by exact_mod_cast hj2
      rw [raid0_row_file N B rand_start q j2 hN' hN31' hB' (by omega)] at hj2f
      have hj2f' : (j2 + (q * N + rand_start)) % N = f := by exact_mod_cast hj2f
      have := add_mod_cancel_of_lt N j2 j (q * N + rand_start) hj2' hj (hj2f'.trans hjf.symm)
      rw [this]
  · intro j1 j2 h10 h1 h20 h2 hne heq
    lift j1 to ℕ using h10
    lift j2 to ℕ using h20
    have h1' : j1 < N := by exact_mod_cast h1
    have h2' : j2 < N := by exact_mod_cast h2
    rw [raid5_row_file N B rand_start q j1 hN' hN31' hr31' hB' h1',
      raid5_row_file N B rand_start q j2 hN' hN31' hr31' hB' h2'] at heq
    have := add_mod_cancel_of_lt N j1 j2 (q % N + rand_start) h1' h2' (by exact_mod_cast heq)
    exact hne (by rw [this])
  · intro f hf0 hf
    lift f to ℕ using hf0
    have hf' : f < N := by exact_mod_cast hf
    obtain ⟨j, hj, hjf⟩ := exists_row_slot N (q % N + rand_start) f hf'
    refine ⟨(j : Int), ⟨Int.natCast_nonneg j, by exact_mod_cast hj, ?_⟩, ?_⟩
    · rw [raid5_row_file N B rand_start q j hN' hN31' hr31' hB' hj, hjf]
    · rintro j2 ⟨hj20, hj2, hj2f⟩
      lift j2 to ℕ using hj20
      have hj2' : j2 < N := by exact_mod_cast hj2
      rw [raid5_row_file N B rand_start q j2 hN' hN31' hr31' hB' hj2'] at hj2f
      have hj2f' : (j2 + (q % N + rand_start)) % N = f := by exact_mod_cast hj2f
      have := add_mod_cancel_of_lt N j2 j (q % N + rand_start) hj2' hj (hj2f'.trans hjf.symm)
      rw [this]

theorem stripe_row_bijective_witness :
    ((∀ j1 j2 : Int, 0 ≤ j1 → j1 < 4 → 0 ≤ j2 → j2 < 4 → j1 ≠ j2 →
        RAID0_mapper.map2file 4 16 3 ((5 * 4 + j1) * 16) ≠
          RAID0_mapper.map2file 4 16 3 ((5 * 4 + j2) * 16)) ∧
      (∀ f : Int, 0 ≤ f → f < 4 →
        ∃! j : Int, 0 ≤ j ∧ j < 4 ∧ RAID0_mapper.map2file 4 16 3 ((5 * 4 + j) * 16) = f)) ∧
    ((∀ j1 j2 : Int, 0 ≤ j1 → j1 < 4 → 0 ≤ j2 → j2 < 4 → j1 ≠ j2 →
        RAID5_mapper.map2file 4 16 3 ((5 * 4 + j1) * 16) ≠
          RAID5_mapper.map2file 4 16 3 ((5 * 4 + j2) * 16)) ∧
      (∀ f : Int, 0 ≤ f → f < 4 →
        ∃! j : Int, 0 ≤ j ∧ j < 4 ∧ RAID5_mapper.map2file 4 16 3 ((5 * 4 + j) * 16) = f)) :=
  ⟨(stripe_row_bijective 4 16 3 5 (by decide) (by decide) (by decide) (by decide) (by decide)
      (by decide) (by decide)).1 (by decide),
    (stripe_row_bijective 4 16 3 5 (by decide) (by decide) (by decide) (by decide) (by decide)
      (by decide) (by decide)).2⟩

/-! ### page_cell -/

/-- On an empty cell the loop of `get_empty_page` never ends. -/
theorem wrap_idx_zero_pages (fuel idx : ℕ) : page_cell.wrap_idx fuel idx 0 = none := by
  induction fuel generalizing idx with
  | zero => rfl
  | succ fuel ih => simp [page_cell.wrap_idx, ih]

/-- On a cell that holds pages the loop of `get_empty_page` ends with the
cursor reduced modulo `num_pages`, given fuel beyond the cursor. -/
theorem wrap_idx_eq (fuel idx n : ℕ) (hn : 1 ≤ n) (hf : idx < fuel) :
    page_cell.wrap_idx fuel idx n = some (idx % n) := by
  induction fuel generalizing idx with
  | zero => omega
  | succ fuel ih =>
    unfold page_cell.wrap_idx
    split_ifs with h
    · rw [ih (idx - n) (by omega), Nat.mod_eq_sub_mod h]
    · rw [Nat.mod_eq_of_lt (by omega)]

/-- When `get_empty_page` returns. -/
theorem get_empty_page_eq_some (c : page_cell) (slot : ℕ) (c1 : page_cell) :
    page_cell.get_empty_page c = some (slot, c1) ↔
      1 ≤ c.num_pages ∧ page_cell.get_page c (c.idx % c.num_pages) = some slot ∧
        c1 = { c with idx := (c.idx % c.num_pages + 1) % 256 } := by
  unfold page_cell.get_empty_page
  rcases Nat.eq_zero_or_pos c.num_pages with h0 | hpos
  · rw [h0, wrap_idx_zero_pages]
    simp
  · rw [wrap_idx_eq _ _ _ hpos (Nat.lt_succ_self _)]
    cases hg : page_cell.get_page c (c.idx % c.num_pages) with
    | none => simp [hg]
    | some ret =>
      simp only [hg, Option.some.injEq, Prod.mk.injEq]
      constructor
      · rintro ⟨rfl, rfl⟩
        exact ⟨hpos, rfl, rfl⟩
      · rintro ⟨_, rfl, rfl⟩
        exact ⟨rfl, rfl⟩

/-- C14, as stated, fails: on a cell with two pages and the cursor at 0,
`get_empty_page` returns slot 2, which is the exposed page `get_page(0)`. -/
theorem get_empty_page_counterexample :
    page_cell.get_empty_page
        { idx := 0, num_pages := 2, maps := [2, 0, 0, 0],
          buf := List.replicate 4 ⟨true, 0, false, 0⟩ } =
      some (2, { idx := 1, num_pages := 2, maps := [2, 0, 0, 0],
                 buf := List.replicate 4 ⟨true, 0, false, 0⟩ }) ∧
    page_cell.get_page
        { idx := 0, num_pages := 2, maps := [2, 0, 0, 0],
          buf := List.replicate 4 ⟨true, 0, false, 0⟩ } 0 = some 2 ∧
    ¬ (∀ i, i < 2 → page_cell.get_page
        { idx := 0, num_pages := 2, maps := [2, 0, 0, 0],
          buf := List.replicate 4 ⟨true, 0, false, 0⟩ } i ≠ some 2) := by
  decide

/-- C14 as amended: whenever `get_empty_page` returns, the cell holds at least
one page and the returned slot is `get_page(i)` for the wrapped cursor
`i = idx mod num_pages < num_pages`, one of the pages currently exposed; the
call sets `idx` to `i + 1` and leaves `num_pages`, `maps` and `buf` unchanged.
It returns exactly when `num_pages >= 1` and `get_page(i)` returns. -/
theorem get_empty_page_exposed (c : page_cell) :
    (∀ (slot : ℕ) (c1 : page_cell), page_cell.get_empty_page c = some (slot, c1) →
      1 ≤ c.num_pages ∧ c.idx % c.num_pages < c.num_pages ∧
      page_cell.get_page c (c.idx % c.num_pages) = some slot ∧
      c1.idx = (c.idx % c.num_pages + 1) % 256 ∧ c1.num_pages = c.num_pages ∧
      c1.maps = c.maps ∧ c1.buf = c.buf) ∧
    ((page_cell.get_empty_page c).isSome ↔
      1 ≤ c.num_pages ∧ (page_cell.get_page c (c.idx % c.num_pages)).isSome) := by
  constructor
  · intro slot c1 h
    obtain ⟨h1, h2, h3⟩ := (get_empty_page_eq_some c slot c1).1 h
    subst h3
    exact ⟨h1, Nat.mod_lt _ h1, h2, rfl, rfl, rfl, rfl⟩
  · constructor
    · intro h
      obtain ⟨⟨slot, c1⟩, hr⟩ := Option.isSome_iff_exists.1 h
      obtain ⟨h1, h2, _⟩ := (get_empty_page_eq_some c slot c1).1 hr
      exact ⟨h1, by rw [h2]; rfl⟩
    · rintro ⟨h1, h2⟩
      obtain ⟨slot, hs⟩ := Option.isSome_iff_exists.1 h2
      exact Option.isSome_iff_exists.2
        ⟨_, (get_empty_page_eq_some c slot _).2 ⟨h1, hs, rfl⟩⟩

theorem get_empty_page_exposed_witness :
    1 ≤ 3 ∧ 4 % 3 < 3 ∧
    page_cell.get_page
      { idx := 4, num_pages := 3, maps := [2, 0, 1, 0],
        buf := List.replicate 4 ⟨true, 0, false, 0⟩ } (4 % 3) = some 0 ∧
    (2 : ℕ) = (4 % 3 + 1) % 256 ∧ (3 : ℕ) = 3 ∧ ([2, 0, 1, 0] : List ℕ) = [2, 0, 1, 0] ∧
    List.replicate 4 (⟨true, 0, false, 0⟩ : thread_safe_page) =
      List.replicate 4 ⟨true, 0, false, 0⟩ :=
  (get_empty_page_exposed
    { idx := 4, num_pages := 3, maps := [2, 0, 1, 0],
      buf := List.replicate 4 ⟨true, 0, false, 0⟩ }).1 0
    { idx := 2, num_pages := 3, maps := [2, 0, 1, 0],
      buf := List.replicate 4 ⟨true, 0, false, 0⟩ } (by decide)

/-- C15: for every page_cell with `num_pages >= 1` (an `unsigned char`, so
below 256) and every page `pg`, `steal_page(pg, false)` passes its assertion
exactly when the reference count of `pg` is 0, and then it only decreases
`num_pages` by one: `idx`, `maps` and the pages in `buf` are unchanged. -/
theorem steal_page_no_rebuild (rebuild_map : page_cell → page_cell) (c : page_cell)
    (pg : thread_safe_page) (h1 : 1 ≤ c.num_pages) (h2 : c.num_pages < 256) :
    ((page_cell.steal_page rebuild_map c pg false).isSome ↔ pg.ref = 0) ∧
    (pg.ref = 0 → page_cell.steal_page rebuild_map c pg false =
      some { idx := c.idx, num_pages := c.num_pages - 1, maps := c.maps, buf := c.buf }) := by
  have hdec : (c.num_pages + 255) % 256 = c.num_pages - 1 := by omega
  unfold page_cell.steal_page
  by_cases h0 : pg.ref = 0
  · simp [h0, hdec]
  · simp [h0]

theorem steal_page_no_rebuild_witness :
    ((page_cell.steal_page id
        { idx := 0, num_pages := 2, maps := [2, 0, 0, 0],
          buf := List.replicate 4 ⟨true, 0, false, 0⟩ } ⟨true, 0, false, 7⟩ false).isSome ↔
      (⟨true, 0, false, 7⟩ : thread_safe_page).ref = 0) ∧
    ((⟨true, 0, false, 7⟩ : thread_safe_page).ref = 0 →
      page_cell.steal_page id
        { idx := 0, num_pages := 2, maps := [2, 0, 0, 0],
          buf := List.replicate 4 ⟨true, 0, false, 0⟩ } ⟨true, 0, false, 7⟩ false =
      some { idx := 0, num_pages := 2 - 1, maps := [2, 0, 0, 0],
             buf := List.replicate 4 ⟨true, 0, false, 0⟩ }) :=
  steal_page_no_rebuild id
    { idx := 0, num_pages := 2, maps := [2, 0, 0, 0],
      buf := List.replicate 4 ⟨true, 0, false, 0⟩ } ⟨true, 0, false, 7⟩ (by decide) (by decide)

theorem halved_upto_zero (c : page_cell) : page_cell.halved_upto c c 0 := by
  refine ⟨rfl, rfl, rfl, fun s => ?_⟩
  cases c.buf[s]? <;> simp

/-- When one iteration of the loop of `scale_down_hits` gets through. -/
theorem scale_down_hit_eq_some (c c1 : page_cell) (i : ℕ) :
    page_cell.scale_down_hit c i = some c1 ↔
      ∃ slot pg, c.maps[i]? = some slot ∧ c.buf[slot]? = some pg ∧ pg.data = true ∧
        c1 = { c with buf := c.buf.set slot { pg with hits := pg.hits / 2 } } := by
  unfold page_cell.scale_down_hit page_cell.get_page
  cases hm : c.maps[i]? with
  | none => simp [hm]
  | some slot =>
    cases hb : c.buf[slot]? with
    | none => simp [hm, hb]
    | some pg =>
      by_cases hd : pg.data = true
      · simp only [hm, hb, if_pos hd, Option.some.injEq]
        constructor
        · intro h
          exact ⟨slot, pg, rfl, hb, hd, h.symm⟩
        · rintro ⟨slot1, pg1, h1, h2, _, h4⟩
          cases h1
          rw [hb] at h2
          cases h2
          exact h4.symm
      · simp only [hm, hb, if_neg hd]
        constructor
        · intro h
          exact Option.noConfusion h
        · rintro ⟨slot1, pg1, h1, h2, h3, _⟩
          cases h1
          rw [hb] at h2
          cases h2
          exact absurd h3 hd

/-- One iteration of the loop of `scale_down_hits`. -/
theorem halved_upto_succ (c ck ck1 : page_cell) (k : ℕ)
    (hnd : (c.maps.take c.num_pages).Nodup) (hk : k < c.num_pages)
    (h : page_cell.halved_upto c ck k) (hstep : page_cell.scale_down_hit ck k = some ck1) :
    page_cell.halved_upto c ck1 (k + 1) := by
  obtain ⟨hidx, hnum, hmaps, hbuf⟩ := h
  obtain ⟨slot, pg, hm, hb, _, rfl⟩ := (scale_down_hit_eq_some ck ck1 k).1 hstep
  rw [hmaps] at hm
  have htake : c.maps.take (k + 1) = c.maps.take k ++ [slot] := by
    rw [List.take_succ, hm]; rfl
  have hnotin : slot ∉ c.maps.take k := by
    have hsub : List.Sublist (c.maps.take (k + 1)) (c.maps.take c.num_pages) :=
      List.take_sublist_take_left c.maps hk
    have hnd1 := hsub.nodup hnd
    rw [htake, List.nodup_append] at hnd1
    intro hin
    exact hnd1.2.2 hin (List.mem_singleton_self slot)
  have hpg : c.buf[slot]? = some pg := by
    have h1 := hbuf slot
    rw [hb] at h1
    cases hc : c.buf[slot]? with
    | none => simp [hc] at h1
    | some pg0 =>
      simp only [hc, Option.map_some', Option.some.injEq, if_neg hnotin] at h1
      rw [h1]
  have hlt : slot < ck.buf.length := by
    by_contra hge
    rw [List.getElem?_eq_none (by omega)] at hb
    exact Option.noConfusion hb
  refine ⟨hidx, hnum, hmaps, fun s => ?_⟩
  show (ck.buf.set slot { pg with hits := pg.hits / 2 })[s]? = _
  rw [List.getElem?_set, htake]
  by_cases hs : slot = s
  · subst hs
    simp [hlt, hpg]
  · rw [if_neg hs, hbuf s]
    have hs1 : s ≠ slot := fun e => hs e.symm
    simp [List.mem_append, hs1]

/-- The last step of a monadic fold over `List.range (k + 1)`. -/
theorem foldlM_range_succ (f : page_cell → ℕ → Option page_cell) (c : page_cell) (k : ℕ) :
    (List.range (k + 1)).foldlM f c = ((List.range k).foldlM f c).bind (fun cp => f cp k) := by
  rw [List.range_succ, List.foldlM_append]
  cases (List.range k).foldlM f c with
  | none => rfl
  | some cp =>
    simp only [Option.bind_eq_bind, Option.some_bind, List.foldlM_cons, List.foldlM_nil]
    cases f cp k <;> rfl

/-- The loop of `scale_down_hits` over the indices below `k <= num_pages`. -/
theorem halved_upto_fold (c : page_cell) (hnd : (c.maps.take c.num_pages).Nodup)
    (k : ℕ) (hk : k ≤ c.num_pages) (ck : page_cell)
    (h : (List.range k).foldlM page_cell.scale_down_hit c = some ck) :
    page_cell.halved_upto c ck k := by
  induction k generalizing ck with
  | zero =>
    simp only [List.range_zero, List.foldlM_nil, pure, Option.some.injEq] at h
    rw [← h]
    exact halved_upto_zero c
  | succ k ih =>
    rw [foldlM_range_succ] at h
    cases hprev : (List.range k).foldlM page_cell.scale_down_hit c with
    | none => simp [hprev] at h
    | some cp =>
      rw [hprev, Option.some_bind] at h
      exact halved_upto_succ c cp ck k hnd (by omega) (ih (by omega) cp hprev) h

/-- The loop of `scale_down_hits` reaches its end when every exposed page has
its data buffer. -/
theorem scale_down_fold_some (c : page_cell) (hnd : (c.maps.take c.num_pages).Nodup)
    (hdata : ∀ i, i < c.num_pages → (page_cell.get_page c i).isSome)
    (k : ℕ) (hk : k ≤ c.num_pages) :
    ∃ ck, (List.range k).foldlM page_cell.scale_down_hit c = some ck := by
  induction k with
  | zero => exact ⟨c, rfl⟩
  | succ k ih =>
    obtain ⟨cp, hcp⟩ := ih (by omega)
    obtain ⟨hidx, hnum, hmaps, hbuf⟩ := halved_upto_fold c hnd k (by omega) cp hcp
    rw [foldlM_range_succ, hcp, Option.some_bind]
    have hd := hdata k (by omega)
    unfold page_cell.get_page at hd
    cases hm : c.maps[k]? with
    | none => simp [hm] at hd
    | some slot =>
      simp only [hm] at hd
      cases hb : c.buf[slot]? with
      | none => simp [hb] at hd
      | some pg =>
        simp only [hb] at hd
        have hdat : pg.data = true := by
          by_contra hne
          simp [hne] at hd
        have h1 := hbuf slot
        rw [hb, Option.map_some'] at h1
        refine ⟨_, (scale_down_hit_eq_some cp _ k).2 ⟨slot, _, by rw [hmaps, hm], h1, ?_, rfl⟩⟩
        split_ifs <;> exact hdat

/-- C16: for every page_cell whose `maps[0..num_pages)` are pairwise distinct
slot indices, after `scale_down_hits` every exposed page (a slot in
`maps[0..num_pages)`) has hit counter `old hits / 2` and nothing else
changes: the other fields of those pages, the other pages, `num_pages`, `idx`
and `maps` are unchanged.  The call returns when every exposed page passes the
bounds of `maps` and `buf` and the `get_data()` assertion of `get_page`. -/
theorem scale_down_hits_halves (c : page_cell)
    (hnd : (c.maps.take c.num_pages).Nodup) :
    (∀ c1, page_cell.scale_down_hits c = some c1 →
      c1.idx = c.idx ∧ c1.num_pages = c.num_pages ∧ c1.maps = c.maps ∧
      ∀ s : ℕ, c1.buf[s]? = (c.buf[s]?).map
        (fun pg => if s ∈ c.maps.take c.num_pages then { pg with hits := pg.hits / 2 } else pg)) ∧
    ((∀ i, i < c.num_pages → (page_cell.get_page c i).isSome) →
      (page_cell.scale_down_hits c).isSome) := by
  constructor
  · intro c1 h
    exact halved_upto_fold c hnd c.num_pages (le_refl _) c1 h
  · intro hdata
    obtain ⟨ck, hck⟩ := scale_down_fold_some c hnd hdata c.num_pages (le_refl _)
    unfold page_cell.scale_down_hits
    rw [hck]
    rfl

theorem scale_down_hits_halves_witness :
    (∀ c1, page_cell.scale_down_hits
        { idx := 0, num_pages := 2, maps := [2, 0, 0],
          buf := [⟨true, 0, false, 7⟩, ⟨true, 1, true, 4⟩, ⟨true, 0, false, 9⟩] } = some c1 →
      c1.idx = 0 ∧ c1.num_pages = 2 ∧ c1.maps = [2, 0, 0] ∧
      ∀ s : ℕ, c1.buf[s]? =
        (([⟨true, 0, false, 7⟩, ⟨true, 1, true, 4⟩, ⟨true, 0, false, 9⟩] :
            List thread_safe_page)[s]?).map
          (fun pg => if s ∈ ([2, 0, 0] : List ℕ).take 2 then { pg with hits := pg.hits / 2 }
            else pg)) ∧
    ((∀ i, i < 2 → (page_cell.get_page
        { idx := 0, num_pages := 2, maps := [2, 0, 0],
          buf := [⟨true, 0, false, 7⟩, ⟨true, 1, true, 4⟩, ⟨true, 0, false, 9⟩] } i).isSome) →
      (page_cell.scale_down_hits
        { idx := 0, num_pages := 2, maps := [2, 0, 0],
          buf := [⟨true, 0, false, 7⟩, ⟨true, 1, true, 4⟩, ⟨true, 0, false, 9⟩] }).isSome) :=
  scale_down_hits_halves
    { idx := 0, num_pages := 2, maps := [2, 0, 0],
      buf := [⟨true, 0, false, 7⟩, ⟨true, 1, true, 4⟩, ⟨true, 0, false, 9⟩] } (by decide)

/-! ### Eviction policies -/

/-- A page found by `first_page` is exposed by the cell at one of the inspected
positions and satisfies the predicate. -/
theorem first_page_spec (buf : page_cell) (p : thread_safe_page → Bool) (order : List ℕ)
    (victim : ℕ) (h : first_page buf p order = some victim) :
    ∃ i, i ∈ order ∧ i < buf.num_pages ∧ page_cell.get_page buf i = some victim ∧
      ∃ pg, buf.buf[victim]? = some pg ∧ p pg = true := by
  unfold first_page at h
  obtain ⟨i, hi, hf⟩ := List.exists_of_findSome?_eq_some h
  refine ⟨i, hi, ?_⟩
  unfold exposed_page at hf
  by_cases hlt : i < buf.num_pages
  · simp only [hlt, if_true] at hf
    cases hg : page_cell.get_page buf i with
    | none => simp [hg] at hf
    | some slot =>
      simp only [hg] at hf
      cases hb : buf.buf[slot]? with
      | none => simp [hb] at hf
      | some pg =>
        simp only [hb, Option.map_some'] at hf
        by_cases hp : p pg = true
        · simp only [hp, if_true, Option.some.injEq] at hf
          subst hf
          exact ⟨hlt, rfl, pg, hb, hp⟩
        · simp [hp] at hf
  · simp [hlt] at hf

theorem evictable_iff (pg : thread_safe_page) :
    evictable pg = true ↔ pg.ref = 0 ∧ pg.dirty = false := by
  unfold evictable
  cases pg.dirty <;> simp

/-- C11: for every eviction policy (LRU, Clock, GClock, LFU, FIFO) and every
page_cell, `evict_page` returns no victim or a page that the cell exposes
(`get_page(i)` for some `i < num_pages`) whose reference count is 0 and which
is not dirty; a page with ref > 0 is never selected. -/
theorem evict_page_unpinned (policy : eviction_policy) (buf : page_cell) (victim : ℕ)
    (h : eviction_policy.evict_page policy buf = some victim) :
    ∃ i, i < buf.num_pages ∧ page_cell.get_page buf i = some victim ∧
      ∃ pg, buf.buf[victim]? = some pg ∧ pg.ref = 0 ∧ pg.dirty = false ∧ ¬ 0 < pg.ref := by
  have key : ∀ (p : thread_safe_page → Bool) (order : List ℕ),
      (∀ pg, p pg = true → evictable pg = true) → first_page buf p order = some victim →
      ∃ i, i < buf.num_pages ∧ page_cell.get_page buf i = some victim ∧
        ∃ pg, buf.buf[victim]? = some pg ∧ pg.ref = 0 ∧ pg.dirty = false ∧ ¬ 0 < pg.ref := by
    intro p order hp hf
    obtain ⟨i, _, hlt, hg, pg, hb, hpg⟩ := first_page_spec buf p order victim hf
    obtain ⟨h1, h2⟩ := (evictable_iff pg).1 (hp pg hpg)
    exact ⟨i, hlt, hg, pg, hb, h1, h2, by omega⟩
  have hand : ∀ (q : thread_safe_page → Bool) (pg : thread_safe_page),
      (evictable pg && q pg) = true → evictable pg = true := by
    intro q pg hq
    rw [Bool.and_eq_true] at hq
    exact hq.1
  have hclock : ∀ clock_head : ℕ,
      clock_eviction_policy.evict_page clock_head buf = some victim →
      ∃ i, i < buf.num_pages ∧ page_cell.get_page buf i = some victim ∧
        ∃ pg, buf.buf[victim]? = some pg ∧ pg.ref = 0 ∧ pg.dirty = false ∧ ¬ 0 < pg.ref := by
    intro clock_head hc
    unfold clock_eviction_policy.evict_page at hc
    cases h1 : first_page buf (fun pg => evictable pg && pg.hits == 0)
        (circular_order buf clock_head) with
    | none =>
      simp only [h1] at hc
      exact key _ _ (fun _ hp => hp) hc
    | some v =>
      simp only [h1, Option.some.injEq] at hc
      subst hc
      exact key _ _ (hand (fun pg => pg.hits == 0)) h1
  cases policy with
  | LRU pos_vec => exact key _ _ (fun _ hp => hp) h
  | Clock clock_head => exact hclock clock_head h
  | GClock clock_head => exact hclock clock_head h
  | LFU =>
    simp only [eviction_policy.evict_page, LFU_eviction_policy.evict_page] at h
    cases hm : (LFU_eviction_policy.candidate_hits buf).min? with
    | none => simp [hm] at h
    | some least =>
      simp only [hm] at h
      exact key _ _ (hand (fun pg => pg.hits == least)) h
  | FIFO => exact key _ _ (fun _ hp => hp) h

theorem evict_page_unpinned_witness :
    ∃ i, i < 3 ∧ page_cell.get_page
        { idx := 0, num_pages := 3, maps := [2, 0, 1],
          buf := [⟨true, 1, false, 0⟩, ⟨true, 0, false, 2⟩, ⟨true, 0, true, 0⟩] } i = some 1 ∧
      ∃ pg, ([⟨true, 1, false, 0⟩, ⟨true, 0, false, 2⟩, ⟨true, 0, true, 0⟩] :
          List thread_safe_page)[1]? = some pg ∧
        pg.ref = 0 ∧ pg.dirty = false ∧ ¬ 0 < pg.ref :=
  evict_page_unpinned (eviction_policy.Clock 5)
    { idx := 0, num_pages := 3, maps := [2, 0, 1],
      buf := [⟨true, 1, false, 0⟩, ⟨true, 0, false, 2⟩, ⟨true, 0, true, 0⟩] } 1 (by decide)

/-! ### The lookup of a cell -/

/-- Without a division by zero, `hash` and `hash1` return. -/
theorem hash_eq_some (PAGE_SIZE : Int) (universal_hash : Int → Int → Int)
    (cache : associative_cache) (pg_id : page_id_t) (hP : PAGE_SIZE ≠ 0)
    (hof : cache.offset_factor ≠ 0) :
    associative_cache.hash PAGE_SIZE universal_hash cache pg_id =
      some (universal_hash
        ((pg_id.offset.tdiv PAGE_SIZE).tdiv cache.offset_factor + pg_id.file_id)
        (to_int (cache.init_ncells * 2 ^ cache.level.toNat))) ∧
    associative_cache.hash1 PAGE_SIZE universal_hash cache pg_id =
      some (universal_hash
        ((pg_id.offset.tdiv PAGE_SIZE).tdiv cache.offset_factor + pg_id.file_id)
        (to_int (cache.init_ncells * 2 ^ (cache.level + 1).toNat))) := by
  have hno : ¬ (PAGE_SIZE = 0 ∨ cache.offset_factor = 0) := by
    rintro (h | h)
    · exact hP h
    · exact hof h
  constructor
  · unfold associative_cache.hash
    rw [if_neg hno]
  · unfold associative_cache.hash1
    rw [if_neg hno]

/-- With a division by zero, `hash` and the calls that use it do not return. -/
theorem hash_eq_none (PAGE_SIZE : Int) (universal_hash : Int → Int → Int)
    (cache : associative_cache) (pg_id : page_id_t)
    (h0 : PAGE_SIZE = 0 ∨ cache.offset_factor = 0) :
    associative_cache.hash PAGE_SIZE universal_hash cache pg_id = none ∧
    associative_cache.selected_idx PAGE_SIZE universal_hash cache pg_id = none ∧
    associative_cache.get_cell_offset PAGE_SIZE universal_hash cache pg_id = none := by
  have h1 : associative_cache.hash PAGE_SIZE universal_hash cache pg_id = none := by
    unfold associative_cache.hash
    rw [if_pos h0]
  have h2 : associative_cache.selected_idx PAGE_SIZE universal_hash cache pg_id = none := by
    unfold associative_cache.selected_idx
    rw [h1]
  refine ⟨h1, h2, ?_⟩
  unfold associative_cache.get_cell_offset
  rw [h2]

/-- The cell that `get_cell` finds for a global index, for `init_ncells` in
[1, 2^31): entry `global_idx mod init_ncells` of the array
`cells_table[global_idx / init_ncells]`, when the table holds that array. -/
theorem get_cell_eq (cache : associative_cache) (u : Int)
    (hn : 1 ≤ cache.init_ncells) (hn31 : cache.init_ncells < 2 ^ 31) :
    associative_cache.get_cell cache u =
      match cache.cells_table[(u / cache.init_ncells).toNat]? with
      | none => none
      | some cells =>
        if cells then
          some (some { cells_idx := (u / cache.init_ncells).toNat, idx := u % cache.init_ncells })
        else some none := by
  have e31 : (2 : Int) ^ 31 = 2147483648 := by norm_num
  have e32 : (2 : Int) ^ 32 = 4294967296 := by norm_num
  have hun : to_unsigned cache.init_ncells = cache.init_ncells := by
    unfold to_unsigned
    rw [e32]
    rw [e31] at hn31
    omega
  have hm0 : 0 ≤ u % cache.init_ncells := Int.emod_nonneg _ (by omega)
  have hm1 : u % cache.init_ncells < cache.init_ncells := Int.emod_lt_of_pos _ (by omega)
  have hti : to_int (u % cache.init_ncells) = u % cache.init_ncells :=
    to_int_of_fits _ hm0 (by omega)
  unfold associative_cache.get_cell
  rw [hun, if_neg (by omega), hti]

/-- C12, as stated, fails: `get_cell_offset` does not return a cell in every
cache state.  With offset_factor = 0 the division in `hash` stops the
program, and with a table that has no array for the selected index (here an
empty table, and a table whose array pointer is null) an assertion fails. -/
theorem get_cell_offset_counterexample :
    associative_cache.get_cell_offset 4096 (fun key m => key % m)
      { cells_table := [true, true, true, false], offset_factor := 0, init_ncells := 4,
        level := 1, split := 3 } { file_id := 2, offset := 8192 } = none ∧
    associative_cache.get_cell_offset 4096 (fun key m => key % m)
      { cells_table := [], offset_factor := 1, init_ncells := 4,
        level := 1, split := 3 } { file_id := 2, offset := 8192 } = none ∧
    associative_cache.hash 4096 (fun key m => key % m)
      { cells_table := [false, false], offset_factor := 1, init_ncells := 4,
        level := 1, split := 3 } { file_id := 2, offset := 8192 } = some 4 ∧
    associative_cache.get_cell_offset 4096 (fun key m => key % m)
      { cells_table := [false, false], offset_factor := 1, init_ncells := 4,
        level := 1, split := 3 } { file_id := 2, offset := 8192 } = none := by
  decide

/-- C12 as amended: for every cache state with init_ncells in [1, 2^31) and
offset_factor != 0 (and PAGE_SIZE != 0) and every page id, in a run with no
concurrent writer, `hash` and `hash1` return, and with g = hash(pg_id) when
hash(pg_id) >= split and g = hash1(pg_id) when hash(pg_id) < split, converted
to `unsigned int`, `get_cell_offset` returns the cell `g mod init_ncells` of
the array `cells_table[g / init_ncells]` when the table holds that array and
its pointer is non-null, and does not return otherwise. -/
theorem get_cell_offset_dual_hash (PAGE_SIZE : Int) (universal_hash : Int → Int → Int)
    (cache : associative_cache) (pg_id : page_id_t) (hP : PAGE_SIZE ≠ 0)
    (hof : cache.offset_factor ≠ 0) (hn : 1 ≤ cache.init_ncells)
    (hn31 : cache.init_ncells < 2 ^ 31) :
    ∃ h h1 : Int, associative_cache.hash PAGE_SIZE universal_hash cache pg_id = some h ∧
      associative_cache.hash1 PAGE_SIZE universal_hash cache pg_id = some h1 ∧
      (cache.split ≤ h →
        associative_cache.get_cell_offset PAGE_SIZE universal_hash cache pg_id =
          if cache.cells_table[(to_unsigned h / cache.init_ncells).toNat]? = some true then
            some { cells_idx := (to_unsigned h / cache.init_ncells).toNat,
                   idx := to_unsigned h % cache.init_ncells }
          else none) ∧
      (h < cache.split →
        associative_cache.get_cell_offset PAGE_SIZE universal_hash cache pg_id =
          if cache.cells_table[(to_unsigned h1 / cache.init_ncells).toNat]? = some true then
            some { cells_idx := (to_unsigned h1 / cache.init_ncells).toNat,
                   idx := to_unsigned h1 % cache.init_ncells }
          else none) := by
  obtain ⟨hh, hh1⟩ := hash_eq_some PAGE_SIZE universal_hash cache pg_id hP hof
  have key : ∀ g : Int,
      (match associative_cache.get_cell cache (to_unsigned g) with
        | some (some cell) => some cell
        | _ => none) =
      if cache.cells_table[(to_unsigned g / cache.init_ncells).toNat]? = some true then
        some { cells_idx := (to_unsigned g / cache.init_ncells).toNat,
               idx := to_unsigned g % cache.init_ncells }
      else none := by
    intro g
    rw [get_cell_eq cache (to_unsigned g) hn hn31]
    cases hc : cache.cells_table[(to_unsigned g / cache.init_ncells).toNat]? with
    | none => simp
    | some cells =>
      cases cells with
      | false => simp
      | true => simp
  refine ⟨_, _, hh, hh1, ?_, ?_⟩
  · intro hsp
    unfold associative_cache.get_cell_offset associative_cache.selected_idx
    rw [hh]
    simp only [if_neg (not_lt.2 hsp)]
    exact key _
  · intro hsp
    unfold associative_cache.get_cell_offset associative_cache.selected_idx
    rw [hh]
    simp only [if_pos hsp, hh1]
    exact key _

theorem get_cell_offset_dual_hash_witness :
    associative_cache.get_cell_offset 4096 (fun key m => key % m)
        { cells_table := [true, true, true, false], offset_factor := 1, init_ncells := 4,
          level := 1, split := 3 } { file_id := 2, offset := 8192 } = some ⟨1, 0⟩ ∧
    associative_cache.get_cell_offset 4096 (fun key m => key % m)
        { cells_table := [true, true, true, false], offset_factor := 1, init_ncells := 4,
          level := 1, split := 3 } { file_id := 2, offset := 32768 } = some ⟨2, 2⟩ := by
  obtain ⟨h, h1, hh, hh1, ha, _⟩ := get_cell_offset_dual_hash 4096 (fun key m => key % m)
    { cells_table := [true, true, true, false], offset_factor := 1, init_ncells := 4,
      level := 1, split := 3 } { file_id := 2, offset := 8192 }
    (by decide) (by decide) (by decide) (by decide)
  obtain ⟨k, k1, hk, hk1, _, hb⟩ := get_cell_offset_dual_hash 4096 (fun key m => key % m)
    { cells_table := [true, true, true, false], offset_factor := 1, init_ncells := 4,
      level := 1, split := 3 } { file_id := 2, offset := 32768 }
    (by decide) (by decide) (by decide) (by decide)
  have e1 : h = 4 := Option.some.inj (hh.symm.trans (by decide))
  have e2 : k = 2 := Option.some.inj (hk.symm.trans (by decide))
  have e3 : k1 = 10 := Option.some.inj (hk1.symm.trans (by decide))
  subst e1 e2 e3
  exact ⟨(ha (by decide)).trans (by decide), (hb (by decide)).trans (by decide)⟩

/-! ### Construction of the file mappers -/

/-- The constructor of `file_mapper` with a positive block size. -/
theorem file_mapper_ok (new_file_id : Int) (name : String) (files : List part_file_info)
    (block_size : Int) (h : 0 < block_size) :
    file_mapper.file_mapper new_file_id name files block_size =
      Except.ok { file_id := new_file_id, files := files, file_name := name,
                  STRIPE_BLOCK_SIZE := block_size } := by
  have hd : decide (block_size > 0) = true := decide_eq_true h
  simp only [file_mapper.file_mapper, file_mapper.ASSERT_TRUE, hd, if_true]

/-- The constructor of `file_mapper` with a block size that is not positive. -/
theorem file_mapper_error (new_file_id : Int) (name : String) (files : List part_file_info)
    (block_size : Int) (h : block_size ≤ 0) :
    file_mapper.file_mapper new_file_id name files block_size =
      Except.error construction_failure.assertion_failed := by
  have hd : decide (block_size > 0) = false := decide_eq_false (by omega)
  simp only [file_mapper.file_mapper, file_mapper.ASSERT_TRUE, hd]
  rfl

/-- C17: constructing a file mapper (the constructor of `file_mapper`, hence
those of RAID0_mapper, RAID5_mapper and hash_mapper) with block_size <= 0
fails through the `ASSERT_TRUE(block_size > 0)` check, for every name and file
list; with block_size > 0 that check passes and `STRIPE_BLOCK_SIZE` equals
block_size. -/
theorem block_size_check (new_file_id : Int) (name : String) (files : List part_file_info)
    (block_size : Int) :
    (block_size ≤ 0 →
      file_mapper.ASSERT_TRUE (decide (block_size > 0)) =
        Except.error construction_failure.assertion_failed ∧
      file_mapper.file_mapper new_file_id name files block_size =
        Except.error construction_failure.assertion_failed ∧
      RAID0_mapper.RAID0_mapper new_file_id name files block_size =
        Except.error construction_failure.assertion_failed ∧
      RAID5_mapper.RAID5_mapper new_file_id name files block_size =
        Except.error construction_failure.assertion_failed ∧
      hash_mapper.hash_mapper new_file_id name files block_size =
        Except.error construction_failure.assertion_failed) ∧
    (0 < block_size →
      file_mapper.ASSERT_TRUE (decide (block_size > 0)) = Except.ok () ∧
      (∃ m, file_mapper.file_mapper new_file_id name files block_size = Except.ok m ∧
        m.STRIPE_BLOCK_SIZE = block_size) ∧
      (∃ m, RAID0_mapper.RAID0_mapper new_file_id name files block_size = Except.ok m ∧
        m.STRIPE_BLOCK_SIZE = block_size) ∧
      (∃ m, RAID5_mapper.RAID5_mapper new_file_id name files block_size = Except.ok m ∧
        m.STRIPE_BLOCK_SIZE = block_size) ∧
      (∀ m, hash_mapper.hash_mapper new_file_id name files block_size = Except.ok m →
        m.base.STRIPE_BLOCK_SIZE = block_size) ∧
      (files ≠ [] → ∃ m, hash_mapper.hash_mapper new_file_id name files block_size =
        Except.ok m ∧ m.base.STRIPE_BLOCK_SIZE = block_size)) := by
  constructor
  · intro h
    have hd : decide (block_size > 0) = false := decide_eq_false (by omega)
    have he := file_mapper_error new_file_id name files block_size h
    refine ⟨by simp only [file_mapper.ASSERT_TRUE, hd]; rfl, he, he, he, ?_⟩
    simp only [hash_mapper.hash_mapper, he]
  · intro h
    have hd : decide (block_size > 0) = true := decide_eq_true h
    have ho := file_mapper_ok new_file_id name files block_size h
    refine ⟨by simp only [file_mapper.ASSERT_TRUE, hd, if_true], ⟨_, ho, rfl⟩, ⟨_, ho, rfl⟩,
      ⟨_, ho, rfl⟩, ?_, ?_⟩
    · intro m hm
      simp only [hash_mapper.hash_mapper, ho] at hm
      split_ifs at hm with he
      cases hm
      rfl
    · intro hne
      have hl : files.length ≠ 0 := fun e => hne (List.length_eq_zero.1 e)
      refine ⟨{ base := { file_id := new_file_id, files := files, file_name := name,
                          STRIPE_BLOCK_SIZE := block_size },
                p_mod_n := hash_mapper.P_MOD_N (files.length : Int) }, ?_, rfl⟩
      simp only [hash_mapper.hash_mapper, ho, if_neg hl]

theorem block_size_check_witness :
    (file_mapper.file_mapper 1 "f" [⟨"/d0/f", 0, 0⟩] 0 =
        Except.error construction_failure.assertion_failed ∧
      hash_mapper.hash_mapper 1 "f" [⟨"/d0/f", 0, 0⟩] (-3) =
        Except.error construction_failure.assertion_failed) ∧
    (∃ m, RAID0_mapper.RAID0_mapper 1 "f" [⟨"/d0/f", 0, 0⟩] 16 = Except.ok m ∧
      m.STRIPE_BLOCK_SIZE = 16) :=
  ⟨⟨((block_size_check 1 "f" [⟨"/d0/f", 0, 0⟩] 0).1 (by decide)).2.1,
      ((block_size_check 1 "f" [⟨"/d0/f", 0, 0⟩] (-3)).1 (by decide)).2.2.2.2⟩,
    ((block_size_check 1 "f" [⟨"/d0/f", 0, 0⟩] 16).2 (by decide)).2.2.1⟩

/-- C18, as stated, fails: a RAID0_mapper and a RAID5_mapper are constructed
from an empty list of files and block_size 4, with `get_num_files() == 0`. -/
theorem zero_disks_counterexample :
    RAID0_mapper.RAID0_mapper 1 "f" [] 4 =
      Except.ok { file_id := 1, files := [], file_name := "f", STRIPE_BLOCK_SIZE := 4 } ∧
    RAID5_mapper.RAID5_mapper 1 "f" [] 4 =
      Except.ok { file_id := 1, files := [], file_name := "f", STRIPE_BLOCK_SIZE := 4 } ∧
    file_mapper.get_num_files
      { file_id := 1, files := [], file_name := "f", STRIPE_BLOCK_SIZE := 4 } = 0 :=
  ⟨rfl, rfl, rfl⟩

/-- C18 as amended: the constructors check only block_size, so constructing
a RAID0_mapper or a RAID5_mapper with an empty list of physical files and
block_size > 0 succeeds, for every name, and produces a mapper with
`get_num_files() == 0`. -/
theorem zero_disks_not_checked (new_file_id : Int) (name : String) (block_size : Int)
    (h : 0 < block_size) :
    (∃ m, RAID0_mapper.RAID0_mapper new_file_id name [] block_size = Except.ok m ∧
      file_mapper.get_num_files m = 0) ∧
    (∃ m, RAID5_mapper.RAID5_mapper new_file_id name [] block_size = Except.ok m ∧
      file_mapper.get_num_files m = 0) := by
  have ho := file_mapper_ok new_file_id name [] block_size h
  exact ⟨⟨_, ho, rfl⟩, ⟨_, ho, rfl⟩⟩

theorem zero_disks_not_checked_witness :
    (∃ m, RAID0_mapper.RAID0_mapper 7 "graph" [] 16 = Except.ok m ∧
      file_mapper.get_num_files m = 0) ∧
    (∃ m, RAID5_mapper.RAID5_mapper 7 "graph" [] 16 = Except.ok m ∧
      file_mapper.get_num_files m = 0) :=
  zero_disks_not_checked 7 "graph" 16 (by decide)

/-! ### io_interface and the message senders -/

/-- C19: the base class of `io_interface` does not support asynchronous I/O,
and its `set_callback` throws `unsupported_exception` for every callback
instead of returning false. -/
theorem set_callback_throws (cb : ℕ) :
    io_interface.support_aio = false ∧
    io_interface.set_callback cb = Except.error safs_exception.unsupported_exception ∧
    io_interface.set_callback cb ≠ Except.ok false := by
  refine ⟨rfl, rfl, ?_⟩
  intro h
  cases h

/-- C20: after `send_cached` of three objects on a new sender,
`get_num_remaining()` is 3, the number of objects passed, while the buffer of
the sender holds one message. -/
theorem get_num_remaining_counts_objects :
    (simple_msg_sender.send_cached (simple_msg_sender.create 4096) [8, 8, 8]).map
      (fun r => (simple_msg_sender.get_num_remaining r.1, r.1.buf.length, r.2)) =
      some (3, 1, 3) := by
  decide

/-! ### Contiguous filling and range of the mappers -/

/-- A position below the cycle size of bucket `i` gives a residue below 191. -/
theorem residue_lt_of_pos_lt (N i k : ℕ) (hi : i < N)
    (hk : k < (if i < 191 % N then 191 / N + 1 else 191 / N)) : i + N * k < 191 := by
  have e2 := Nat.div_add_mod 191 N
  have m2 := Nat.mod_lt 191 (by omega : N > 0)
  split_ifs at hk with hc
  · have : N * k ≤ N * (191 / N) := Nat.mul_le_mul_left N (by omega)
    omega
  · have : N * (k + 1) ≤ N * (191 / N) := Nat.mul_le_mul_left N (by omega)
    rw [Nat.mul_add, Nat.mul_one] at this
    omega

/-- Contiguous filling over the naturals: the physical block numbers on file
`i` of the offsets in the first `c` cycles are the numbers below
`c * cycle_size_in_bucket(i)`. -/
theorem hash_fill_nat (N B i c q : ℕ) (hN : 1 ≤ N) (hB : 1 ≤ B) (hi : i < N) :
    (∃ off : ℕ, off < 191 * c * B ∧ 31 * (off / B) % 191 % N = i ∧
      (off / B / 191) * (if 31 * (off / B) % 191 % N < 191 % N then 191 / N + 1 else 191 / N)
        + 31 * (off / B) % 191 / N = q) ↔
    q < c * (if i < 191 % N then 191 / N + 1 else 191 / N) := by
  constructor
  · rintro ⟨off, hoff, hidx, hq⟩
    have hb : off / B < 191 * c := by
      rw [Nat.div_lt_iff_lt_mul (by omega)]
      exact hoff
    have hcyc : off / B / 191 < c := by
      rw [Nat.div_lt_iff_lt_mul (by omega)]
      omega
    have hp : 31 * (off / B) % 191 < 191 := Nat.mod_lt _ (by decide)
    have hk := pos_lt_cycle_size N _ hN hp
    rw [hidx] at hk hq
    have hmul : (off / B / 191 + 1) * (if i < 191 % N then 191 / N + 1 else 191 / N) ≤
        c * (if i < 191 % N then 191 / N + 1 else 191 / N) :=
      Nat.mul_le_mul_right _ hcyc
    rw [Nat.add_mul, Nat.one_mul] at hmul
    omega
  · intro hq
    generalize hL : (if i < 191 % N then 191 / N + 1 else 191 / N) = L at hq
    have hLpos : 0 < L := by
      rcases Nat.eq_zero_or_pos L with h0 | h0
      · rw [h0, Nat.mul_zero] at hq
        omega
      · exact h0
    have hk : q % L < (if i < 191 % N then 191 / N + 1 else 191 / N) := by
      rw [hL]
      exact Nat.mod_lt _ hLpos
    have hp := residue_lt_of_pos_lt N i (q % L) hi hk
    have hc : q / L < c := by
      rw [Nat.div_lt_iff_lt_mul hLpos]
      exact hq
    have hpi : (i + N * (q % L)) % N = i := by
      rw [Nat.add_mul_mod_self_left, Nat.mod_eq_of_lt hi]
    have hpk : (i + N * (q % L)) / N = q % L := by
      rw [Nat.add_mul_div_left _ _ (by omega : 0 < N), Nat.div_eq_of_lt hi, Nat.zero_add]
    refine ⟨(191 * (q / L) + 37 * (i + N * (q % L)) % 191) * B, ?_, ?_⟩
    · have h1 : 191 * (q / L) + 37 * (i + N * (q % L)) % 191 < 191 * c := by
        have : 191 * (q / L + 1) ≤ 191 * c := Nat.mul_le_mul_left 191 hc
        have := Nat.mod_lt (37 * (i + N * (q % L))) (by decide : 191 > 0)
        omega
      exact Nat.mul_lt_mul_of_pos_right h1 (by omega)
    · rw [Nat.mul_div_cancel _ (by omega : 0 < B)]
      have hres : 31 * (191 * (q / L) + 37 * (i + N * (q % L)) % 191) % 191 =
          i + N * (q % L) := by
        omega
      have hcy : (191 * (q / L) + 37 * (i + N * (q % L)) % 191) / 191 = q / L := by
        omega
      rw [hres, hcy, hpi, hpk, hL]
      exact ⟨rfl, Nat.div_add_mod' q L⟩

/-- A function that takes the same value at two of the numbers below `n` does
not take every value below `n` on them. -/
theorem hole_of_collision (g : ℕ → Int) (n a b : ℕ) (ha : a < n) (hb : b < n) (hab : a ≠ b)
    (hg : g a = g b) :
    ¬ ∀ q : Int, (∃ off : ℕ, off < n ∧ g off = q) ↔ (0 ≤ q ∧ q < (n : Int)) := by
  intro H
  have hmaps : ∀ off ∈ Finset.range n, (g off).toNat ∈ Finset.range n := by
    intro off hoff
    have h := (H (g off)).1 ⟨off, Finset.mem_range.1 hoff, rfl⟩
    rw [Finset.mem_range]
    omega
  have himg : (Finset.range n).image (fun off => (g off).toNat) = Finset.range n := by
    apply Finset.Subset.antisymm
    · intro x hx
      obtain ⟨off, ho, rfl⟩ := Finset.mem_image.1 hx
      exact hmaps off ho
    · intro q hq
      obtain ⟨off, ho, h⟩ := (H (q : Int)).2
        ⟨Int.natCast_nonneg q, by exact_mod_cast Finset.mem_range.1 hq⟩
      refine Finset.mem_image.2 ⟨off, Finset.mem_range.2 ho, ?_⟩
      show (g off).toNat = q
      rw [h]
      rfl
  have hinj : Set.InjOn (fun off => (g off).toNat) (Finset.range n : Set ℕ) :=
    Finset.card_image_iff.1 (by rw [himg])
  have h := hinj (Finset.mem_coe.2 (Finset.mem_range.2 ha))
    (Finset.mem_coe.2 (Finset.mem_range.2 hb)) (by show (g a).toNat = (g b).toNat; rw [hg])
  exact hab h

/-- C21, as stated, fails: with N = 1 file and B = 1 the product
`CONST_A * block_idx` wraps in `off_t` at block 297528130221121801, and `map`
gives the logical blocks 297528130221121603 and 297528130221121801 the same
physical block 297528130221121434 of file 0.  So the 191 * 1557738901681267
logical blocks of the first 1557738901681267 cycles, two of them in one place,
do not fill the physical blocks 0, ..., 191 * 1557738901681267 - 1. -/
theorem hash_fills_counterexample :
    hash_mapper.map 1 1 297528130221121603 = { idx := 0, off := 297528130221121434 } ∧
    hash_mapper.map 1 1 297528130221121801 = { idx := 0, off := 297528130221121434 } ∧
    (297528130221121801 : Int) < 191 * 1557738901681267 * 1 ∧
    (191 : Int) * 1557738901681267 * 1 < 2 ^ 63 ∧
    ¬ (∀ q : Int,
      (∃ off : Int, 0 ≤ off ∧ off < 191 * 1557738901681267 * 1 ∧
        (hash_mapper.map 1 1 off).idx = 0 ∧ (hash_mapper.map 1 1 off).off.tdiv 1 = q) ↔
      (0 ≤ q ∧ q < 1557738901681267 * hash_mapper.cycle_size_in_bucket 1 0)) := by
  have hc1 : hash_mapper.map 1 1 297528130221121603 =
      { idx := 0, off := 297528130221121434 } := by decide
  have hc2 : hash_mapper.map 1 1 297528130221121801 =
      { idx := 0, off := 297528130221121434 } := by decide
  refine ⟨hc1, hc2, by decide, by decide, ?_⟩
  intro H
  have hcs : hash_mapper.cycle_size_in_bucket 1 0 = 191 := by decide
  have hidx : ∀ off : Int, (hash_mapper.map 1 1 off).idx = 0 := by
    intro off
    simp only [hash_mapper.map, Int.tmod_one]
    decide
  have hn : (191 : Int) * 1557738901681267 * 1 = ((297528130221121997 : ℕ) : Int) := by
    norm_num
  have hn2 : (1557738901681267 : Int) * 191 = ((297528130221121997 : ℕ) : Int) := by
    norm_num
  rw [hcs, hn, hn2] at H
  apply hole_of_collision (fun off => (hash_mapper.map 1 1 (off : Int)).off.tdiv 1)
    297528130221121997 297528130221121603 297528130221121801 (by decide) (by decide)
    (by decide)
  · show (hash_mapper.map 1 1 ((297528130221121603 : ℕ) : Int)).off.tdiv 1 =
      (hash_mapper.map 1 1 ((297528130221121801 : ℕ) : Int)).off.tdiv 1
    decide
  · intro q
    rw [← H q]
    constructor
    · rintro ⟨off, ho, hq⟩
      exact ⟨(off : Int), Int.natCast_nonneg _, by exact_mod_cast ho, hidx _, hq⟩
    · rintro ⟨off, h0, ho, _, hq⟩
      lift off to ℕ using h0
      exact ⟨off, by exact_mod_cast ho, hq⟩

/-- C21 as amended: for hash_mapper with N >= 1 files and block size B >= 1
(a value of `int`), for every file index i < N and every number of complete
cycles c >= 0 with 31 * (191 * c * B) < 2^63 (so that `CONST_A * off` is a
value of `off_t` for every offset of the first c cycles), the physical block
numbers `bid.off / B` that `map` gives the offsets of the logical blocks
[0, 191*c) landing on file i are exactly 0, 1, ..., c*cycle_size_in_bucket(i) - 1:
each file is filled contiguously with no holes. -/
theorem hash_fills_contiguously (N B i c q : Int) (hN : 1 ≤ N) (hB : 1 ≤ B)
    (hB31 : B < 2 ^ 31) (hi0 : 0 ≤ i) (hi : i < N) (hc : 0 ≤ c)
    (hb : 31 * (191 * c * B) < 2 ^ 63) :
    (∃ off : Int, 0 ≤ off ∧ off < 191 * c * B ∧ (hash_mapper.map N B off).idx = i ∧
      (hash_mapper.map N B off).off.tdiv B = q) ↔
    (0 ≤ q ∧ q < c * hash_mapper.cycle_size_in_bucket N i) := by
  lift N to ℕ using (by omega)
  lift B to ℕ using (by omega)
  lift i to ℕ using hi0
  lift c to ℕ using hc
  have hN' : 1 ≤ N := by exact_mod_cast hN
  have hB' : 1 ≤ B := by exact_mod_cast hB
  have hB31' : B < 2 ^ 31 := by exact_mod_cast hB31
  have hi' : i < N := by exact_mod_cast hi
  have hb' : 31 * (191 * c * B) < 2 ^ 63 := by exact_mod_cast hb
  rw [cycle_size_natCast]
  constructor
  · rintro ⟨off, hoff0, hoff, hidx, hq⟩
    lift off to ℕ using hoff0
    have hoff' : off < 191 * c * B := by exact_mod_cast hoff
    have h31 : 31 * off < 2 ^ 63 := by omega
    rw [hash_map_block_natCast N B off hN' hB' hB31' h31] at hq
    rw [hash_map_natCast N B off hN' hB' hB31' h31] at hidx
    dsimp only at hidx
    rw [← hq]
    refine ⟨Int.natCast_nonneg _, ?_⟩
    have hnat := (hash_fill_nat N B i c _ hN' hB' hi').1
      ⟨off, hoff', by exact_mod_cast hidx, rfl⟩
    exact_mod_cast hnat
  · rintro ⟨hq0, hq⟩
    lift q to ℕ using hq0
    obtain ⟨off, hoff, hidx, hqq⟩ := (hash_fill_nat N B i c q hN' hB' hi').2
      (by exact_mod_cast hq)
    have h31 : 31 * off < 2 ^ 63 := by omega
    refine ⟨(off : Int), Int.natCast_nonneg _, by exact_mod_cast hoff, ?_, ?_⟩
    · rw [hash_map_natCast N B off hN' hB' hB31' h31]
      dsimp only
      exact_mod_cast hidx
    · rw [hash_map_block_natCast N B off hN' hB' hB31' h31]
      exact_mod_cast hqq

theorem hash_fills_contiguously_witness :
    (∃ off : Int, 0 ≤ off ∧ off < 191 * 2 * 2 ∧ (hash_mapper.map 3 2 off).idx = 1 ∧
      (hash_mapper.map 3 2 off).off.tdiv 2 = 100) ↔
    ((0 : Int) ≤ 100 ∧ 100 < 2 * hash_mapper.cycle_size_in_bucket 3 1) :=
  hash_fills_contiguously 3 2 1 2 100 (by decide) (by decide) (by decide) (by decide)
    (by decide) (by decide) (by decide)

/-- C22, as stated, fails: `map` writes a negative `bid.idx` when a sum or a
product wraps: hash_mapper with N = 4, B = 1 at offset 297528130221121801
(the `off_t` product `CONST_A * block_idx`), RAID0_mapper with N = 4, B = 1,
rand_start = 3 at offset 2^63 - 1 (the `off_t` sum `block_idx + rand_start`),
RAID5_mapper with N = 4, B = 1, rand_start = 2147483647 at offset 5 (the
`int` sum `bid.idx + shift + rand_start`). -/
theorem map_result_counterexample :
    (hash_mapper.map 4 1 297528130221121801).idx = -1 ∧
    (RAID0_mapper.map 4 1 3 9223372036854775807).idx = -2 ∧
    (RAID5_mapper.map 4 1 2147483647 5).idx = -3 := by
  decide

/-- C22 as amended: for N >= 1 files and block size B >= 1 (values of `int`),
rand_start >= 0 and every offset 0 <= off < 2^63, `map(off)` yields
0 <= bid.idx < N, bid.off >= 0 and bid.off mod B = off mod B: for
RAID0_mapper when off / B + rand_start < 2^63, for RAID5_mapper when
rand_start + 2 * (N - 1) < 2^31, for hash_mapper when 31 * off < 2^63 (the sum
or product that the mapper computes does not overflow). -/
theorem map_result_in_range (N B rand_start off : Int) (hN : 1 ≤ N) (hN31 : N < 2 ^ 31)
    (hB : 1 ≤ B) (hB31 : B < 2 ^ 31) (hr : 0 ≤ rand_start) (hoff : 0 ≤ off)
    (ho : off < 2 ^ 63) :
    (off / B + rand_start < 2 ^ 63 →
      0 ≤ (RAID0_mapper.map N B rand_start off).idx ∧
      (RAID0_mapper.map N B rand_start off).idx < N ∧
      0 ≤ (RAID0_mapper.map N B rand_start off).off ∧
      (RAID0_mapper.map N B rand_start off).off % B = off % B) ∧
    (2 * (N - 1) + rand_start < 2 ^ 31 →
      0 ≤ (RAID5_mapper.map N B rand_start off).idx ∧
      (RAID5_mapper.map N B rand_start off).idx < N ∧
      0 ≤ (RAID5_mapper.map N B rand_start off).off ∧
      (RAID5_mapper.map N B rand_start off).off % B = off % B) ∧
    (31 * off < 2 ^ 63 →
      0 ≤ (hash_mapper.map N B off).idx ∧
      (hash_mapper.map N B off).idx < N ∧
      0 ≤ (hash_mapper.map N B off).off ∧
      (hash_mapper.map N B off).off % B = off % B) := by
  lift N to ℕ using (by omega)
  lift B to ℕ using (by omega)
  lift rand_start to ℕ using hr
  lift off to ℕ using hoff
  have hN' : 1 ≤ N := by exact_mod_cast hN
  have hN31' : N < 2 ^ 31 := by exact_mod_cast hN31
  have hB' : 1 ≤ B := by exact_mod_cast hB
  have hB31' : B < 2 ^ 31 := by exact_mod_cast hB31
  have ho' : off < 2 ^ 63 := by exact_mod_cast ho
  have key : ∀ x : ℕ, (((x * B + off % B : ℕ) : Int)) % (B : Int) = (off : Int) % (B : Int) := by
    intro x
    have h : (x * B + off % B) % B = off % B := by
      rw [Nat.mul_comm, Nat.mul_add_mod, Nat.mod_mod]
    exact_mod_cast h
  refine ⟨fun hsum => ?_, fun hsum => ?_, fun h31 => ?_⟩
  · rw [raid0_map_natCast N B rand_start off hN' hN31' hB' hB31' ho' (by exact_mod_cast hsum)]
    dsimp only
    exact ⟨Int.natCast_nonneg _, by exact_mod_cast Nat.mod_lt _ hN', Int.natCast_nonneg _,
      key _⟩
  · have hsum' : 2 * (N - 1) + rand_start < 2 ^ 31 := by omega
    rw [raid5_map_natCast N B rand_start off hN' hB' hB31' ho' hsum']
    dsimp only
    exact ⟨Int.natCast_nonneg _, by exact_mod_cast Nat.mod_lt _ hN', Int.natCast_nonneg _,
      key _⟩
  · rw [hash_map_natCast N B off hN' hB' hB31' (by exact_mod_cast h31)]
    dsimp only
    exact ⟨Int.natCast_nonneg _, by exact_mod_cast Nat.mod_lt _ hN', Int.natCast_nonneg _,
      key _⟩

theorem map_result_in_range_witness :
    (0 ≤ (RAID0_mapper.map 4 16 3 1000).idx ∧ (RAID0_mapper.map 4 16 3 1000).idx < 4 ∧
      0 ≤ (RAID0_mapper.map 4 16 3 1000).off ∧
      (RAID0_mapper.map 4 16 3 1000).off % 16 = 1000 % 16) ∧
    (0 ≤ (RAID5_mapper.map 4 16 3 1000).idx ∧ (RAID5_mapper.map 4 16 3 1000).idx < 4 ∧
      0 ≤ (RAID5_mapper.map 4 16 3 1000).off ∧
      (RAID5_mapper.map 4 16 3 1000).off % 16 = 1000 % 16) ∧
    (0 ≤ (hash_mapper.map 4 16 1000).idx ∧ (hash_mapper.map 4 16 1000).idx < 4 ∧
      0 ≤ (hash_mapper.map 4 16 1000).off ∧
      (hash_mapper.map 4 16 1000).off % 16 = 1000 % 16) :=
  ⟨(map_result_in_range 4 16 3 1000 (by decide) (by decide) (by decide) (by decide)
      (by decide) (by decide) (by decide)).1 (by decide),
    (map_result_in_range 4 16 3 1000 (by decide) (by decide) (by decide) (by decide)
      (by decide) (by decide) (by decide)).2.1 (by decide),
    (map_result_in_range 4 16 3 1000 (by decide) (by decide) (by decide) (by decide)
      (by decide) (by decide) (by decide)).2.2 (by decide)⟩

/-! ### The selected global index -/

/-- The remainder modulo `2 * M` is the remainder modulo `M`, or `M` more. -/
theorem emod_double (x M : Int) (hM : 0 < M) :
    x % (2 * M) = x % M ∨ x % (2 * M) = x % M + M := by
  have h1 : 0 ≤ x % (2 * M) := Int.emod_nonneg _ (by omega)
  have h2 : x % (2 * M) < 2 * M := Int.emod_lt_of_pos _ (by omega)
  have h3 : x % (2 * M) % M = x % M := Int.emod_emod_of_dvd x (Dvd.intro_left 2 rfl)
  have h4 := Int.emod_add_ediv (x % (2 * M)) M
  have h5 : 0 ≤ x % M := Int.emod_nonneg _ (by omega)
  have h6 : x % M < M := Int.emod_lt_of_pos _ hM
  rw [h3] at h4
  have hq : (x % (2 * M)) / M = 0 ∨ (x % (2 * M)) / M = 1 := by
    have hq0 : 0 ≤ (x % (2 * M)) / M := Int.ediv_nonneg h1 (by omega)
    have hq2 : (x % (2 * M)) / M < 2 := by
      rw [Int.ediv_lt_iff_lt_mul hM]
      omega
    omega
  rcases hq with h | h
  · left
    rw [h] at h4
    omega
  · right
    rw [h] at h4
    omega

/-- C23, as stated, fails: with `universal_hash(v, m) = v mod m`,
init_ncells = 1610612736, level = 0 and split = 1, all values of the type
`int`, the page with offset 1610612736 * 4096 hashes to cell 0 < split, and
`hash1` converts 2 * 1610612736 to the `int` -1073741824, so that the selected
index 536870912 is neither `hash(pg_id)` nor `hash(pg_id) + init_ncells`. -/
theorem selected_idx_counterexample :
    (∀ v m : Int, 0 < m → 0 ≤ v % m ∧ v % m < m) ∧
    associative_cache.get_num_cells
      { cells_table := [true], offset_factor := 1, init_ncells := 1610612736,
        level := 0, split := 1 } = 1610612737 ∧
    associative_cache.hash 4096 (fun v m => v % m)
      { cells_table := [true], offset_factor := 1, init_ncells := 1610612736,
        level := 0, split := 1 } { file_id := 0, offset := 1610612736 * 4096 } = some 0 ∧
    associative_cache.selected_idx 4096 (fun v m => v % m)
      { cells_table := [true], offset_factor := 1, init_ncells := 1610612736,
        level := 0, split := 1 } { file_id := 0, offset := 1610612736 * 4096 } =
      some 536870912 ∧
    (536870912 : Int) ≠ 0 + 1610612736 * 2 ^ (0 : Int).toNat := by
  refine ⟨?_, by decide, by decide, by decide, by decide⟩
  intro v m hm
  exact ⟨Int.emod_nonneg _ (by omega), Int.emod_lt_of_pos _ hm⟩

/-- C23 as amended: assuming `universal_hash(v, m) = g(v) mod m` with result
in [0, m) for a fixed function g, for every init_ncells >= 1 and level >= 0
with init_ncells * 2^(level+1) < 2^31 (the numbers of cells of both levels are
values of the type `int`), split with 0 <= split < init_ncells * 2^level and
every page id, the global index that `get_cell_offset` selects is
`hash(pg_id)` or `hash(pg_id) + init_ncells * 2^level`, and it is strictly
less than `get_num_cells()`.  An index is selected exactly when no division
by zero stops `hash`, that is when PAGE_SIZE and offset_factor are not 0. -/
theorem selected_idx_in_table (PAGE_SIZE : Int) (universal_hash : Int → Int → Int)
    (g : Int → Int) (cache : associative_cache) (pg_id : page_id_t)
    (hg : ∀ v m : Int, 0 < m → universal_hash v m = g v % m)
    (_hn : 1 ≤ cache.init_ncells) (hl : 0 ≤ cache.level) (hs0 : 0 ≤ cache.split)
    (hs : cache.split < cache.init_ncells * 2 ^ cache.level.toNat)
    (hfit : cache.init_ncells * 2 ^ (cache.level + 1).toNat < 2 ^ 31) :
    (∀ s : Int, associative_cache.selected_idx PAGE_SIZE universal_hash cache pg_id = some s →
      ∃ h : Int, associative_cache.hash PAGE_SIZE universal_hash cache pg_id = some h ∧
        (s = h ∨ s = h + cache.init_ncells * 2 ^ cache.level.toNat) ∧
        0 ≤ s ∧ s < associative_cache.get_num_cells cache) ∧
    ((associative_cache.selected_idx PAGE_SIZE universal_hash cache pg_id).isSome ↔
      PAGE_SIZE ≠ 0 ∧ cache.offset_factor ≠ 0) := by
  have hlev : (cache.level + 1).toNat = cache.level.toNat + 1 := by omega
  rw [hlev, pow_succ] at hfit
  generalize hM : cache.init_ncells * 2 ^ cache.level.toNat = M at hs hfit
  have hMpos : 0 < M := by omega
  have hM2 : cache.init_ncells * (2 ^ cache.level.toNat * 2) = 2 * M := by
    rw [← hM]; ring
  rw [hM2] at hfit
  have hnum : associative_cache.get_num_cells cache = M + cache.split := by
    unfold associative_cache.get_num_cells
    have e : 2 ^ cache.level.toNat * cache.init_ncells + cache.split = M + cache.split := by
      rw [← hM]; ring
    rw [e, to_int_of_fits (M + cache.split) (by omega) (by omega)]
  by_cases htrap : PAGE_SIZE = 0 ∨ cache.offset_factor = 0
  · obtain ⟨_, h2, _⟩ := hash_eq_none PAGE_SIZE universal_hash cache pg_id htrap
    rw [h2]
    refine ⟨fun s hs => Option.noConfusion hs, ?_⟩
    constructor
    · intro h
      exact Bool.noConfusion h
    · rintro ⟨h1, h2⟩
      rcases htrap with h | h
      · exact absurd h h1
      · exact absurd h h2
  · have hP : PAGE_SIZE ≠ 0 := fun h => htrap (Or.inl h)
    have hof : cache.offset_factor ≠ 0 := fun h => htrap (Or.inr h)
    obtain ⟨hh0, hh10⟩ := hash_eq_some PAGE_SIZE universal_hash cache pg_id hP hof
    have hh : associative_cache.hash PAGE_SIZE universal_hash cache pg_id =
        some (g ((pg_id.offset.tdiv PAGE_SIZE).tdiv cache.offset_factor + pg_id.file_id)
          % M) := by
      rw [hh0, hM, to_int_of_fits M (by omega) (by omega), hg _ _ hMpos]
    have hh1 : associative_cache.hash1 PAGE_SIZE universal_hash cache pg_id =
        some (g ((pg_id.offset.tdiv PAGE_SIZE).tdiv cache.offset_factor + pg_id.file_id)
          % (2 * M)) := by
      rw [hh10, hlev, pow_succ, hM2, to_int_of_fits (2 * M) (by omega) hfit,
        hg _ _ (by omega)]
    generalize g ((pg_id.offset.tdiv PAGE_SIZE).tdiv cache.offset_factor + pg_id.file_id) = x
      at hh hh1
    have hx0 : 0 ≤ x % M := Int.emod_nonneg _ (by omega)
    have hx1 : x % M < M := Int.emod_lt_of_pos _ hMpos
    have hsel : associative_cache.selected_idx PAGE_SIZE universal_hash cache pg_id =
        if x % M < cache.split then some (x % (2 * M)) else some (x % M) := by
      unfold associative_cache.selected_idx
      rw [hh, hh1]
    rw [hsel, hnum, hh]
    constructor
    · intro s hsel1
      refine ⟨x % M, rfl, ?_⟩
      split_ifs at hsel1 with hsp
      · have hs1 : x % (2 * M) = s := Option.some.inj hsel1
        rcases emod_double x M hMpos with h | h
        · rw [h] at hs1
          exact ⟨Or.inl hs1.symm, by omega, by omega⟩
        · rw [h] at hs1
          exact ⟨Or.inr hs1.symm, by omega, by omega⟩
      · have hs1 : x % M = s := Option.some.inj hsel1
        exact ⟨Or.inl hs1.symm, by omega, by omega⟩
    · constructor
      · intro _
        exact ⟨hP, hof⟩
      · intro _
        split_ifs <;> rfl

theorem selected_idx_in_table_witness :
    ∃ h : Int, associative_cache.hash 4096 (fun v m => (31 * v) % m)
        { cells_table := [true, true, true, false], offset_factor := 1, init_ncells := 4,
          level := 1, split := 3 } { file_id := 2, offset := 32768 } = some h ∧
      ((6 : Int) = h ∨ 6 = h + 4 * 2 ^ (1 : Int).toNat) ∧ (0 : Int) ≤ 6 ∧
      6 < associative_cache.get_num_cells
        { cells_table := [true, true, true, false], offset_factor := 1, init_ncells := 4,
          level := 1, split := 3 } :=
  (selected_idx_in_table 4096 (fun v m => (31 * v) % m) (fun v => 31 * v)
    { cells_table := [true, true, true, false], offset_factor := 1, init_ncells := 4,
      level := 1, split := 3 } { file_id := 2, offset := 32768 }
    (fun _ _ _ => rfl) (by decide) (by decide) (by decide) (by decide) (by decide)).1 6
    (by decide)

/-! ### The cursor of a cell -/

/-- C24: the reduction loop of `page_cell::get_empty_page` ends if and only if
num_pages >= 1: for every cell with num_pages >= 1 and every cursor value idx
it ends (within `idx + 1` tests of its condition, with the cursor reduced
modulo num_pages), and for a cell with num_pages = 0, such as a freshly
constructed one, `while (idx >= num_pages) idx -= num_pages` never ends. -/
theorem get_empty_page_loop_ends (c : page_cell) :
    ((∃ fuel, (page_cell.wrap_idx fuel c.idx c.num_pages).isSome) ↔ 1 ≤ c.num_pages) ∧
    (1 ≤ c.num_pages →
      page_cell.wrap_idx (c.idx + 1) c.idx c.num_pages = some (c.idx % c.num_pages)) ∧
    (c.num_pages = 0 → ∀ fuel, page_cell.wrap_idx fuel c.idx c.num_pages = none) ∧
    (∀ (CELL_SIZE : ℕ) (default_page : thread_safe_page) (fuel : ℕ),
      page_cell.wrap_idx fuel (page_cell.page_cell CELL_SIZE default_page).idx
        (page_cell.page_cell CELL_SIZE default_page).num_pages = none) := by
  refine ⟨⟨?_, ?_⟩, ?_, ?_, ?_⟩
  · rintro ⟨fuel, hf⟩
    by_contra hn
    have h0 : c.num_pages = 0 := by omega
    rw [h0, wrap_idx_zero_pages] at hf
    exact Bool.noConfusion hf
  · intro hn
    exact ⟨c.idx + 1, by rw [wrap_idx_eq _ _ _ hn (Nat.lt_succ_self _)]; rfl⟩
  · intro hn
    exact wrap_idx_eq _ _ _ hn (Nat.lt_succ_self _)
  · intro h0 fuel
    rw [h0]
    exact wrap_idx_zero_pages fuel c.idx
  · intro CELL_SIZE default_page fuel
    exact wrap_idx_zero_pages fuel _

/-- `get_page` does not read the cursor. -/
theorem get_page_idx_irrelevant (c : page_cell) (k i : ℕ) :
    page_cell.get_page { c with idx := k } i = page_cell.get_page c i :=
  rfl

/-- The slots that `k` consecutive calls of `get_empty_page` return. -/
theorem get_empty_pages_spec (k : ℕ) (c : page_cell) (hn : 1 ≤ c.num_pages)
    (h256 : c.num_pages < 256)
    (hdata : ∀ i, i < c.num_pages → (page_cell.get_page c i).isSome) :
    ∃ slots c1, page_cell.get_empty_pages k c = some (slots, c1) ∧
      slots.map some =
        (List.range k).map (fun (j : ℕ) => page_cell.get_page c ((c.idx + j) % c.num_pages)) ∧
      c1.num_pages = c.num_pages ∧ c1.maps = c.maps ∧ c1.buf = c.buf := by
  induction k generalizing c with
  | zero => exact ⟨[], c, rfl, rfl, rfl, rfl, rfl⟩
  | succ k ih =>
    have hlt : c.idx % c.num_pages < c.num_pages := Nat.mod_lt _ hn
    obtain ⟨slot, hslot⟩ := Option.isSome_iff_exists.1 (hdata _ hlt)
    have hstep := (get_empty_page_eq_some c slot _).2 ⟨hn, hslot, rfl⟩
    have hidx : (c.idx % c.num_pages + 1) % 256 = c.idx % c.num_pages + 1 :=
      Nat.mod_eq_of_lt (by omega)
    rw [hidx] at hstep
    obtain ⟨slots, c2, hrun, hslots, h1, h2, h3⟩ :=
      ih { c with idx := c.idx % c.num_pages + 1 } hn h256 hdata
    refine ⟨slot :: slots, c2, ?_, ?_, h1, h2, h3⟩
    · simp only [page_cell.get_empty_pages, hstep, hrun]
    · rw [List.range_succ_eq_map, List.map_cons, List.map_cons, List.map_map, hslots]
      congr 1
      · rw [Nat.add_zero, hslot]
      · apply List.map_congr_left
        intro j _
        show page_cell.get_page { c with idx := c.idx % c.num_pages + 1 }
            ((c.idx % c.num_pages + 1 + j) % c.num_pages) =
          page_cell.get_page c ((c.idx + (j + 1)) % c.num_pages)
        rw [get_page_idx_irrelevant]
        congr 1
        rw [Nat.add_assoc, Nat.mod_add_mod, Nat.add_comm 1 j]

/-- C25: for every page_cell with num_pages = n >= 1 (below 256, an
`unsigned char`) and every starting cursor idx, a call of `get_empty_page`
returns `get_page(idx mod n)` and leaves `idx = (idx mod n) + 1`; when every
exposed page passes the assertion of `get_page`, n consecutive calls return
`get_page((idx + j) mod n)` for j = 0, ..., n-1, the n exposed pages in cyclic
order, each position exactly once. -/
theorem get_empty_page_cycles (c : page_cell) (hn : 1 ≤ c.num_pages)
    (h256 : c.num_pages < 256) :
    (∀ slot c1, page_cell.get_empty_page c = some (slot, c1) ↔
      page_cell.get_page c (c.idx % c.num_pages) = some slot ∧
        c1 = { c with idx := c.idx % c.num_pages + 1 }) ∧
    ((∀ i, i < c.num_pages → (page_cell.get_page c i).isSome) →
      ∃ slots c1, page_cell.get_empty_pages c.num_pages c = some (slots, c1) ∧
        slots.map some = (List.range c.num_pages).map
          (fun (j : ℕ) => page_cell.get_page c ((c.idx + j) % c.num_pages)) ∧
        c1.num_pages = c.num_pages ∧ c1.maps = c.maps ∧ c1.buf = c.buf) ∧
    (∀ i, i < c.num_pages → ∃! j, j < c.num_pages ∧ (c.idx + j) % c.num_pages = i) := by
  have hidx : (c.idx % c.num_pages + 1) % 256 = c.idx % c.num_pages + 1 := by
    have := Nat.mod_lt c.idx hn
    exact Nat.mod_eq_of_lt (by omega)
  refine ⟨?_, fun hdata => get_empty_pages_spec c.num_pages c hn h256 hdata, ?_⟩
  · intro slot c1
    rw [get_empty_page_eq_some, hidx]
    constructor
    · rintro ⟨_, h2, h3⟩
      exact ⟨h2, h3⟩
    · rintro ⟨h2, h3⟩
      exact ⟨hn, h2, h3⟩
  · intro i hi
    obtain ⟨j, hj, hji⟩ := exists_row_slot c.num_pages c.idx i hi
    refine ⟨j, ⟨hj, by rw [Nat.add_comm]; exact hji⟩, ?_⟩
    rintro j2 ⟨hj2, hj2i⟩
    apply add_mod_cancel_of_lt c.num_pages j2 j c.idx hj2 hj
    rw [Nat.add_comm j2, Nat.add_comm j, hj2i, ← hji, Nat.add_comm]

theorem get_empty_page_cycles_witness :
    ∃ slots c1, page_cell.get_empty_pages 3
        { idx := 4, num_pages := 3, maps := [2, 0, 1, 0],
          buf := List.replicate 4 ⟨true, 0, false, 0⟩ } = some (slots, c1) ∧
      slots.map some = (List.range 3).map
        (fun (j : ℕ) => page_cell.get_page
          { idx := 4, num_pages := 3, maps := [2, 0, 1, 0],
            buf := List.replicate 4 ⟨true, 0, false, 0⟩ } ((4 + j) % 3)) ∧
      c1.num_pages = 3 ∧ c1.maps = [2, 0, 1, 0] ∧
      c1.buf = List.replicate 4 ⟨true, 0, false, 0⟩ :=
  (get_empty_page_cycles
    { idx := 4, num_pages := 3, maps := [2, 0, 1, 0],
      buf := List.replicate 4 ⟨true, 0, false, 0⟩ } (by decide) (by decide)).2.1 (by decide)

/-- C26: `contain(&buf[k])` is true exactly for the slots `k < num_pages`,
whatever `maps` holds.  On a cell with one page, exposed through
`maps[0] = 2`, `contain(&buf[2])` is false although `buf[2]` is `get_page(0)`,
and `contain(&buf[0])` is true although slot 0 is not exposed. -/
theorem contain_ignores_maps :
    (∀ (c : page_cell) (k : ℕ), page_cell.contain c (k : ℤ) = true ↔ k < c.num_pages) ∧
    page_cell.contain
      { idx := 0, num_pages := 1, maps := [2, 0, 0, 0],
        buf := List.replicate 4 ⟨true, 0, false, 0⟩ } 2 = false ∧
    page_cell.get_page
      { idx := 0, num_pages := 1, maps := [2, 0, 0, 0],
        buf := List.replicate 4 ⟨true, 0, false, 0⟩ } 0 = some 2 ∧
    page_cell.contain
      { idx := 0, num_pages := 1, maps := [2, 0, 0, 0],
        buf := List.replicate 4 ⟨true, 0, false, 0⟩ } 0 = true ∧
    ¬ (∃ i, i < 1 ∧ ([2, 0, 0, 0] : List ℕ)[i]? = some 0) := by
  refine ⟨?_, by decide, by decide, by decide, by decide⟩
  intro c k
  simp only [page_cell.contain, Bool.and_eq_true, decide_eq_true_eq, ge_iff_le,
    Nat.cast_nonneg, true_and, Nat.cast_lt]

end safs

namespace fg

/-! ### split_vertices -/

theorem delete_val_loop_eq (val : ℕ) (xs kept : List ℕ) :
    delete_val_loop val xs kept = kept ++ xs.filter (fun x => decide (x ≠ val)) := by
  induction xs generalizing kept with
  | nil => simp [delete_val_loop]
  | cons x rest ih =>
    unfold delete_val_loop
    by_cases hx : x = val
    · simp [hx, ih]
    · simp [hx, ih]

theorem delete_val_eq (vec : List ℕ) (val : ℕ) :
    delete_val vec val = vec.filter (fun x => decide (x ≠ val)) := by
  unfold delete_val
  rw [delete_val_loop_eq, List.nil_append]

/-- A strictly increasing list passes `std::is_sorted`. -/
theorem is_sorted_of_pairwise (vs : List ℕ) (h : vs.Pairwise (· < ·)) : is_sorted vs = true := by
  induction vs with
  | nil => rfl
  | cons x rest ih =>
    cases rest with
    | nil => rfl
    | cons y rest1 =>
      rw [List.pairwise_cons] at h
      have hxy : x < y := h.1 y (List.mem_cons_self _ _)
      simp only [is_sorted, Bool.and_eq_true, decide_eq_true_eq]
      exact ⟨by omega, ih h.2⟩

/-- The loop of `split_vertices` on strictly increasing lists: it marks the
vertices that have a pointer and collects the pointers that have a vertex. -/
theorem split_loop_spec (INVALID_VERTEX_ID : ℕ) (fuel : ℕ) (ps : List vpart_vertex_pointer)
    (before vs : List ℕ) (vpart_ps : List vpart_vertex_pointer)
    (hfuel : ps.length + vs.length < fuel) (hvs : vs.Pairwise (· < ·))
    (hps : (ps.map (fun p => p.vertex_id)).Pairwise (· < ·))
    (hinv : INVALID_VERTEX_ID ∉ vs) :
    ∃ marked, split_loop INVALID_VERTEX_ID fuel ps before vs vpart_ps =
        some (before ++ marked,
          vpart_ps ++ ps.filter (fun p => decide (p.vertex_id ∈ vs))) ∧
      marked.filter (fun x => decide (x ≠ INVALID_VERTEX_ID)) =
        vs.filter (fun v => decide (v ∉ ps.map (fun p => p.vertex_id))) := by
  induction fuel generalizing ps before vs vpart_ps with
  | zero => omega
  | succ fuel ih =>
    cases ps with
    | nil =>
      refine ⟨vs, by simp [split_loop], ?_⟩
      simp only [List.map_nil, List.not_mem_nil, not_false_eq_true, decide_True,
        List.filter_true]
      rw [List.filter_eq_self]
      intro x hx
      simp only [decide_eq_true_eq]
      intro he
      exact hinv (he ▸ hx)
    | cons p ps1 =>
      cases vs with
      | nil => exact ⟨[], by simp [split_loop], rfl⟩
      | cons id vs1 =>
        rw [List.pairwise_cons] at hvs
        rw [List.map_cons, List.pairwise_cons] at hps
        have hinv1 : INVALID_VERTEX_ID ∉ vs1 := fun h => hinv (List.mem_cons_of_mem _ h)
        have hid : id ≠ INVALID_VERTEX_ID := fun h => hinv (h ▸ List.mem_cons_self _ _)
        simp only [List.length_cons] at hfuel
        unfold split_loop
        simp only [List.map_cons]
        by_cases heq : p.vertex_id = id
        · obtain ⟨marked, hrun, hmarked⟩ := ih ps1 (before ++ [INVALID_VERTEX_ID]) vs1
            (vpart_ps ++ [p]) (by omega) hvs.2 hps.2 hinv1
          refine ⟨INVALID_VERTEX_ID :: marked, ?_, ?_⟩
          · have hf : ps1.filter (fun q => decide (q.vertex_id ∈ id :: vs1)) =
                ps1.filter (fun q => decide (q.vertex_id ∈ vs1)) := by
              apply List.filter_congr
              intro q hq
              have hlt : p.vertex_id < q.vertex_id :=
                hps.1 _ (List.mem_map_of_mem (fun p => p.vertex_id) hq)
              have hne : q.vertex_id ≠ id := by omega
              simp only [List.mem_cons, hne, false_or]
            have hin : decide (p.vertex_id ∈ id :: vs1) = true :=
              decide_eq_true (heq ▸ List.mem_cons_self _ _)
            rw [if_pos heq, hrun]
            simp only [List.filter_cons, hin, if_true, hf, List.append_assoc,
              List.singleton_append]
          · have hf : vs1.filter (fun v => decide (v ∉ p.vertex_id ::
                ps1.map (fun p => p.vertex_id))) =
                vs1.filter (fun v => decide (v ∉ ps1.map (fun p => p.vertex_id))) := by
              apply List.filter_congr
              intro w hw
              have hlt : id < w := hvs.1 w hw
              have hne : w ≠ p.vertex_id := by omega
              simp only [List.mem_cons, hne, false_or]
            have h1 : decide (INVALID_VERTEX_ID ≠ INVALID_VERTEX_ID) = false := by simp
            have h2 : decide (id ∉ p.vertex_id :: ps1.map (fun p => p.vertex_id)) = false := by
              rw [decide_eq_false_iff_not, not_not, heq]
              exact List.mem_cons_self _ _
            simp only [List.filter_cons, h1, h2, Bool.false_eq_true, if_false, hmarked, hf]
        · by_cases hgt : p.vertex_id > id
          · obtain ⟨marked, hrun, hmarked⟩ := ih (p :: ps1) (before ++ [id]) vs1 vpart_ps
              (by simp only [List.length_cons]; omega) hvs.2
              (by rw [List.map_cons, List.pairwise_cons]; exact hps) hinv1
            refine ⟨id :: marked, ?_, ?_⟩
            · have hf : (p :: ps1).filter (fun q => decide (q.vertex_id ∈ id :: vs1)) =
                  (p :: ps1).filter (fun q => decide (q.vertex_id ∈ vs1)) := by
                apply List.filter_congr
                intro q hq
                have hge : p.vertex_id ≤ q.vertex_id := by
                  rcases List.mem_cons.1 hq with h | h
                  · rw [h]
                  · exact Nat.le_of_lt
                      (hps.1 _ (List.mem_map_of_mem (fun p => p.vertex_id) h))
                have hne : q.vertex_id ≠ id := by omega
                simp only [List.mem_cons, hne, false_or]
              rw [if_neg heq, if_pos hgt, hrun, hf]
              simp only [List.append_assoc, List.singleton_append]
            · have hnot : id ∉ p.vertex_id :: ps1.map (fun p => p.vertex_id) := by
                intro hmem
                rcases List.mem_cons.1 hmem with h | h
                · omega
                · have := hps.1 id h
                  omega
              have h1 : decide (id ≠ INVALID_VERTEX_ID) = true := decide_eq_true hid
              have h2 : decide (id ∉ p.vertex_id :: ps1.map (fun p => p.vertex_id)) = true :=
                decide_eq_true hnot
              simp only [List.filter_cons, h1, h2, if_true, hmarked, List.map_cons]
          · obtain ⟨marked, hrun, hmarked⟩ := ih ps1 before (id :: vs1) vpart_ps
              (by simp only [List.length_cons]; omega)
              (by rw [List.pairwise_cons]; exact hvs) hps.2 hinv
            refine ⟨marked, ?_, ?_⟩
            · have hnot : decide (p.vertex_id ∈ id :: vs1) = false := by
                rw [decide_eq_false_iff_not]
                intro hmem
                rcases List.mem_cons.1 hmem with h | h
                · exact heq h
                · have := hvs.1 _ h
                  omega
              rw [if_neg heq, if_neg hgt, hrun]
              simp only [List.filter_cons, hnot, Bool.false_eq_true, if_false]
            · rw [hmarked]
              apply List.filter_congr
              intro w hw
              have hge : id ≤ w := by
                rcases List.mem_cons.1 hw with h | h
                · rw [h]
                · exact Nat.le_of_lt (hvs.1 w h)
              have hne : w ≠ p.vertex_id := by omega
              simp only [List.mem_cons, hne, false_or]

/-- C27, as stated, fails: the sorted input [5, 5] with a pointer for vertex 5
leaves one copy of 5 among the unpartitioned vertices; and of two pointers for
vertex 5, sorted by vertex id, the second one is not appended. -/
theorem split_vertices_counterexample :
    is_sorted [5, 5] = true ∧ 4294967295 ∉ ([5, 5] : List ℕ) ∧
    split_vertices 4294967295 [⟨5, 0⟩] [5, 5] [] = some ([5], [⟨5, 0⟩]) ∧
    ([5, 5] : List ℕ).filter
      (fun v => decide (v ∉ ([⟨5, 0⟩] : List vpart_vertex_pointer).map (fun p => p.vertex_id))) =
      [] ∧
    split_vertices 4294967295 [⟨5, 0⟩, ⟨5, 1⟩] [5] [] = some ([], [⟨5, 0⟩]) ∧
    ([⟨5, 0⟩, ⟨5, 1⟩] : List vpart_vertex_pointer).filter
      (fun p => decide (p.vertex_id ∈ ([5] : List ℕ))) = [⟨5, 0⟩, ⟨5, 1⟩] := by
  decide

/-- C27 as amended: for every input list `vertices` that is strictly
increasing by vertex id (sorted, without duplicates) and contains no
INVALID_VERTEX_ID, and every list of vertically-partitioned vertex pointers
that is strictly increasing by vertex id, `split_vertices` returns, leaves in
`vertices` exactly the input ids that are not vertically partitioned, in
their original order, and appends to `vpart_ps` exactly the pointers whose
vertex id occurred in the input. -/
theorem split_vertices_spec (INVALID_VERTEX_ID : ℕ) (vpart_ps_tmp : List vpart_vertex_pointer)
    (vertices : List ℕ) (vpart_ps : List vpart_vertex_pointer)
    (hvs : vertices.Pairwise (· < ·)) (hinv : INVALID_VERTEX_ID ∉ vertices)
    (hps : (vpart_ps_tmp.map (fun p => p.vertex_id)).Pairwise (· < ·)) :
    split_vertices INVALID_VERTEX_ID vpart_ps_tmp vertices vpart_ps =
      some (vertices.filter (fun v => decide (v ∉ vpart_ps_tmp.map (fun p => p.vertex_id))),
        vpart_ps ++ vpart_ps_tmp.filter (fun p => decide (p.vertex_id ∈ vertices))) := by
  obtain ⟨marked, hrun, hmarked⟩ := split_loop_spec INVALID_VERTEX_ID
    (vpart_ps_tmp.length + vertices.length + 1) vpart_ps_tmp [] vertices vpart_ps
    (by omega) hvs hps hinv
  unfold split_vertices
  rw [is_sorted_of_pairwise vertices hvs, if_pos rfl, hrun]
  simp only [List.nil_append]
  rw [delete_val_eq, hmarked]

theorem split_vertices_spec_witness :
    split_vertices 4294967295 [⟨2, 10⟩, ⟨5, 11⟩, ⟨9, 12⟩] [1, 2, 3, 9] [⟨0, 7⟩] =
      some (([1, 2, 3, 9] : List ℕ).filter
          (fun v => decide (v ∉ ([⟨2, 10⟩, ⟨5, 11⟩, ⟨9, 12⟩] : List vpart_vertex_pointer).map
            (fun p => p.vertex_id))),
        [⟨0, 7⟩] ++ ([⟨2, 10⟩, ⟨5, 11⟩, ⟨9, 12⟩] : List vpart_vertex_pointer).filter
          (fun p => decide (p.vertex_id ∈ ([1, 2, 3, 9] : List ℕ)))) :=
  split_vertices_spec 4294967295 [⟨2, 10⟩, ⟨5, 11⟩, ⟨9, 12⟩] [1, 2, 3, 9] [⟨0, 7⟩]
    (by decide) (by decide) (by decide)

/-! ### count_edges -/

/-- The elements from `std::lower_bound` on are not less than the value. -/
theorem le_of_mem_lower_bound (E : List ℕ) (n : ℕ) (hE : E.Pairwise (· ≤ ·)) :
    ∀ x ∈ lower_bound E n, n ≤ x := by
  induction E with
  | nil => intro x hx; simp [lower_bound] at hx
  | cons a E1 ih =>
    rw [List.pairwise_cons] at hE
    intro x hx
    unfold lower_bound at hx
    rw [List.dropWhile_cons] at hx
    by_cases ha : a < n
    · rw [if_pos (decide_eq_true ha)] at hx
      exact ih hE.2 x hx
    · have hd : ¬ (decide (a < n) = true) := by simpa using ha
      rw [if_neg hd] at hx
      rcases List.mem_cons.1 hx with h | h
      · omega
      · have := hE.1 x h
        omega

/-- The range before `std::lower_bound` loses no occurrence of the value. -/
theorem count_lower_bound (E : List ℕ) (n : ℕ) :
    (lower_bound E n).count n = E.count n := by
  induction E with
  | nil => rfl
  | cons a E1 ih =>
    unfold lower_bound
    rw [List.dropWhile_cons]
    by_cases ha : a < n
    · rw [if_pos (decide_eq_true ha)]
      have hne : a ≠ n := by omega
      rw [List.count_cons_of_ne (Ne.symm hne)]
      exact ih
    · have hd : ¬ (decide (a < n) = true) := by simpa using ha
      rw [if_neg hd]

/-- In a strictly increasing list the range before `std::lower_bound` holds the
elements that are less than the value. -/
theorem mem_before_lower_bound (L : List ℕ) (v x : ℕ) (hL : L.Pairwise (· < ·)) :
    x ∈ before_lower_bound L v ↔ x ∈ L ∧ x < v := by
  induction L with
  | nil => simp [before_lower_bound]
  | cons a L1 ih =>
    rw [List.pairwise_cons] at hL
    unfold before_lower_bound
    rw [List.takeWhile_cons]
    by_cases ha : a < v
    · rw [if_pos (decide_eq_true ha), List.mem_cons, List.mem_cons]
      have := ih hL.2
      unfold before_lower_bound at this
      rw [this]
      constructor
      · rintro (h | h)
        · exact ⟨Or.inl h, by omega⟩
        · exact ⟨Or.inr h.1, h.2⟩
      · rintro ⟨h | h, hlt⟩
        · exact Or.inl h
        · exact Or.inr ⟨h, hlt⟩
    · have hd : ¬ (decide (a < v) = true) := by simpa using ha
      rw [if_neg hd]
      constructor
      · intro h
        exact absurd h (List.not_mem_nil _)
      · rintro ⟨h, hlt⟩
        rcases List.mem_cons.1 h with h | h
        · omega
        · have := hL.1 x h
          omega

theorem before_lower_bound_pairwise (L : List ℕ) (v : ℕ) (hL : L.Pairwise (· < ·)) :
    (before_lower_bound L v).Pairwise (· < ·) :=
  hL.sublist (List.takeWhile_sublist _)

namespace neighbor_list

/-- An entry that is in the range and is neither of the two vertices counts. -/
theorem countP_cons_of_ok (T E1 : List ℕ) (v_id this_id e : ℕ)
    (h : e ∈ T ∧ e ≠ v_id ∧ e ≠ this_id) :
    (e :: E1).countP (fun e => decide (e ∈ T ∧ e ≠ v_id ∧ e ≠ this_id)) =
      E1.countP (fun e => decide (e ∈ T ∧ e ≠ v_id ∧ e ≠ this_id)) + 1 := by
  rw [List.countP_cons_of_pos]
  exact decide_eq_true h

/-- An entry that is not in the range, or is one of the two vertices, does not
count. -/
theorem countP_cons_of_not_ok (T E1 : List ℕ) (v_id this_id e : ℕ)
    (h : ¬ (e ∈ T ∧ e ≠ v_id ∧ e ≠ this_id)) :
    (e :: E1).countP (fun e => decide (e ∈ T ∧ e ≠ v_id ∧ e ≠ this_id)) =
      E1.countP (fun e => decide (e ∈ T ∧ e ≠ v_id ∧ e ≠ this_id)) := by
  rw [List.countP_cons_of_neg]
  simpa using h

/-- The loop of `count_edges_hash` adds one for every entry of `other` that
is in the neighbor list and is neither of the two vertices. -/
theorem count_edges_hash_loop_eq (v_id this_id : ℕ) (contains : ℕ → Bool) (L E : List ℕ)
    (hc : ∀ x, contains x = true ↔ x ∈ L) (acc : ℕ) :
    count_edges_hash_loop v_id this_id contains E acc =
      acc + E.countP (fun e => decide (e ∈ L ∧ e ≠ v_id ∧ e ≠ this_id)) := by
  induction E generalizing acc with
  | nil => simp [count_edges_hash_loop]
  | cons e E1 ih =>
    unfold count_edges_hash_loop
    by_cases hok : e ≠ v_id ∧ e ≠ this_id
    · rw [if_pos hok]
      by_cases hin : e ∈ L
      · rw [if_pos ((hc e).2 hin), ih, countP_cons_of_ok L E1 v_id this_id e ⟨hin, hok⟩]
        omega
      · have hcf : ¬ contains e = true := fun h => hin ((hc e).1 h)
        rw [if_neg hcf, ih, countP_cons_of_not_ok L E1 v_id this_id e (fun h => hin h.1)]
    · rw [if_neg hok, ih, countP_cons_of_not_ok L E1 v_id this_id e (fun h => hok h.2)]

/-- On a sorted range whose elements are not less than the value, the passes
of the do-while loop count the occurrences of the value. -/
theorem count_dups_eq_count (n : ℕ) (xs : List ℕ) (hs : xs.Pairwise (· ≤ ·))
    (hge : ∀ x ∈ xs, n ≤ x) : count_dups n xs = xs.count n := by
  induction xs with
  | nil => rfl
  | cons x rest ih =>
    rw [List.pairwise_cons] at hs
    unfold count_dups
    by_cases hx : n = x
    · rw [if_pos hx, ih hs.2 (fun y hy => hge y (List.mem_cons_of_mem _ hy)), ← hx,
        List.count_cons_self]
    · rw [if_neg hx]
      symm
      rw [List.count_eq_zero]
      intro hmem
      have hnx : n ≤ x := hge x (List.mem_cons_self _ _)
      rcases List.mem_cons.1 hmem with h | h
      · exact hx h
      · have := hs.1 n h
        omega

/-- What one pass of the loop of `count_edges_bin_search_other` adds for a
neighbor that is neither of the two vertices: its number of occurrences. -/
theorem bin_search_step (E : List ℕ) (n : ℕ) (hE : E.Pairwise (· ≤ ·)) :
    (match lower_bound E n with
      | [] => 0
      | first :: after => if ¬ (n < first) then 1 + count_dups n after else 0) = E.count n := by
  have hge := le_of_mem_lower_bound E n hE
  have hs : (lower_bound E n).Pairwise (· ≤ ·) := hE.sublist (List.dropWhile_sublist _)
  have hcount := count_dups_eq_count n (lower_bound E n) hs hge
  rw [count_lower_bound] at hcount
  cases hlb : lower_bound E n with
  | nil =>
    rw [hlb] at hcount
    exact hcount
  | cons first after =>
    rw [hlb] at hcount hge
    have hcd : count_dups n (first :: after) =
        if n = first then count_dups n after + 1 else 0 := rfl
    rw [hcd] at hcount
    simp only []
    have hnf : n ≤ first := hge first (List.mem_cons_self _ _)
    by_cases hx : n = first
    · have hlt : ¬ (n < first) := by omega
      rw [if_pos hx] at hcount
      rw [if_pos hlt]
      omega
    · have hlt : ¬ ¬ (n < first) := by omega
      rw [if_neg hx] at hcount
      rw [if_neg hlt]
      exact hcount

/-- The loop of `count_edges_bin_search_other` adds, for every neighbor that
is neither of the two vertices, its number of occurrences in `other`. -/
theorem count_edges_bin_search_other_loop_eq (v_id this_id : ℕ) (E : List ℕ)
    (hE : E.Pairwise (· ≤ ·)) (T : List ℕ) (acc : ℕ) :
    count_edges_bin_search_other_loop v_id this_id E T acc =
      acc + (T.map (fun t => if t = v_id ∨ t = this_id then 0 else E.count t)).sum := by
  induction T generalizing acc with
  | nil => simp [count_edges_bin_search_other_loop]
  | cons t T1 ih =>
    unfold count_edges_bin_search_other_loop
    rw [List.map_cons, List.sum_cons]
    by_cases hskip : t = v_id ∨ t = this_id
    · rw [if_pos hskip, if_pos hskip, ih]
      omega
    · rw [if_neg hskip, if_neg hskip, ← bin_search_step E t hE]
      cases hlb : lower_bound E t with
      | nil =>
        simp only []
        rw [ih]
        omega
      | cons first after =>
        simp only []
        by_cases hlt : ¬ (t < first)
        · rw [if_pos hlt, if_pos hlt, ih]
          omega
        · rw [if_neg hlt, if_neg hlt, ih]
          omega

/-- Counting the entries that are in `t :: T1`, for `t` not in `T1`. -/
theorem countP_mem_cons (v_id this_id t : ℕ) (T1 E : List ℕ) (ht : t ∉ T1) :
    E.countP (fun e => decide (e ∈ t :: T1 ∧ e ≠ v_id ∧ e ≠ this_id)) =
      (if t = v_id ∨ t = this_id then 0 else E.count t) +
        E.countP (fun e => decide (e ∈ T1 ∧ e ≠ v_id ∧ e ≠ this_id)) := by
  induction E with
  | nil => simp
  | cons e E1 ih =>
    by_cases he : e = t
    · subst he
      have hnot : ¬ (e ∈ T1 ∧ e ≠ v_id ∧ e ≠ this_id) := fun h => ht h.1
      rw [countP_cons_of_not_ok T1 E1 v_id this_id e hnot, List.count_cons_self]
      by_cases hskip : e = v_id ∨ e = this_id
      · rw [if_pos hskip] at ih ⊢
        rw [countP_cons_of_not_ok (e :: T1) E1 v_id this_id e (by intro h; tauto), ih]
      · rw [if_neg hskip] at ih ⊢
        rw [countP_cons_of_ok (e :: T1) E1 v_id this_id e
          ⟨List.mem_cons_self _ _, by tauto, by tauto⟩, ih]
        omega
    · rw [List.count_cons_of_ne (Ne.symm he)]
      by_cases hin : e ∈ T1 ∧ e ≠ v_id ∧ e ≠ this_id
      · rw [countP_cons_of_ok T1 E1 v_id this_id e hin,
          countP_cons_of_ok (t :: T1) E1 v_id this_id e
            ⟨List.mem_cons_of_mem _ hin.1, hin.2⟩, ih]
        omega
      · rw [countP_cons_of_not_ok T1 E1 v_id this_id e hin,
          countP_cons_of_not_ok (t :: T1) E1 v_id this_id e
            (by
              intro h
              rcases List.mem_cons.1 h.1 with h1 | h1
              · exact he h1
              · exact hin ⟨h1, h.2⟩), ih]

/-- For a neighbor range without duplicates, the sum over the neighbors is
the number of entries of `other` that are in the range. -/
theorem sum_count_eq_countP (v_id this_id : ℕ) (E T : List ℕ) (hT : T.Nodup) :
    (T.map (fun t => if t = v_id ∨ t = this_id then 0 else E.count t)).sum =
      E.countP (fun e => decide (e ∈ T ∧ e ≠ v_id ∧ e ≠ this_id)) := by
  induction T with
  | nil => simp
  | cons t T1 ih =>
    rw [List.nodup_cons] at hT
    rw [List.map_cons, List.sum_cons, ih hT.2, countP_mem_cons v_id this_id t T1 E hT.1]

/-- After a match, the scan has counted the copies of the neighbor and goes on
behind them. -/
theorem countP_after_dups (v_id this_id t : ℕ) (T1 E1 : List ℕ)
    (hok : t ≠ v_id ∧ t ≠ this_id) (hE : E1.Pairwise (· ≤ ·)) (hge : ∀ x ∈ E1, t ≤ x) :
    E1.countP (fun e => decide (e ∈ t :: T1 ∧ e ≠ v_id ∧ e ≠ this_id)) =
      count_dups t E1 +
        (E1.drop (count_dups t E1)).countP
          (fun e => decide (e ∈ T1 ∧ e ≠ v_id ∧ e ≠ this_id)) := by
  induction E1 with
  | nil => simp [count_dups]
  | cons x rest ih =>
    rw [List.pairwise_cons] at hE
    unfold count_dups
    by_cases hx : t = x
    · rw [if_pos hx, List.drop_succ_cons,
        countP_cons_of_ok (t :: T1) rest v_id this_id x
          ⟨hx ▸ List.mem_cons_self _ _, hx ▸ hok.1, hx ▸ hok.2⟩,
        ih hE.2 (fun y hy => hge y (List.mem_cons_of_mem _ hy))]
      omega
    · rw [if_neg hx, List.drop_zero, Nat.zero_add]
      apply List.countP_congr
      intro y hy
      have htx : t ≤ x := hge x (List.mem_cons_self _ _)
      have hty : t < y := by
        rcases List.mem_cons.1 hy with h | h
        · omega
        · have := hE.1 y h
          omega
      have hne : y ≠ t := by omega
      simp only [List.mem_cons, hne, false_or]

/-- The loop of `count_edges_scan` on a strictly increasing neighbor range
and a sorted `other`: it returns, and adds the number of entries of `other`
that are in the range and are neither of the two vertices. -/
theorem count_edges_scan_loop_eq (v_id this_id : ℕ) (fuel : ℕ) (T E : List ℕ) (acc : ℕ)
    (hfuel : T.length + E.length < fuel) (hT : T.Pairwise (· < ·))
    (hE : E.Pairwise (· ≤ ·)) :
    count_edges_scan_loop v_id this_id fuel T E acc =
      some (acc + E.countP (fun e => decide (e ∈ T ∧ e ≠ v_id ∧ e ≠ this_id))) := by
  induction fuel generalizing T E acc with
  | zero => omega
  | succ fuel ih =>
    cases E with
    | nil => simp [count_edges_scan_loop]
    | cons e E1 =>
      cases T with
      | nil => simp [count_edges_scan_loop]
      | cons t T1 =>
        rw [List.pairwise_cons] at hT hE
        simp only [List.length_cons] at hfuel
        unfold count_edges_scan_loop
        simp only []
        by_cases hskip : e = v_id ∨ e = this_id
        · rw [if_pos hskip, ih (t :: T1) E1 acc (by simp only [List.length_cons]; omega)
            (List.pairwise_cons.2 hT) hE.2,
            countP_cons_of_not_ok (t :: T1) E1 v_id this_id e (by intro h; tauto)]
        · rw [if_neg hskip]
          have hok : e ≠ v_id ∧ e ≠ this_id := by tauto
          by_cases hte : t = e
          · have hdrop : (E1.drop (count_dups t E1)).length ≤ E1.length := by
              rw [List.length_drop]
              omega
            rw [if_pos hte, ih T1 (E1.drop (count_dups t E1)) _ (by omega) hT.2
              (hE.2.sublist (List.drop_sublist _ _)),
              countP_cons_of_ok (t :: T1) E1 v_id this_id e
                ⟨hte ▸ List.mem_cons_self _ _, hok⟩,
              countP_after_dups v_id this_id t T1 E1 (hte ▸ hok) hE.2
                (fun y hy => hte ▸ hE.1 y hy)]
            congr 1
            omega
          · rw [if_neg hte]
            by_cases hlt : t < e
            · rw [if_pos hlt, ih T1 (e :: E1) acc (by simp only [List.length_cons]; omega)
                hT.2 (List.pairwise_cons.2 hE)]
              congr 2
              apply List.countP_congr
              intro y hy
              have hty : t < y := by
                rcases List.mem_cons.1 hy with h | h
                · omega
                · have := hE.1 y h
                  omega
              have hne : y ≠ t := by omega
              simp only [List.mem_cons, hne, false_or]
            · rw [if_neg hlt, ih (t :: T1) E1 acc (by simp only [List.length_cons]; omega)
                (List.pairwise_cons.2 hT) hE.2,
                countP_cons_of_not_ok (t :: T1) E1 v_id this_id e
                  (by
                    intro h
                    rcases List.mem_cons.1 h.1 with h1 | h1
                    · exact hte h1.symm
                    · have := hT.1 e h1
                      omega)]

/-- Claim C28: for a strictly increasing neighbor list `L` of the vertex
`this_id`, with `contains` deciding membership in `L`, and a sorted edge list
`E` of the vertex `v_id` whose entries are smaller than `v_id`, the methods
`count_edges_hash`, `count_edges_bin_search_other` and `count_edges_scan`
(the last two on the neighbors before `std::lower_bound(v_id)`, as
`count_edges` calls them) all return the number of entries `e` of `E`,
counted with multiplicity, with `e` in `L`, `e ≠ v_id` and `e ≠ this_id`. -/
theorem count_edges_agree (v_id this_id : ℕ) (contains : ℕ → Bool) (L E : List ℕ)
    (hL : L.Pairwise (· < ·)) (hc : ∀ x, contains x = true ↔ x ∈ L)
    (hE : E.Pairwise (· ≤ ·)) (hEv : ∀ e ∈ E, e < v_id) :
    count_edges_hash v_id this_id contains E =
        E.countP (fun e => decide (e ∈ L ∧ e ≠ v_id ∧ e ≠ this_id)) ∧
      count_edges_bin_search_other v_id this_id (before_lower_bound L v_id) E =
        E.countP (fun e => decide (e ∈ L ∧ e ≠ v_id ∧ e ≠ this_id)) ∧
      count_edges_scan v_id this_id (before_lower_bound L v_id) E =
        some (E.countP (fun e => decide (e ∈ L ∧ e ≠ v_id ∧ e ≠ this_id))) := by
  have hT := before_lower_bound_pairwise L v_id hL
  have hcongr : E.countP
      (fun e => decide (e ∈ before_lower_bound L v_id ∧ e ≠ v_id ∧ e ≠ this_id)) =
      E.countP (fun e => decide (e ∈ L ∧ e ≠ v_id ∧ e ≠ this_id)) := by
    apply List.countP_congr
    intro e he
    have hlt := hEv e he
    simp only [decide_eq_true_eq, mem_before_lower_bound L v_id e hL]
    tauto
  refine ⟨?_, ?_, ?_⟩
  · unfold count_edges_hash
    rw [count_edges_hash_loop_eq v_id this_id contains L E hc, Nat.zero_add]
  · unfold count_edges_bin_search_other
    rw [count_edges_bin_search_other_loop_eq v_id this_id E hE, Nat.zero_add,
      sum_count_eq_countP v_id this_id E _ hT.nodup, hcongr]
  · unfold count_edges_scan
    rw [count_edges_scan_loop_eq v_id this_id _ _ E 0 (by omega) hT hE, Nat.zero_add, hcongr]

theorem count_edges_agree_witness :
    count_edges_hash 9 4 (fun x => decide (x ∈ ([1, 3, 4, 6, 8, 12] : List ℕ))) [1, 2, 3, 3, 4, 8, 8] =
        ([1, 2, 3, 3, 4, 8, 8] : List ℕ).countP
          (fun e => decide (e ∈ ([1, 3, 4, 6, 8, 12] : List ℕ) ∧ e ≠ 9 ∧ e ≠ 4)) ∧
      count_edges_bin_search_other 9 4 (before_lower_bound [1, 3, 4, 6, 8, 12] 9)
          [1, 2, 3, 3, 4, 8, 8] =
        ([1, 2, 3, 3, 4, 8, 8] : List ℕ).countP
          (fun e => decide (e ∈ ([1, 3, 4, 6, 8, 12] : List ℕ) ∧ e ≠ 9 ∧ e ≠ 4)) ∧
      count_edges_scan 9 4 (before_lower_bound [1, 3, 4, 6, 8, 12] 9) [1, 2, 3, 3, 4, 8, 8] =
        some (([1, 2, 3, 3, 4, 8, 8] : List ℕ).countP
          (fun e => decide (e ∈ ([1, 3, 4, 6, 8, 12] : List ℕ) ∧ e ≠ 9 ∧ e ≠ 4))) :=
  count_edges_agree 9 4 (fun x => decide (x ∈ ([1, 3, 4, 6, 8, 12] : List ℕ)))
    [1, 3, 4, 6, 8, 12] [1, 2, 3, 3, 4, 8, 8] (by decide) (by intro x; simp)
    (by decide) (by decide)

end neighbor_list

end fg
